import Mathlib

/-!
Verification of the FOORS+ routing core (`src/models/SimulationModel.ts`,
`src/types/Node.ts`, `src/types/Message.ts`) against its natural-language
specification.

Shallow embedding conventions:
* JavaScript `Map` objects are association lists (`List (k × v)`); `Map.get`
  returns the first binding, `Map.set` replaces the binding in place (keeping
  insertion order) or appends a new one, `Map.delete` removes the binding —
  exactly the observable JS semantics for maps whose keys are never duplicated.
* JavaScript `Set` objects are insertion-ordered lists; `Set.add` appends when
  the element is absent, `Set.delete` filters it out.
* Node / message / triage identifiers (`uuidv4()` in the source) are modelled
  as natural numbers allocated from the model's `nextId` counter; the counter
  models the freshness guarantee of the UUID factory.
* `Date.now()` is modelled by an explicit `now : Int` argument threaded into
  every operation that reads the clock (one timestamp per public operation,
  matching the source where all reads within one pass observe the same tick).
* JS numbers (coordinates, radii, speeds, message progress, tick deltas) are
  modelled as integers: every claim-relevant numeric step is exact linear
  arithmetic and comparison, and every concrete scenario uses integer values.
  The float comparison `sqrt (dx²+dy²) ≤ r` is modelled by the exact
  equivalent `dx²+dy² ≤ r²` (for the nonnegative radii the simulation uses).
* Listener notification (`notifyListeners`) is modelled by a counter
  `notifications` incremented once per firing; display-only state (colors,
  `radius`) is omitted.
-/

namespace Foors

abbrev NodeId := Nat

abbrev TriageId := Nat

/-- TriageSeverity from `src/types/Message.ts`. -/
inductive Severity
  | black
  | green
  | yellow
  | red
deriving DecidableEq, Repr, Inhabited

/-- MessageType from `src/types/Message.ts`. -/
inductive MessageKind
  | normal
  | triage
deriving DecidableEq, Repr, Inhabited

/-- NodeType from `src/types/Node.ts`. -/
inductive NodeType
  | source
  | sink
deriving DecidableEq, Repr, Inhabited

/-- RoutingMode from `src/types/Node.ts`. -/
inductive RoutingMode
  | intelligent
  | flooding
  | inactive
  | noConnections
deriving DecidableEq, Repr, Inhabited

/-- The `floodingReason` values of `RoutingState` in `src/types/Node.ts`. -/
inductive FloodingReason
  | noRoutes
  | routesExpired
  | noConnections
  | hasInactiveRoutes
deriving DecidableEq, Repr, Inhabited

/-- JS `Map.get`: the value of the first binding of key `k`. -/
def mGet {α : Type} (m : List (NodeId × α)) (k : NodeId) : Option α :=
  (m.find? (fun p => p.1 == k)).map (fun p => p.2)

/-- JS `Map.has`. -/
def mHas {α : Type} (m : List (NodeId × α)) (k : NodeId) : Bool :=
  (mGet m k).isSome

/-- JS `Map.set`: replace an existing binding in place, else append. -/
def mSet {α : Type} (m : List (NodeId × α)) (k : NodeId) (v : α) : List (NodeId × α) :=
  if mHas m k then m.map (fun p => if p.1 == k then (k, v) else p) else m ++ [(k, v)]

/-- JS `Map.delete`. -/
def mDel {α : Type} (m : List (NodeId × α)) (k : NodeId) : List (NodeId × α) :=
  m.filter (fun p => p.1 != k)

/-- JS `Map` keys in insertion order. -/
def mKeys {α : Type} (m : List (NodeId × α)) : List NodeId :=
  m.map (fun p => p.1)

/-- JS `Set.add`: append when absent. -/
def sAdd (s : List NodeId) (k : NodeId) : List NodeId :=
  if s.contains k then s else s ++ [k]

/-- JS `Set.delete`. -/
def sDel (s : List NodeId) (k : NodeId) : List NodeId :=
  s.filter (fun x => x != k)

/-- RoutingTableEntry from `src/types/Node.ts`: next hop ↦ total hop count, plus
`lastUpdate` timestamp. -/
structure RoutingTableEntry where
  nextHops : List (NodeId × Nat)
  lastUpdate : Int
deriving DecidableEq, Repr, Inhabited

/-- InactiveRoutingTableEntry from `src/types/Node.ts`. -/
structure InactiveRoutingTableEntry where
  sinkId : NodeId
  lastActiveEntry : RoutingTableEntry
  inactiveSince : Int
deriving DecidableEq, Repr, Inhabited

/-- RoutingState from `src/types/Node.ts`. -/
structure RoutingState where
  mode : RoutingMode
  activeRoutes : Nat
  expiredRoutes : Nat
  inactiveRoutes : Nat
  floodingReason : Option FloodingReason
  lastStateChange : Int
deriving DecidableEq, Repr, Inhabited

/-- QueuedTriage from `src/types/Node.ts`. -/
structure QueuedTriage where
  triageId : TriageId
  severity : Severity
  queuedAt : Int
deriving DecidableEq, Repr, Inhabited

/-- Node from `src/types/Node.ts` (display-only fields `radius` and `color`
omitted; `position` and `velocity` are inlined as integer coordinates). -/
structure SimNode where
  id : NodeId
  type : NodeType
  posX : Int
  posY : Int
  velX : Int
  velY : Int
  connectionRadius : Int
  selected : Bool
  connections : List NodeId
  lastMessageReceivedAt : Option Int
  triageStore : List TriageId
  triageQueue : List QueuedTriage
  sentTriagesToSinks : List (TriageId × List NodeId)
  routingTable : List (NodeId × RoutingTableEntry)
  inactiveRoutingTables : List (NodeId × InactiveRoutingTableEntry)
  routingState : RoutingState
deriving DecidableEq, Repr, Inhabited

/-- Message from `src/types/Message.ts` (display-only `color` omitted). -/
structure Message where
  id : Nat
  fromNodeId : NodeId
  toNodeId : NodeId
  progress : Int
  speed : Int
  createdAt : Int
  type : MessageKind
  triageId : Option TriageId
  triageSeverity : Option Severity
deriving DecidableEq, Repr, Inhabited

/-- DEFAULT_MESSAGE_CONFIG.defaultSpeed from `src/types/Message.ts`. -/
def defaultSpeed : Int := 2

/-- The private state of class SimulationModel (`src/models/SimulationModel.ts`),
plus the uuid counter `nextId` and the listener-firing counter
`notifications`. -/
structure ModelState where
  nodes : List SimNode
  messages : List Message
  connectionRadius : Int
  inactiveRoutingTimeout : Int
  isAutoGenerating : Bool
  triageGenerationInterval : Int
  lastTriageGeneration : Int
  nextId : Nat
  notifications : Nat
deriving DecidableEq, Repr, Inhabited

/-- The constructor-default model state (`connectionRadius = 2.0`,
`inactiveRoutingTimeout = 1000`, `triageGenerationInterval = 3000`). -/
def initialModel : ModelState where
  nodes := []
  messages := []
  connectionRadius := 2
  inactiveRoutingTimeout := 1000
  isAutoGenerating := false
  triageGenerationInterval := 3000
  lastTriageGeneration := 0
  nextId := 0
  notifications := 0

/-- notifyListeners: fire every subscribed listener once (modelled as a
counter increment). -/
def notifyListeners (m : ModelState) : ModelState :=
  { m with notifications := m.notifications + 1 }

/-- setInactiveRoutingTimeout (`SimulationModel.ts:33-36`): store the value and
notify. The source performs no range check. -/
def setInactiveRoutingTimeout (m : ModelState) (timeout : Int) : ModelState :=
  notifyListeners { m with inactiveRoutingTimeout := timeout }

/-- setTriageGenerationInterval (`SimulationModel.ts:74-77`): store the value
and notify. The source performs no range check. -/
def setTriageGenerationInterval (m : ModelState) (interval : Int) : ModelState :=
  notifyListeners { m with triageGenerationInterval := interval }

/-- getNode (`SimulationModel.ts:142-144`). -/
def findNode (m : ModelState) (id : NodeId) : Option SimNode :=
  m.nodes.find? (fun n => n.id == id)

/-- removeNode (`SimulationModel.ts:175-182`): purge the id from every
connection set, drop the node, notify (unconditionally). -/
def removeNode (m : ModelState) (id : NodeId) : ModelState :=
  let nodes1 := m.nodes.map (fun n => { n with connections := sDel n.connections id })
  notifyListeners { m with nodes := nodes1.filter (fun n => n.id != id) }

/-- updateNodeVelocity (`SimulationModel.ts:221-228`): silent no-op when the id
is unknown. -/
def updateNodeVelocity (m : ModelState) (id : NodeId) (vx vy : Int) : ModelState :=
  match findNode m id with
  | none => m
  | some _ =>
      notifyListeners
        { m with nodes := m.nodes.map (fun n =>
            if n.id == id then { n with velX := vx, velY := vy } else n) }

/-- ROUTE_TIMEOUT (`SimulationModel.ts:608,957`): 5 minutes in milliseconds. -/
def ROUTE_TIMEOUT : Int := 5 * 60 * 1000

/-- The per-node body of updateRoutingStates (`SimulationModel.ts:606-681`):
count active and expired routes, count inactive tables, pick the mode by the
source's if-chain, and update `lastStateChange` only on a mode change. -/
def classifyNode (node : SimNode) (now : Int) : SimNode :=
  let counts := node.routingTable.foldl
    (fun (ae : Nat × Nat) p =>
      if now - p.2.lastUpdate < ROUTE_TIMEOUT then (ae.1 + 1, ae.2) else (ae.1, ae.2 + 1))
    (0, 0)
  let activeRoutes := counts.1
  let expiredRoutes := counts.2
  let inactiveRoutes := node.inactiveRoutingTables.length
  let md : RoutingMode × Option FloodingReason :=
    if node.connections.length = 0 then
      (.noConnections, some .noConnections)
    else if node.type = .sink ∧ activeRoutes = 0 ∧ expiredRoutes = 0 ∧ inactiveRoutes = 0 then
      (.intelligent, none)
    else if inactiveRoutes > 0 then
      (.inactive, some .hasInactiveRoutes)
    else if activeRoutes > 0 then
      (.intelligent, none)
    else if expiredRoutes > 0 then
      (.flooding, some .routesExpired)
    else
      (.flooding, some .noRoutes)
  let modeChanged := md.1 ≠ node.routingState.mode
  { node with
    routingState :=
      { mode := md.1
        activeRoutes := activeRoutes
        expiredRoutes := expiredRoutes
        inactiveRoutes := inactiveRoutes
        floodingReason := md.2
        lastStateChange := if modeChanged then now else node.routingState.lastStateChange } }

/-- updateRoutingStates (`SimulationModel.ts:606-681`): classify every node. -/
def updateRoutingStates (m : ModelState) (now : Int) : ModelState :=
  { m with nodes := m.nodes.map (fun n => classifyNode n now) }

/-- getMultiRouteCap (`SimulationModel.ts:922-937`). -/
def getMultiRouteCap (messageType : Option MessageKind) (triageSeverity : Option Severity) : Nat :=
  match messageType with
  | some .triage =>
      match triageSeverity with
      | some .red => 3
      | some .yellow => 2
      | _ => 1
  | _ => 1

/-- Current load of a peer (`SimulationModel.ts:988-990`): in-flight messages
from `nodeId` to `peerId`. -/
def getLoad (m : ModelState) (nodeId peerId : NodeId) : Nat :=
  m.messages.foldl
    (fun count msg =>
      if msg.fromNodeId == nodeId ∧ msg.toNodeId == peerId ∧ msg.progress < 1
      then count + 1 else count)
    0

/-- The `neighborCoverage` map of selectRoutingTargets
(`SimulationModel.ts:960-970`): peer ↦ sinks reachable through that peer via a
non-expired route, excluding the optional excluded peer. -/
def neighborCoverage (node : SimNode) (excludeNodeId : Option NodeId) (now : Int) :
    List (NodeId × List NodeId) :=
  node.routingTable.foldl
    (fun cov p =>
      if now - p.2.lastUpdate < ROUTE_TIMEOUT then
        p.2.nextHops.foldl
          (fun cov2 hop =>
            if some hop.1 = excludeNodeId then cov2
            else mSet cov2 hop.1 (sAdd ((mGet cov2 hop.1).getD []) p.1))
          cov
      else cov)
    []

/-- The marginal coverage gain of a candidate peer
(`SimulationModel.ts:998-1001`): its covered sinks not yet in `coveredSinks`. -/
def gainOf (coverage : List (NodeId × List NodeId)) (covered : List NodeId) (q : NodeId) : Nat :=
  (((mGet coverage q).getD []).filter (fun s => !(covered.contains s))).length

/-- The loop body of the best-peer scan (`SimulationModel.ts:997-1009`). -/
def pickStep (m : ModelState) (nodeId : NodeId) (coverage : List (NodeId × List NodeId))
    (covered : List NodeId) (best : Option (NodeId × Nat × Nat)) (peerId : NodeId) :
    Option (NodeId × Nat × Nat) :=
  let gain := gainOf coverage covered peerId
  let load := getLoad m nodeId peerId
  match best with
  | none => some (peerId, gain, load)
  | some (bp, bg, bl) =>
      if gain > bg ∨ (gain = bg ∧ load < bl) then some (peerId, gain, load)
      else some (bp, bg, bl)

/-- One scan of `remaining` looking for the best peer
(`SimulationModel.ts:994-1009`). The source initializes `bestPeer = null`,
`bestGain = -1`, `bestLoad = Infinity`; since every gain is `≥ 0 > -1` the
first candidate always replaces the initial sentinel, so the sentinel triple is
modelled by `none`. -/
def pickBest (m : ModelState) (nodeId : NodeId) (coverage : List (NodeId × List NodeId))
    (covered : List NodeId) (remaining : List NodeId) : Option (NodeId × Nat × Nat) :=
  remaining.foldl (pickStep m nodeId coverage covered) none

/-- The greedy selection loop of selectRoutingTargets
(`SimulationModel.ts:992-1014`), fuelled by the size of `remaining` (each
iteration removes the chosen peer, so that fuel always suffices). -/
def greedyLoop (m : ModelState) (nodeId : NodeId) (coverage : List (NodeId × List NodeId))
    (cap : Nat) :
    Nat → List NodeId → List NodeId → List NodeId → List NodeId
  | 0, selected, _, _ => selected
  | fuel + 1, selected, covered, remaining =>
      if selected.length < cap ∧ remaining ≠ [] then
        match pickBest m nodeId coverage covered remaining with
        | none => selected
        | some best =>
            greedyLoop m nodeId coverage cap fuel
              (selected ++ [best.1])
              (((mGet coverage best.1).getD []).foldl sAdd covered)
              (sDel remaining best.1)
      else selected

/-- selectRoutingTargets (`SimulationModel.ts:945-1045`): intelligent mode uses
coverage-greedy selection under the severity cap, flooding and inactive modes
target every neighbor except the excluded one, no-connections targets nobody.
The returned JS `Set` is modelled as its insertion-ordered element list. -/
def selectRoutingTargets (m : ModelState) (node : SimNode) (excludeNodeId : Option NodeId)
    (messageType : Option MessageKind) (triageSeverity : Option Severity) (now : Int) :
    List NodeId :=
  if node.routingState.mode = .intelligent then
    let coverage := neighborCoverage node excludeNodeId now
    let candidates := mKeys coverage
    if candidates = [] then []
    else
      let cap := getMultiRouteCap messageType triageSeverity
      if cap ≥ candidates.length then candidates
      else
        let selected := greedyLoop m node.id coverage cap candidates.length [] [] candidates
        if selected = [] then
          match
            candidates.foldl
              (fun pick peerId =>
                let load := getLoad m node.id peerId
                match pick with
                | none => some (peerId, load)
                | some pl => if load < pl.2 then some (peerId, load) else some pl)
              none with
          | none => []
          | some pick => [pick.1]
        else selected
  else if node.routingState.mode = .flooding ∨ node.routingState.mode = .inactive then
    node.connections.foldl
      (fun tgts peerId => if some peerId = excludeNodeId then tgts else sAdd tgts peerId)
      []
  else []

/-- Replace the node with the given id (the source mutates the found node
object in place; node ids are unique in every reachable state). -/
def setNodeById (m : ModelState) (node : SimNode) : ModelState :=
  { m with nodes := m.nodes.map (fun n => if n.id == node.id then node else n) }

/-- Build a fresh in-flight message (`progress = 0`, default speed), as every
`this.messages.push({...})` site of the source does. -/
def mkMessage (id : Nat) (fromN toN : NodeId) (now : Int) (kind : MessageKind)
    (tid : Option TriageId) (sev : Option Severity) : Message where
  id := id
  fromNodeId := fromN
  toNodeId := toN
  progress := 0
  speed := defaultSpeed
  createdAt := now
  type := kind
  triageId := tid
  triageSeverity := sev

/-- The `sinksBeingTargeted` computation of §4.5 (`SimulationModel.ts:832-840`
and `1119-1125`): the node's own id when it is a sink, plus every routing-table
key. -/
def sinkIdsFor (node : SimNode) : List NodeId :=
  (mKeys node.routingTable).foldl sAdd (if node.type = .sink then [node.id] else [])

/-- Record in `sentTriagesToSinks` that `nodeId` has pushed triage `tid`
towards each sink in `sinkIds` (`SimulationModel.ts:861-868` and
`1155-1163`). -/
def markSentTriages (m : ModelState) (nodeId : NodeId) (tid : TriageId)
    (sinkIds : List NodeId) : ModelState :=
  match findNode m nodeId with
  | none => m
  | some node =>
      let per := (mGet node.sentTriagesToSinks tid).getD []
      setNodeById m
        { node with sentTriagesToSinks := mSet node.sentTriagesToSinks tid (sinkIds.foldl sAdd per) }

/-- The per-target emission loop of sendMessage (`SimulationModel.ts:842-869`). -/
def emitToTargets (m : ModelState) (fromNodeId : NodeId) (targets : List NodeId)
    (messageType : MessageKind) (triageId : Option TriageId) (severity : Option Severity)
    (sinkIdsForSend : List NodeId) (now : Int) : ModelState :=
  targets.foldl
    (fun st toNodeId =>
      let st1 := { st with
        messages := st.messages ++ [mkMessage st.nextId fromNodeId toNodeId now messageType triageId severity]
        nextId := st.nextId + 1 }
      match triageId with
      | some tid =>
          if messageType = .triage ∧ sinkIdsForSend ≠ [] then
            markSentTriages st1 fromNodeId tid sinkIdsForSend
          else st1
      | none => st1)
    m

/-- sendMessage (`SimulationModel.ts:801-872`): allocate a triage id, store it,
queue when isolated, otherwise emit one message per selected target and record
the targeted sinks. Unknown sender ids are silent no-ops. -/
def sendMessage (m : ModelState) (fromNodeId : NodeId) (messageType : MessageKind)
    (triageSeverity : Option Severity) (now : Int) : ModelState :=
  match findNode m fromNodeId with
  | none => m
  | some fromNode =>
      if messageType = .triage then
        let tid := m.nextId
        let severity := triageSeverity.getD .red
        let fromNode1 := { fromNode with triageStore := sAdd fromNode.triageStore tid }
        let m1 := setNodeById { m with nextId := m.nextId + 1 } fromNode1
        if fromNode1.connections = [] then
          notifyListeners
            (setNodeById m1
              { fromNode1 with triageQueue := fromNode1.triageQueue ++ [⟨tid, severity, now⟩] })
        else
          let targets := selectRoutingTargets m1 fromNode1 (some fromNodeId) (some .triage) (some severity) now
          notifyListeners
            (emitToTargets m1 fromNodeId targets .triage (some tid) (some severity) (sinkIdsFor fromNode1) now)
      else
        let targets := selectRoutingTargets m fromNode (some fromNodeId) (some messageType) none now
        notifyListeners (emitToTargets m fromNodeId targets messageType none none [] now)

/-- sendQueuedTriage (`SimulationModel.ts:879-916`): flood a previously queued
triage to every current neighbor; silently return when the triage is not in
the node's store. -/
def sendQueuedTriage (m : ModelState) (fromNodeId : NodeId) (tid : TriageId)
    (severity : Severity) (now : Int) : ModelState :=
  match findNode m fromNodeId with
  | none => m
  | some fromNode =>
      if !(fromNode.triageStore.contains tid) then m
      else
        let targets := fromNode.connections.foldl sAdd []
        notifyListeners
          (targets.foldl
            (fun st toNodeId =>
              { st with
                messages := st.messages ++ [mkMessage st.nextId fromNodeId toNodeId now .triage (some tid) (some severity)]
                nextId := st.nextId + 1 })
            m)

/-- The per-target forwarding loop of onMessageArrival
(`SimulationModel.ts:1139-1164`): forwarded copies preserve kind, triage id and
severity; after each push the node's sent-to-sinks map absorbs
`sinkIdsForForward`. -/
def forwardToTargets (m : ModelState) (nodeId : NodeId) (targets : List NodeId)
    (message : Message) (tid : Option TriageId) (sinkIds : List NodeId) (now : Int) : ModelState :=
  targets.foldl
    (fun st toNodeId =>
      let st1 := { st with
        messages := st.messages ++ [mkMessage st.nextId nodeId toNodeId now message.type message.triageId message.triageSeverity]
        nextId := st.nextId + 1 }
      match tid with
      | some t => if sinkIds ≠ [] then markSentTriages st1 nodeId t sinkIds else st1
      | none => st1)
    m

/-- The forwarding tail of onMessageArrival (`SimulationModel.ts:1113-1167`):
select targets excluding the sender, apply per-sink forwarding suppression in
intelligent mode, then forward and notify. -/
def arrivalForward (m : ModelState) (node : SimNode) (message : Message) (now : Int) : ModelState :=
  let targets := selectRoutingTargets m node (some message.fromNodeId) (some message.type) message.triageSeverity now
  match message.type, message.triageId with
  | .triage, some tid =>
      let sinkIds := sinkIdsFor node
      let suppressed : Bool :=
        decide (node.routingState.mode = .intelligent) &&
          (match mGet node.sentTriagesToSinks tid with
           | some per => (!sinkIds.isEmpty) && sinkIds.all (fun s => per.contains s)
           | none => false)
      if suppressed then m
      else notifyListeners (forwardToTargets m node.id targets message (some tid) sinkIds now)
  | _, _ => notifyListeners (forwardToTargets m node.id targets message none [] now)

/-- The queue-on-disconnection step of onMessageArrival
(`SimulationModel.ts:1100-1110`), reached only for triage arrivals. -/
def arrivalQueueOrForward (m : ModelState) (node : SimNode) (message : Message)
    (tid : TriageId) (now : Int) : ModelState :=
  if node.connections = [] then
    notifyListeners
      (setNodeById m
        { node with triageQueue := node.triageQueue ++ [⟨tid, message.triageSeverity.getD .red, now⟩] })
  else arrivalForward m node message now

/-- onMessageArrival (`SimulationModel.ts:1078-1169`): stamp the arrival time;
for triage messages apply strict dedup in flooding and inactive modes (silent
drop), a soft store insert otherwise, queue when disconnected; then forward. -/
def onMessageArrival (m : ModelState) (message : Message) (now : Int) : ModelState :=
  match findNode m message.toNodeId with
  | none => m
  | some node0 =>
      let node1 := { node0 with lastMessageReceivedAt := some now }
      let m1 := setNodeById m node1
      match message.type, message.triageId with
      | .triage, some tid =>
          if node1.routingState.mode = .flooding ∨ node1.routingState.mode = .inactive then
            if node1.triageStore.contains tid then m1
            else
              let node2 := { node1 with triageStore := sAdd node1.triageStore tid }
              arrivalQueueOrForward (setNodeById m1 node2) node2 message tid now
          else
            let node2 := { node1 with triageStore := sAdd node1.triageStore tid }
            arrivalQueueOrForward (setNodeById m1 node2) node2 message tid now
      | _, _ => arrivalForward m1 node1 message now

/-- The per-index body of the `forEach` of updateMessages
(`SimulationModel.ts:1059-1067`): advance the message at index `i` and fire
its arrival when it crosses `progress = 1`. -/
def advanceStep (dt now : Int) (acc : ModelState × List Message) (i : Nat) :
    ModelState × List Message :=
  match acc.1.messages[i]? with
  | none => acc
  | some msg =>
      let oldP := msg.progress
      let msg1 := { msg with progress := oldP + msg.speed * dt }
      let st1 := { acc.1 with messages := acc.1.messages.set i msg1 }
      if oldP < 1 ∧ 1 ≤ msg1.progress then (onMessageArrival st1 msg1 now, acc.2 ++ [msg1])
      else (st1, acc.2)

/-- updateMessages (`SimulationModel.ts:1057-1071`): advance exactly the
messages present when the pass starts (JS `forEach` does not visit elements
appended during iteration), fire arrivals for those that cross `progress = 1`,
then drop completed messages. The second component is the ordered list of
arrival events (the advanced messages handed to onMessageArrival), a ghost
observation used only in theorem statements. -/
def updateMessages (m : ModelState) (dt : Int) (now : Int) : ModelState × List Message :=
  let k := m.messages.length
  let res := (List.range k).foldl (advanceStep dt now) (m, ([] : List Message))
  ({ res.1 with messages := res.1.messages.filter (fun msg => msg.progress < 1) }, res.2)

/-- The per-triage body of syncNewSinkFromExistingSinks
(`SimulationModel.ts:254-288`): skip triages the new sink has seen or that this
sink already pushed towards it, else emit one red message per next hop of the
route to the new sink and record the new sink as targeted. -/
def syncSinkTriage (m : ModelState) (sinkId newSinkId : NodeId)
    (nextHops : List (NodeId × Nat)) (tid : TriageId) (now : Int) : ModelState :=
  match findNode m newSinkId with
  | none => m
  | some newSink =>
      if newSink.triageStore.contains tid then m
      else
        match findNode m sinkId with
        | none => m
        | some sink =>
            let alreadySent :=
              match mGet sink.sentTriagesToSinks tid with
              | some per => per.contains newSinkId
              | none => false
            if alreadySent then m
            else
              let m1 := nextHops.foldl
                (fun st hop =>
                  { st with
                    messages := st.messages ++ [mkMessage st.nextId sinkId hop.1 now .triage (some tid) (some .red)]
                    nextId := st.nextId + 1 })
                m
              setNodeById m1
                { sink with
                  sentTriagesToSinks :=
                    mSet sink.sentTriagesToSinks tid
                      (sAdd ((mGet sink.sentTriagesToSinks tid).getD []) newSinkId) }

/-- The per-existing-sink body of syncNewSinkFromExistingSinks
(`SimulationModel.ts:249-289`): only sinks with a nonempty route to the new
sink participate. -/
def syncOneSink (m : ModelState) (sinkId newSinkId : NodeId) (now : Int) : ModelState :=
  match findNode m sinkId with
  | none => m
  | some sink =>
      match mGet sink.routingTable newSinkId with
      | none => m
      | some routeEntry =>
          if routeEntry.nextHops = [] then m
          else
            sink.triageStore.foldl
              (fun st tid => syncSinkTriage st sinkId newSinkId routeEntry.nextHops tid now)
              m

/-- syncNewSinkFromExistingSinks (`SimulationModel.ts:243-292`): when a sink
joins an already routed network, existing sinks send it every triage it has
not yet seen along their routing tables (severity hard-coded to red). -/
def syncNewSinkFromExistingSinks (m : ModelState) (newSinkId : NodeId) (now : Int) : ModelState :=
  match findNode m newSinkId with
  | none => m
  | some newSink =>
      if newSink.type ≠ .sink then m
      else
        let existingSinkIds :=
          (m.nodes.filter (fun n => decide (n.type = .sink) && (n.id != newSinkId))).map (fun n => n.id)
        if existingSinkIds = [] then m
        else
          notifyListeners
            (existingSinkIds.foldl (fun st sid => syncOneSink st sid newSinkId now) m)

/-- One iteration of the O(n²) pair scan of updateConnections
(`SimulationModel.ts:312-329`): link the nodes at positions `i < j` when their
distance is within the larger of the two connection radii (the float
comparison `sqrt (dx²+dy²) ≤ maxR` is modelled by the exact squared form). -/
def connectPair (nds : List SimNode) (i j : Nat) : List SimNode :=
  match nds[i]?, nds[j]? with
  | some a, some b =>
      let dx := b.posX - a.posX
      let dy := b.posY - a.posY
      let maxR := max a.connectionRadius b.connectionRadius
      if dx * dx + dy * dy ≤ maxR * maxR then
        (nds.set i { a with connections := sAdd a.connections b.id }).set j
          { b with connections := sAdd b.connections a.id }
      else nds
  | _, _ => nds

/-- The link-recompute phase of updateConnections
(`SimulationModel.ts:306-329`): clear every connection set, then scan every
pair `i < j`. -/
def recomputeConnections (nds : List SimNode) : List SimNode :=
  let cleared := nds.map (fun n => { n with connections := [] })
  (List.range cleared.length).foldl
    (fun acc i =>
      (List.range cleared.length).foldl
        (fun acc2 j => if i < j then connectPair acc2 i j else acc2)
        acc)
    cleared

/-- The queued-triage flush of updateConnections (`SimulationModel.ts:335-355`):
clear the queue first, then flood each queued triage. -/
def queueFlushStep (m : ModelState) (nodeId : NodeId) (now : Int) : ModelState :=
  match findNode m nodeId with
  | none => m
  | some node =>
      if node.connections.length > 0 ∧ node.triageQueue ≠ [] then
        let queued := node.triageQueue
        let m1 := setNodeById m { node with triageQueue := [] }
        queued.foldl (fun st q => sendQueuedTriage st nodeId q.triageId q.severity now) m1
      else m

/-- The new-sink-neighbor push of the new-link replay
(`SimulationModel.ts:366-391`): send the peer every stored triage it has not
seen, severity hard-coded to red. -/
def newLinkSinkPush (m : ModelState) (nodeId : NodeId) (peer : SimNode)
    (store : List TriageId) (now : Int) : ModelState :=
  store.foldl
    (fun st tid =>
      if peer.triageStore.contains tid then st
      else
        { st with
          messages := st.messages ++ [mkMessage st.nextId nodeId peer.id now .triage (some tid) (some .red)]
          nextId := st.nextId + 1 })
    m

/-- The per-triage body of the general new-link replay
(`SimulationModel.ts:398-431`): seed the triage across the boundary when the
peer reaches a sink this node has not yet targeted, then mark all
peer-reachable sinks as targeted. -/
def boundarySeedTriage (m : ModelState) (nodeId peerId : NodeId) (reachable : List NodeId)
    (peerStore : List TriageId) (tid : TriageId) (now : Int) : ModelState :=
  match findNode m nodeId with
  | none => m
  | some node =>
      let perTriage := mGet node.sentTriagesToSinks tid
      let hasNewSinkTarget := reachable.any
        (fun s => match perTriage with | none => true | some per => !(per.contains s))
      if !hasNewSinkTarget then m
      else
        let m1 :=
          if peerStore.contains tid then m
          else
            { m with
              messages := m.messages ++ [mkMessage m.nextId nodeId peerId now .triage (some tid) (some .red)]
              nextId := m.nextId + 1 }
        setNodeById m1
          { node with
            sentTriagesToSinks :=
              mSet node.sentTriagesToSinks tid
                (reachable.foldl sAdd ((mGet node.sentTriagesToSinks tid).getD [])) }

/-- The new-link replay of updateConnections (`SimulationModel.ts:357-438`)
for one newly appeared peer of one node. -/
def newLinkReplay (m : ModelState) (nodeId peerId : NodeId) (now : Int) : ModelState :=
  match findNode m peerId with
  | none => m
  | some peer =>
      match findNode m nodeId with
      | none => m
      | some node =>
          if peer.type = .sink ∧ node.triageStore ≠ [] then
            let m1 := newLinkSinkPush m nodeId peer node.triageStore now
            if m1.messages ≠ [] then notifyListeners m1 else m1
          else
            let reachable := mKeys peer.routingTable
            if reachable ≠ [] ∧ node.triageStore ≠ [] then
              let m1 := node.triageStore.foldl
                (fun st tid => boundarySeedTriage st nodeId peerId reachable peer.triageStore tid now)
                m
              if m1.messages ≠ [] then notifyListeners m1 else m1
            else m

/-- The per-node body of the second phase of updateConnections
(`SimulationModel.ts:335-439`): flush the queue, then replay across every
newly formed link of this node. -/
def phase2Node (prevNeighbors : List (NodeId × List NodeId)) (now : Int)
    (m : ModelState) (i : Nat) : ModelState :=
  match m.nodes[i]? with
  | none => m
  | some node =>
      let m1 := queueFlushStep m node.id now
      let prev := (mGet prevNeighbors node.id).getD []
      node.connections.foldl
        (fun st peerId => if prev.contains peerId then st else newLinkReplay st node.id peerId now)
        m1

/-- updateConnections (`SimulationModel.ts:297-440`): record the previous
neighbor sets, recompute links from positions and radii, then flush queues and
replay across new links. -/
def updateConnections (m : ModelState) (now : Int) : ModelState :=
  let prevNeighbors := m.nodes.map (fun n => (n.id, n.connections))
  let nds := recomputeConnections m.nodes
  (List.range nds.length).foldl (phase2Node prevNeighbors now) { m with nodes := nds }

/-- Adjacency projection used by the BFS of updateRoutingTables: the BFS reads
nodes only through `find` by id followed by `.connections`
(`SimulationModel.ts:507-523`). -/
abbrev AdjList := List (NodeId × List NodeId)

/-- Projection of a node list to its adjacency data. -/
def projAdj (nds : List SimNode) : AdjList := nds.map (fun n => (n.id, n.connections))

/-- One neighbor visit of the BFS inner loop (`SimulationModel.ts:515-522`):
assign the distance and enqueue when the neighbor is unvisited. -/
def bfsStep (d : Nat) (acc : List (NodeId × Nat) × List NodeId) (nb : NodeId) :
    List (NodeId × Nat) × List NodeId :=
  if mHas acc.1 nb then acc else (acc.1 ++ [(nb, d + 1)], acc.2 ++ [nb])

/-- One dequeue step of the BFS loop (`SimulationModel.ts:507-523`): look up
the current node (skip when absent, as `continue` does), then append every
unvisited neighbor to the distance map and the queue. The `distances.get(...)!`
assertion of the source is modelled by a skip that the queue invariant makes
unreachable. The `parents` map of the source is write-only and omitted. -/
def bfsRound (adjL : AdjList) (c : NodeId) (dist : List (NodeId × Nat)) :
    List (NodeId × Nat) × List NodeId :=
  match mGet adjL c with
  | none => (dist, [])
  | some conns =>
      match mGet dist c with
      | none => (dist, [])
      | some d => conns.foldl (bfsStep d) (dist, ([] : List NodeId))

/-- The fuelled BFS work loop; the fuel bound `bfsFuel` below always lets the
queue drain completely. -/
def bfsVisit (adjL : AdjList) : Nat → List NodeId → List (NodeId × Nat) → List (NodeId × Nat)
  | 0, _, dist => dist
  | _ + 1, [], dist => dist
  | fuel + 1, c :: rest, dist =>
      let r := bfsRound adjL c dist
      bfsVisit adjL fuel (rest ++ r.2) r.1

/-- Fuel that always suffices: every enqueue adds a fresh key to the distance
map, and fresh keys all occur in some adjacency list. -/
def bfsFuel (adjL : AdjList) : Nat := 2 + (adjL.map (fun p => p.2.length)).sum

/-- The hop-count map produced by BFS from a sink
(`SimulationModel.ts:498-523`). -/
def bfsDistances (adjL : AdjList) (start : NodeId) : List (NodeId × Nat) :=
  bfsVisit adjL (bfsFuel adjL) [start] [(start, 0)]

/-- One neighbor check of the next-hop computation
(`SimulationModel.ts:549-555`). -/
def nextHopStep (dist : List (NodeId × Nat)) (hopCount : Nat)
    (nh : List (NodeId × Nat)) (nb : NodeId) : List (NodeId × Nat) :=
  match mGet dist nb with
  | some dnb => if dnb < hopCount then mSet nh nb (dnb + 1) else nh
  | none => nh

/-- The next-hop computation of updateRoutingTables
(`SimulationModel.ts:547-556`): neighbors strictly closer to the sink, mapped
to their total hop count. -/
def nextHopsFor (dist : List (NodeId × Nat)) (node : SimNode) (hopCount : Nat) :
    List (NodeId × Nat) :=
  node.connections.foldl (nextHopStep dist hopCount) []

/-- Demote a routing-table entry to the inactive tables
(`SimulationModel.ts:472-481` and `532-543`). -/
def demoteEntry (node : SimNode) (sinkId : NodeId) (entry : RoutingTableEntry) (now : Int) :
    SimNode :=
  { node with
    inactiveRoutingTables := mSet node.inactiveRoutingTables sinkId ⟨sinkId, entry, now⟩
    routingTable := mDel node.routingTable sinkId }

/-- The per-node update for one sink's BFS result
(`SimulationModel.ts:525-582`). -/
def processSinkNode (dist : List (NodeId × Nat)) (sinkId : NodeId) (now : Int)
    (node : SimNode) : SimNode :=
  if node.id = sinkId then node
  else
    match mGet dist node.id with
    | none =>
        match mGet node.routingTable sinkId with
        | some entry => demoteEntry node sinkId entry now
        | none => node
    | some hopCount =>
        let nextHops := nextHopsFor dist node hopCount
        if nextHops.length > 0 then
          { node with
            routingTable := mSet node.routingTable sinkId ⟨nextHops, now⟩
            inactiveRoutingTables :=
              if mHas node.inactiveRoutingTables sinkId then mDel node.inactiveRoutingTables sinkId
              else node.inactiveRoutingTables }
        else
          let node1 :=
            match mGet node.routingTable sinkId with
            | some entry =>
                { node with
                  inactiveRoutingTables := mSet node.inactiveRoutingTables sinkId ⟨sinkId, entry, now⟩ }
            | none => node
          { node1 with routingTable := mDel node1.routingTable sinkId }

/-- One sink's pass of updateRoutingTables: BFS from the sink over the current
adjacency, then update every node. -/
def processSink (now : Int) (nds : List SimNode) (sinkId : NodeId) : List SimNode :=
  let dist := bfsDistances (projAdj nds) sinkId
  nds.map (processSinkNode dist sinkId now)

/-- The first pass of updateRoutingTables (`SimulationModel.ts:461-482`):
demote entries whose sink no longer exists. -/
def demotePass (sinkIds : List NodeId) (now : Int) (node : SimNode) : SimNode :=
  let keysToTransition := (mKeys node.routingTable).filter (fun sid => !(sinkIds.contains sid))
  keysToTransition.foldl
    (fun nd sid =>
      match mGet nd.routingTable sid with
      | some entry => demoteEntry nd sid entry now
      | none => nd)
    node

/-- The inactive-table cleanup of updateRoutingTables
(`SimulationModel.ts:484-495`): delete entries older than the configured
timeout. -/
def cleanupInactive (timeout : Int) (now : Int) (node : SimNode) : SimNode :=
  { node with
    inactiveRoutingTables :=
      node.inactiveRoutingTables.filter (fun p => !(now - p.2.inactiveSince > timeout)) }

/-- updateRoutingTables (`SimulationModel.ts:454-598`): demote entries of
vanished sinks, clean up expired inactive entries, run BFS from every sink,
reclassify every node, then resync sinks that have routes to other sinks. -/
def updateRoutingTables (m : ModelState) (now : Int) : ModelState :=
  let sinkIds := (m.nodes.filter (fun n => decide (n.type = .sink))).map (fun n => n.id)
  let nodes1 := m.nodes.map (demotePass sinkIds now)
  let nodes2 := nodes1.map (cleanupInactive m.inactiveRoutingTimeout now)
  let nodes3 := sinkIds.foldl (processSink now) nodes2
  let m1 := updateRoutingStates { m with nodes := nodes3 } now
  sinkIds.foldl
    (fun st potentialNewSinkId =>
      let someOtherHasRoute := st.nodes.any (fun other =>
        decide (other.type = .sink) && (other.id != potentialNewSinkId) &&
          mHas other.routingTable potentialNewSinkId)
      if someOtherHasRoute then syncNewSinkFromExistingSinks st potentialNewSinkId now else st)
    m1

/-- updateAutoGeneration (`SimulationModel.ts:715-738`): the two
`Math.random()` draws are modelled by the index arguments `rndNode` and
`rndSev`. -/
def updateAutoGeneration (m : ModelState) (now : Int) (rndNode rndSev : Nat) : ModelState :=
  if now - m.lastTriageGeneration ≥ m.triageGenerationInterval then
    let sourceNodes := m.nodes.filter (fun n => decide (n.type = .source) && !n.connections.isEmpty)
    let severities : List Severity := [.black, .green, .yellow, .red]
    let m1 :=
      match sourceNodes[rndNode % sourceNodes.length]?, severities[rndSev % 4]? with
      | some node, some severity => sendMessage m node.id .triage (some severity) now
      | _, _ => m
    { m1 with lastTriageGeneration := now }
  else m

/-- tick (`SimulationModel.ts:687-710`): motion, link recompute, routing
recompute, optional auto-generation, message advance, notify. -/
def tick (m : ModelState) (dt : Int) (now : Int) (rndNode rndSev : Nat) : ModelState :=
  let m0 := { m with nodes := m.nodes.map (fun n =>
    { n with posX := n.posX + n.velX * dt, posY := n.posY + n.velY * dt }) }
  let m1 := updateConnections m0 now
  let m2 := updateRoutingTables m1 now
  let m3 := if m2.isAutoGenerating then updateAutoGeneration m2 now rndNode rndSev else m2
  notifyListeners (updateMessages m3 dt now).1

/-- Modelled from the spec: createNode from `src/utils/nodeUtils.ts` is not in
the sources; §3 (Lifecycle) and §6 (`add_node`) describe a freshly placed node
with the given position and type, no velocity, the global connection radius,
and empty neighbor set, stores, queue and tables. Its initial routing state is
immediately overwritten by the routing pass that `add_node` runs. -/
def mkNode (id : NodeId) (x y : Int) (type : NodeType) (connectionRadius : Int) (now : Int) :
    SimNode where
  id := id
  type := type
  posX := x
  posY := y
  velX := 0
  velY := 0
  connectionRadius := connectionRadius
  selected := false
  connections := []
  lastMessageReceivedAt := none
  triageStore := []
  triageQueue := []
  sentTriagesToSinks := []
  routingTable := []
  inactiveRoutingTables := []
  routingState :=
    { mode := .noConnections
      activeRoutes := 0
      expiredRoutes := 0
      inactiveRoutes := 0
      floodingReason := none
      lastStateChange := now }

/-- addNode (`SimulationModel.ts:149-170`): create, recompute links and
routes, new-sink replay for sinks, auto-select when nothing is selected,
notify. -/
def addNode (m : ModelState) (x y : Int) (type : NodeType) (now : Int) : ModelState :=
  let node := mkNode m.nextId x y type m.connectionRadius now
  let m1 := { m with nodes := m.nodes ++ [node], nextId := m.nextId + 1 }
  let m2 := updateRoutingTables (updateConnections m1 now) now
  let m3 := if type = .sink then syncNewSinkFromExistingSinks m2 node.id now else m2
  let anySelected := m3.nodes.any (fun n => n.selected)
  let m4 :=
    if anySelected then m3
    else
      { m3 with nodes := m3.nodes.map (fun n =>
          if n.id == node.id then { n with selected := true } else { n with selected := false }) }
  notifyListeners m4

/-- updateNodePosition (`SimulationModel.ts:208-216`): move the node and
recompute connections — the routing tables are not rebuilt here. Unknown ids
are silent no-ops. -/
def updateNodePosition (m : ModelState) (id : NodeId) (x y : Int) (now : Int) : ModelState :=
  match findNode m id with
  | none => m
  | some _ =>
      let m1 := { m with nodes := m.nodes.map (fun n =>
        if n.id == id then { n with posX := x, posY := y } else n) }
      notifyListeners (updateConnections m1 now)

/-- toggleNodeType (`SimulationModel.ts:187-203`): flip source↔sink; on
source→sink, rebuild routing and run the new-sink replay. Unknown ids are
silent no-ops. -/
def toggleNodeType (m : ModelState) (id : NodeId) (now : Int) : ModelState :=
  match findNode m id with
  | none => m
  | some node =>
      let wasSink := node.type = .sink
      let newType := if node.type = .source then NodeType.sink else NodeType.source
      let m1 := setNodeById m { node with type := newType }
      if ¬ wasSink ∧ newType = .sink then
        notifyListeners (syncNewSinkFromExistingSinks (updateRoutingTables m1 now) id now)
      else notifyListeners m1

/-! ### Basic lemmas about the JS map and set helpers -/

theorem sDel_of_not_mem (s : List NodeId) (k : NodeId) (h : k ∉ s) : sDel s k = s := by
  induction s with
  | nil => rfl
  | cons x xs ih =>
      simp only [List.mem_cons, not_or] at h
      simp only [sDel, List.filter_cons]
      rw [if_pos (by simpa [bne_iff_ne] using fun e => h.1 e.symm)]
      have := ih h.2
      simpa [sDel] using this

theorem findNode_none (m : ModelState) (id : NodeId) (h : ∀ n ∈ m.nodes, n.id ≠ id) :
    findNode m id = none := by
  unfold findNode
  rw [List.find?_eq_none]
  intro n hn
  simpa using h n hn

/-! ### Claim C6 — the parameter setters -/

/-- The spec-documented bounds on the two parameters (§6): inactive routing
timeout in 1 s … 5 min, triage generation interval in 0.5 s … 10 s. -/
def inactiveTimeoutInRange (v : Int) : Prop := 1000 ≤ v ∧ v ≤ 300000

/-- The spec-documented range of the triage generation interval. -/
def generationIntervalInRange (v : Int) : Prop := 500 ≤ v ∧ v ≤ 10000

/-- C6 counterexample: `setInactiveRoutingTimeout 0` and
`setTriageGenerationInterval 0` store the out-of-range value 0 unchanged, so
the stored parameters do not lie within their documented bounds — the setters
perform no clamping. -/
theorem c6_counterexample :
    (setInactiveRoutingTimeout initialModel 0).inactiveRoutingTimeout = 0 ∧
    (setTriageGenerationInterval initialModel 0).triageGenerationInterval = 0 ∧
    ¬ inactiveTimeoutInRange 0 ∧ ¬ generationIntervalInRange 0 := by
  refine ⟨rfl, rfl, ?_, ?_⟩ <;> simp [inactiveTimeoutInRange, generationIntervalInRange]

/-- C6 (amended): the setters store their argument unchanged — no clamping is
performed — and fire exactly one listener notification; every other model
field is untouched. The constructor defaults do lie within the documented
bounds. -/
theorem c6_setters_store_unclamped (m : ModelState) (t i : Int) :
    (setInactiveRoutingTimeout m t).inactiveRoutingTimeout = t ∧
    (setInactiveRoutingTimeout m t).notifications = m.notifications + 1 ∧
    (setInactiveRoutingTimeout m t).nodes = m.nodes ∧
    (setInactiveRoutingTimeout m t).messages = m.messages ∧
    (setTriageGenerationInterval m i).triageGenerationInterval = i ∧
    (setTriageGenerationInterval m i).notifications = m.notifications + 1 ∧
    (setTriageGenerationInterval m i).nodes = m.nodes ∧
    (setTriageGenerationInterval m i).messages = m.messages ∧
    inactiveTimeoutInRange initialModel.inactiveRoutingTimeout ∧
    generationIntervalInRange initialModel.triageGenerationInterval := by
  refine ⟨rfl, rfl, rfl, rfl, rfl, rfl, rfl, rfl, ?_, ?_⟩ <;>
    simp [inactiveTimeoutInRange, generationIntervalInRange, initialModel]

/-! ### Claim C7 — unknown-id mutations -/

/-- A one-node world used in counterexamples. -/
def c7Model : ModelState := addNode initialModel 0 0 .source 1000

/-- C7 counterexample: `removeNode` with an id that is not in the world leaves
the nodes and messages unchanged but does fire a listener notification, so the
claimed "no listener fire" is false for `remove_node`. -/
theorem c7_counterexample :
    (removeNode c7Model 99).nodes = c7Model.nodes ∧
    (removeNode c7Model 99).messages = c7Model.messages ∧
    (removeNode c7Model 99).notifications = c7Model.notifications + 1 := by
  refine ⟨by decide, rfl, rfl⟩

/-- C7 (amended): a mutation naming a non-existent node id (an id of no node,
present in no connection set) leaves the node and message state unchanged, but
`removeNode` still fires exactly one listener notification, while
`toggleNodeType`, `updateNodePosition`, `updateNodeVelocity` and `sendMessage`
are complete no-ops that do not notify. -/
theorem c7_unknown_id_mutations (m : ModelState) (nid : NodeId) (x y vx vy : Int)
    (kind : MessageKind) (sev : Option Severity) (now : Int)
    (hid : ∀ n ∈ m.nodes, n.id ≠ nid) (hconn : ∀ n ∈ m.nodes, nid ∉ n.connections) :
    (removeNode m nid).nodes = m.nodes ∧
    (removeNode m nid).messages = m.messages ∧
    (removeNode m nid).notifications = m.notifications + 1 ∧
    toggleNodeType m nid now = m ∧
    updateNodePosition m nid x y now = m ∧
    updateNodeVelocity m nid vx vy = m ∧
    sendMessage m nid kind sev now = m := by
  have hfind : findNode m nid = none := findNode_none m nid hid
  refine ⟨?_, rfl, rfl, ?_, ?_, ?_, ?_⟩
  · show (m.nodes.map (fun n => { n with connections := sDel n.connections nid })).filter
      (fun n => n.id != nid) = m.nodes
    have hmap : m.nodes.map (fun n => { n with connections := sDel n.connections nid }) = m.nodes := by
      have hcongr : ∀ n ∈ m.nodes,
          ({ n with connections := sDel n.connections nid } : SimNode) = id n := by
        intro n hn
        show _ = n
        rw [sDel_of_not_mem _ _ (hconn n hn)]
      rw [List.map_congr_left hcongr, List.map_id]
    rw [hmap]
    apply List.filter_eq_self.2
    intro n hn
    simpa [bne_iff_ne] using hid n hn
  · unfold toggleNodeType
    rw [hfind]
  · unfold updateNodePosition
    rw [hfind]
  · unfold updateNodeVelocity
    rw [hfind]
  · unfold sendMessage
    rw [hfind]

/-- C7 witness: the amended statement applied to the concrete one-node world
and the unknown id 99. -/
theorem c7_unknown_id_mutations_witness :
    (∀ n ∈ c7Model.nodes, n.id ≠ 99) ∧
    ((removeNode c7Model 99).nodes = c7Model.nodes ∧
      (removeNode c7Model 99).messages = c7Model.messages ∧
      (removeNode c7Model 99).notifications = c7Model.notifications + 1 ∧
      toggleNodeType c7Model 99 2000 = c7Model ∧
      updateNodePosition c7Model 99 5 5 2000 = c7Model ∧
      updateNodeVelocity c7Model 99 1 1 = c7Model ∧
      sendMessage c7Model 99 .triage (some .red) 2000 = c7Model) :=
  ⟨by decide, c7_unknown_id_mutations c7Model 99 5 5 1 1 .triage (some .red) 2000
    (by decide) (by decide)⟩

/-! ### Claim C1 — the routing-mode table of §4.3 -/

/-- The routing-mode table of spec §4.3, evaluated in order (first matching
row wins), parameterized by the expiry test on a routing-table entry: no
neighbors → no-connections; a sink with zero active, expired and inactive
routes → intelligent; any inactive route → inactive; any active route →
intelligent; any expired route → flooding (routes-expired); otherwise
flooding (no-routes). -/
def specModeRow (node : SimNode) (expiredTest : RoutingTableEntry → Bool) :
    RoutingMode × Option FloodingReason :=
  let active := (node.routingTable.filter (fun p => !(expiredTest p.2))).length
  let expired := (node.routingTable.filter (fun p => expiredTest p.2)).length
  let inact := node.inactiveRoutingTables.length
  if node.connections = [] then (.noConnections, some .noConnections)
  else if node.type = .sink ∧ active = 0 ∧ expired = 0 ∧ inact = 0 then (.intelligent, none)
  else if inact > 0 then (.inactive, some .hasInactiveRoutes)
  else if active > 0 then (.intelligent, none)
  else if expired > 0 then (.flooding, some .routesExpired)
  else (.flooding, some .noRoutes)

/-- The expiry test exactly as the claim words it: a routing-table entry is
expired iff `now − last_update` is strictly greater than 5 minutes. -/
def specExpiredStrict (now : Int) (e : RoutingTableEntry) : Bool :=
  decide (now - e.lastUpdate > ROUTE_TIMEOUT)

/-- The expiry test the code implements (`SimulationModel.ts:616-621`): an
entry is counted expired iff `now − last_update ≥ 5 min` (the active test is
the strict `routeAge < ROUTE_TIMEOUT`). -/
def codeExpired (now : Int) (e : RoutingTableEntry) : Bool :=
  decide (ROUTE_TIMEOUT ≤ now - e.lastUpdate)

/-- The active/expired counting loop of updateRoutingStates equals the two
filter counts under the code's expiry test. -/
theorem routeCounts_fold (now : Int) (l : List (NodeId × RoutingTableEntry)) (a b : Nat) :
    l.foldl
      (fun (ae : Nat × Nat) p =>
        if now - p.2.lastUpdate < ROUTE_TIMEOUT then (ae.1 + 1, ae.2) else (ae.1, ae.2 + 1))
      (a, b)
      = (a + (l.filter (fun p => !(codeExpired now p.2))).length,
         b + (l.filter (fun p => codeExpired now p.2)).length) := by
  induction l generalizing a b with
  | nil => simp
  | cons x xs ih =>
      by_cases h : now - x.2.lastUpdate < ROUTE_TIMEOUT
      · have hx : codeExpired now x.2 = false := by
          simp only [codeExpired, decide_eq_false_iff_not]
          omega
        rw [List.foldl_cons, if_pos h, ih, List.filter_cons, List.filter_cons, hx]
        simp only [Bool.not_false, if_true, Bool.false_eq_true, if_false, List.length_cons,
          Prod.mk.injEq, and_true, true_and]
        omega
      · have hx : codeExpired now x.2 = true := by
          simp only [codeExpired, decide_eq_true_eq]
          omega
        rw [List.foldl_cons, if_neg h, ih, List.filter_cons, List.filter_cons, hx]
        simp only [Bool.not_true, Bool.false_eq_true, if_false, if_true, List.length_cons,
          Prod.mk.injEq, and_true, true_and]
        omega

/-- A concrete node whose single route is exactly 5 minutes old at the
observation instant. -/
def c1Node : SimNode where
  id := 0
  type := .source
  posX := 0
  posY := 0
  velX := 0
  velY := 0
  connectionRadius := 2
  selected := false
  connections := [1]
  lastMessageReceivedAt := none
  triageStore := []
  triageQueue := []
  sentTriagesToSinks := []
  routingTable := [(2, ⟨[(1, 1)], 0⟩)]
  inactiveRoutingTables := []
  routingState :=
    { mode := .intelligent
      activeRoutes := 1
      expiredRoutes := 0
      inactiveRoutes := 0
      floodingReason := none
      lastStateChange := 0 }

/-- C1 counterexample: at `now − last_update = 5 min` exactly, the code counts
the route expired and classifies the node as flooding (routes-expired),
whereas the claim's strict `> 5 min` expiry test counts it active and its §4.3
table yields intelligent — so the claimed mode (with a strictly-greater
expiry) differs from the computed mode at this input. -/
theorem c1_counterexample :
    (classifyNode c1Node ROUTE_TIMEOUT).routingState.mode = .flooding ∧
    (classifyNode c1Node ROUTE_TIMEOUT).routingState.floodingReason = some .routesExpired ∧
    (specModeRow c1Node (specExpiredStrict ROUTE_TIMEOUT)).1 = .intelligent ∧
    RoutingMode.flooding ≠ RoutingMode.intelligent := by
  refine ⟨by decide, by decide, by decide, by decide⟩

/-- C1 (amended): after the mode-classification step of every routing pass
each node's mode and flooding reason equal the first matching row of the §4.3
table, where an entry counts as expired iff `now − last_update` is at least
(not strictly greater than) 5 minutes, and `lastStateChange` is updated
exactly when the mode changes. -/
theorem c1_mode_classification (node : SimNode) (now : Int) (m : ModelState) :
    (classifyNode node now).routingState.mode = (specModeRow node (codeExpired now)).1 ∧
    (classifyNode node now).routingState.floodingReason = (specModeRow node (codeExpired now)).2 ∧
    (classifyNode node now).routingState.lastStateChange =
      (if (specModeRow node (codeExpired now)).1 ≠ node.routingState.mode then now
       else node.routingState.lastStateChange) ∧
    ∀ n2 ∈ (updateRoutingStates m now).nodes,
      n2.routingState.mode = (specModeRow n2 (codeExpired now)).1 ∧
      n2.routingState.floodingReason = (specModeRow n2 (codeExpired now)).2 := by
  have key : ∀ nd : SimNode,
      (classifyNode nd now).routingState.mode = (specModeRow nd (codeExpired now)).1 ∧
      (classifyNode nd now).routingState.floodingReason = (specModeRow nd (codeExpired now)).2 ∧
      (classifyNode nd now).routingState.lastStateChange =
        (if (specModeRow nd (codeExpired now)).1 ≠ nd.routingState.mode then now
         else nd.routingState.lastStateChange) := by
    intro nd
    have hfold := routeCounts_fold now nd.routingTable 0 0
    have hlen : (nd.connections.length = 0) = (nd.connections = []) := by
      simp [List.length_eq_zero]
    unfold classifyNode specModeRow
    simp only [hfold, Nat.zero_add, hlen]
    exact ⟨trivial, trivial, trivial⟩
  have stable : ∀ nd : SimNode,
      specModeRow (classifyNode nd now) (codeExpired now) = specModeRow nd (codeExpired now) := by
    intro nd
    unfold specModeRow classifyNode
    rfl
  refine ⟨(key node).1, (key node).2.1, (key node).2.2, ?_⟩
  intro n2 hn2
  unfold updateRoutingStates at hn2
  simp only [List.mem_map] at hn2
  obtain ⟨nd, _, rfl⟩ := hn2
  rw [stable nd]
  exact ⟨(key nd).1, (key nd).2.1⟩

/-! ### Claim C8 — isolated triage sends are queued -/

/-- C8: a triage send from a node with no neighbors allocates the fresh
triage id, adds it to the sender's store, appends `(triage_id, severity, now)`
to the sender's queue, emits no message, and notifies once. -/
theorem c8_isolated_send_queues (m : ModelState) (f : NodeId) (sev : Severity) (now : Int)
    (node : SimNode) (hfind : findNode m f = some node) (hconn : node.connections = [])
    (hfresh : m.nextId ∉ node.triageStore) :
    (sendMessage m f .triage (some sev) now).messages = m.messages ∧
    (sendMessage m f .triage (some sev) now).nextId = m.nextId + 1 ∧
    (sendMessage m f .triage (some sev) now).notifications = m.notifications + 1 ∧
    ∀ n2 ∈ (sendMessage m f .triage (some sev) now).nodes, n2.id = f →
      n2.triageStore = node.triageStore ++ [m.nextId] ∧
      n2.triageQueue = node.triageQueue ++ [⟨m.nextId, sev, now⟩] := by
  have hadd : sAdd node.triageStore m.nextId = node.triageStore ++ [m.nextId] := by
    unfold sAdd
    rw [if_neg (by simpa using hfresh)]
  have hid : node.id = f := by
    have := List.find?_some hfind
    simpa using this
  unfold sendMessage
  rw [hfind]
  simp only [reduceCtorEq, ite_true, if_pos rfl, Option.getD_some, hconn, ite_true, if_pos]
  refine ⟨rfl, rfl, rfl, ?_⟩
  intro n2 hn2 hn2id
  simp only [notifyListeners, setNodeById, List.mem_map] at hn2
  obtain ⟨n0, hn0, rfl⟩ := hn2
  by_cases hb : n0.id == node.id
  · simp only [hb, if_true, ite_true, if_pos] at hn2id ⊢
    constructor
    · simpa using hadd
    · simp
  · exfalso
    simp only [hb, Bool.false_eq_true, if_false, ite_false] at hn2id
    revert hb
    simp [hn2id, hid]

/-- A concrete isolated source holding nothing, used as the C8 witness world. -/
def c8Model : ModelState := addNode initialModel 0 0 .source 1000

/-- C8 witness: the theorem applied to a concrete one-node world. -/
theorem c8_isolated_send_queues_witness :
    (findNode c8Model 0 = some (c8Model.nodes.headI) ∧
      (c8Model.nodes.headI).connections = []) ∧
    ((sendMessage c8Model 0 .triage (some .yellow) 2000).messages = c8Model.messages ∧
      (sendMessage c8Model 0 .triage (some .yellow) 2000).nextId = c8Model.nextId + 1 ∧
      (sendMessage c8Model 0 .triage (some .yellow) 2000).notifications = c8Model.notifications + 1 ∧
      ∀ n2 ∈ (sendMessage c8Model 0 .triage (some .yellow) 2000).nodes, n2.id = 0 →
        n2.triageStore = (c8Model.nodes.headI).triageStore ++ [c8Model.nextId] ∧
        n2.triageQueue = (c8Model.nodes.headI).triageQueue ++ [⟨c8Model.nextId, .yellow, 2000⟩]) :=
  ⟨⟨by decide, by decide⟩,
    c8_isolated_send_queues c8Model 0 .yellow 2000 (c8Model.nodes.headI)
      (by decide) (by decide) (by decide)⟩

/-! ### Claim C4 — strict dedup drop under flooding and inactive modes -/

/-- C4: a triage arrival at a node in flooding or inactive mode whose store
already holds the triage id only stamps the arrival timestamp: no message is
emitted and the node's store, queue and sent-to-sinks map are unchanged (and
no listener fires — the drop is silent). -/
theorem c4_flooding_dedup_drop (m : ModelState) (message : Message) (now : Int)
    (node : SimNode) (tid : TriageId)
    (hkind : message.type = .triage) (htid : message.triageId = some tid)
    (hfind : findNode m message.toNodeId = some node)
    (hmode : node.routingState.mode = .flooding ∨ node.routingState.mode = .inactive)
    (hstore : node.triageStore.contains tid = true) :
    node.id = message.toNodeId ∧
    (onMessageArrival m message now).messages = m.messages ∧
    (onMessageArrival m message now).notifications = m.notifications ∧
    onMessageArrival m message now =
      { m with nodes := m.nodes.map (fun n =>
          if n.id == node.id then { node with lastMessageReceivedAt := some now } else n) } := by
  have hidto : node.id = message.toNodeId := by
    have := List.find?_some hfind
    simpa using this
  have hmain : onMessageArrival m message now =
      { m with nodes := m.nodes.map (fun n =>
          if n.id == node.id then { node with lastMessageReceivedAt := some now } else n) } := by
    unfold onMessageArrival
    rw [hfind]
    have hmode2 : ({ node with lastMessageReceivedAt := some now } : SimNode).routingState.mode
        = .flooding ∨ ({ node with lastMessageReceivedAt := some now } : SimNode).routingState.mode
        = .inactive := hmode
    rcases hm : message.type with _ | _
    · rw [hkind] at hm
      cases hm
    · rcases ht : message.triageId with _ | t2
      · rw [htid] at ht
        cases ht
      · have ht2 : t2 = tid := by
          rw [htid] at ht
          cases ht
          rfl
        subst ht2
        simp only [if_pos hmode2]
        rw [if_pos (by simpa using hstore)]
        unfold setNodeById
        rfl
  refine ⟨hidto, ?_, ?_, hmain⟩ <;> rw [hmain]

/-- The destination state of the C4 witness: a flooding-mode node that has
already seen triage 7. -/
def c4Model : ModelState :=
  { initialModel with
    nodes := [{ c1Node with
      triageStore := [7]
      routingTable := []
      routingState := { c1Node.routingState with mode := .flooding } }]
    nextId := 10 }

/-- The arriving duplicate triage message of the C4 witness. -/
def c4Message : Message :=
  { id := 9, fromNodeId := 1, toNodeId := 0, progress := 1, speed := 2, createdAt := 0,
    type := .triage, triageId := some 7, triageSeverity := some .red }

/-- C4 witness: the theorem applied to the concrete duplicate arrival. -/
theorem c4_flooding_dedup_drop_witness :
    (c4Message.type = .triage ∧
      findNode c4Model c4Message.toNodeId = some (c4Model.nodes.headI) ∧
      (c4Model.nodes.headI).triageStore.contains 7 = true) ∧
    ((c4Model.nodes.headI).id = c4Message.toNodeId ∧
      (onMessageArrival c4Model c4Message 5000).messages = c4Model.messages ∧
      (onMessageArrival c4Model c4Message 5000).notifications = c4Model.notifications ∧
      onMessageArrival c4Model c4Message 5000 =
        { c4Model with nodes := c4Model.nodes.map (fun n =>
            if n.id == (c4Model.nodes.headI).id then
              { c4Model.nodes.headI with lastMessageReceivedAt := some 5000 } else n) }) :=
  ⟨⟨by decide, by decide, by decide⟩,
    c4_flooding_dedup_drop c4Model c4Message 5000 (c4Model.nodes.headI) 7
      (by decide) (by decide) (by decide) (Or.inl (by decide)) (by decide)⟩

/-! ### Claim C3 — infrastructure: keys, deletion, and the best-peer scan -/

theorem mHas_iff_mem_keys {α : Type} (mp : List (NodeId × α)) (k : NodeId) :
    mHas mp k = true ↔ k ∈ mKeys mp := by
  induction mp with
  | nil => simp [mHas, mGet, mKeys]
  | cons x xs ih =>
      by_cases hx : x.1 = k
      · simp [mHas, mGet, mKeys, List.find?_cons, hx]
      · have hbeq : (x.1 == k) = false := by simpa using hx
        simp only [mHas, mGet, mKeys, List.find?_cons, hbeq, List.map_cons, List.mem_cons]
        rw [← mKeys, ← mGet, ← mHas]
        rw [ih]
        constructor
        · intro h
          exact Or.inr h
        · intro h
          rcases h with h | h
          · exact absurd h.symm hx
          · exact h

theorem sDel_nodup (l : List NodeId) (p : NodeId) (h : l.Nodup) : (sDel l p).Nodup :=
  List.Nodup.filter _ h

theorem mem_of_mem_sDel {l : List NodeId} {p q : NodeId} (h : q ∈ sDel l p) : q ∈ l :=
  List.mem_of_mem_filter h

theorem sDel_length (l : List NodeId) (p : NodeId) (hnd : l.Nodup) (hp : p ∈ l) :
    (sDel l p).length + 1 = l.length := by
  induction l with
  | nil => cases hp
  | cons x xs ih =>
      obtain ⟨hx1, hx2⟩ := List.nodup_cons.1 hnd
      rcases List.mem_cons.1 hp with h | h
      · subst h
        unfold sDel
        rw [List.filter_cons, if_neg (by simp)]
        rw [show List.filter (fun y => y != p) xs = sDel xs p from rfl,
          sDel_of_not_mem xs p hx1]
        simp
      · have hxp : x ≠ p := fun he => hx1 (he ▸ h)
        unfold sDel
        rw [List.filter_cons, if_pos (by simpa using hxp)]
        have hih := ih hx2 h
        unfold sDel at hih
        simp only [List.length_cons]
        omega

/-- Greedy domination order: `p` beats `q` when `p` has strictly larger gain,
or equal gain and no larger load. -/
def Dominates (g l : NodeId → Nat) (p q : NodeId) : Prop :=
  g q ≤ g p ∧ (g q = g p → l p ≤ l q)

theorem dominates_refl (g l : NodeId → Nat) (p : NodeId) : Dominates g l p p :=
  ⟨le_refl _, fun _ => le_refl _⟩

theorem dominates_trans {g l : NodeId → Nat} {a b c : NodeId}
    (h1 : Dominates g l a b) (h2 : Dominates g l b c) : Dominates g l a c := by
  obtain ⟨hg1, hl1⟩ := h1
  obtain ⟨hg2, hl2⟩ := h2
  refine ⟨le_trans hg2 hg1, fun h => ?_⟩
  have hb : g b = g a := le_antisymm hg1 (h ▸ hg2)
  exact le_trans (hl1 hb) (hl2 (h.trans hb.symm))

theorem pickBest_go (m : ModelState) (nodeId : NodeId)
    (coverage : List (NodeId × List NodeId)) (covered : List NodeId) :
    ∀ (rest : List NodeId) (p : NodeId),
      ∃ p2,
        rest.foldl (pickStep m nodeId coverage covered)
          (some (p, gainOf coverage covered p, getLoad m nodeId p))
          = some (p2, gainOf coverage covered p2, getLoad m nodeId p2)
        ∧ (p2 = p ∨ p2 ∈ rest)
        ∧ Dominates (gainOf coverage covered) (getLoad m nodeId) p2 p
        ∧ ∀ q ∈ rest, Dominates (gainOf coverage covered) (getLoad m nodeId) p2 q := by
  intro rest
  induction rest with
  | nil =>
      intro p
      exact ⟨p, rfl, Or.inl rfl, dominates_refl _ _ p, by simp⟩
  | cons r rest ih =>
      intro p
      by_cases hcond : gainOf coverage covered r > gainOf coverage covered p ∨
          (gainOf coverage covered r = gainOf coverage covered p ∧
            getLoad m nodeId r < getLoad m nodeId p)
      · obtain ⟨p2, heq, hmem, hdomr, hall⟩ := ih r
        have happ :
            (r :: rest).foldl (pickStep m nodeId coverage covered)
              (some (p, gainOf coverage covered p, getLoad m nodeId p))
              = some (p2, gainOf coverage covered p2, getLoad m nodeId p2) := by
          rw [List.foldl_cons,
            show pickStep m nodeId coverage covered
                (some (p, gainOf coverage covered p, getLoad m nodeId p)) r
              = some (r, gainOf coverage covered r, getLoad m nodeId r) from by
              unfold pickStep
              exact if_pos hcond]
          exact heq
        have hrp : Dominates (gainOf coverage covered) (getLoad m nodeId) r p := by
          rcases hcond with h | h
          · exact ⟨le_of_lt h, fun he => absurd (he ▸ h) (lt_irrefl _)⟩
          · exact ⟨le_of_eq h.1.symm, fun _ => le_of_lt h.2⟩
        refine ⟨p2, happ, ?_, dominates_trans hdomr hrp, ?_⟩
        · rcases hmem with rfl | hm
          · exact Or.inr (List.mem_cons_self _ _)
          · exact Or.inr (List.mem_cons_of_mem _ hm)
        · intro q hq
          rcases List.mem_cons.1 hq with rfl | hq2
          · exact hdomr
          · exact hall q hq2
      · obtain ⟨p2, heq, hmem, hdomp, hall⟩ := ih p
        have happ :
            (r :: rest).foldl (pickStep m nodeId coverage covered)
              (some (p, gainOf coverage covered p, getLoad m nodeId p))
              = some (p2, gainOf coverage covered p2, getLoad m nodeId p2) := by
          rw [List.foldl_cons,
            show pickStep m nodeId coverage covered
                (some (p, gainOf coverage covered p, getLoad m nodeId p)) r
              = some (p, gainOf coverage covered p, getLoad m nodeId p) from by
              unfold pickStep
              exact if_neg hcond]
          exact heq
        have hpr : Dominates (gainOf coverage covered) (getLoad m nodeId) p r := by
          push_neg at hcond
          exact ⟨hcond.1, fun he => hcond.2 he⟩
        refine ⟨p2, happ, ?_, hdomp, ?_⟩
        · rcases hmem with rfl | hm
          · exact Or.inl rfl
          · exact Or.inr (List.mem_cons_of_mem _ hm)
        · intro q hq
          rcases List.mem_cons.1 hq with rfl | hq2
          · exact dominates_trans hdomp hpr
          · exact hall q hq2

theorem pickBest_spec (m : ModelState) (nodeId : NodeId)
    (coverage : List (NodeId × List NodeId)) (covered : List NodeId)
    (remaining : List NodeId) (hne : remaining ≠ []) :
    ∃ p2,
      pickBest m nodeId coverage covered remaining
        = some (p2, gainOf coverage covered p2, getLoad m nodeId p2)
      ∧ p2 ∈ remaining
      ∧ ∀ q ∈ remaining, Dominates (gainOf coverage covered) (getLoad m nodeId) p2 q := by
  cases remaining with
  | nil => exact absurd rfl hne
  | cons r rest =>
      unfold pickBest
      rw [List.foldl_cons,
        show pickStep m nodeId coverage covered none r
          = some (r, gainOf coverage covered r, getLoad m nodeId r) from rfl]
      obtain ⟨p2, heq, hmem, hdomr, hall⟩ := pickBest_go m nodeId coverage covered rest r
      refine ⟨p2, heq, ?_, ?_⟩
      · rcases hmem with rfl | hm
        · exact List.mem_cons_self _ _
        · exact List.mem_cons_of_mem _ hm
      · intro q hq
        rcases List.mem_cons.1 hq with rfl | hq2
        · exact hdomr
        · exact hall q hq2

theorem sDel_length_lt (l : List NodeId) (p : NodeId) (hp : p ∈ l) :
    (sDel l p).length < l.length := by
  induction l with
  | nil => cases hp
  | cons x xs ih =>
      rcases List.mem_cons.1 hp with h | h
      · subst h
        unfold sDel
        rw [List.filter_cons, if_neg (by simp)]
        have := List.length_filter_le (fun y => y != p) xs
        simp only [List.length_cons]
        unfold sDel at *
        omega
      · unfold sDel
        rw [List.filter_cons]
        by_cases hx : x != p
        · rw [if_pos hx]
          have := ih h
          unfold sDel at this
          simp only [List.length_cons]
          omega
        · rw [if_neg hx]
          have := ih h
          unfold sDel at this
          simp only [List.length_cons]
          omega

theorem greedyLoop_zero (m : ModelState) (nodeId : NodeId)
    (coverage : List (NodeId × List NodeId)) (cap : Nat) (s covered remaining : List NodeId) :
    greedyLoop m nodeId coverage cap 0 s covered remaining = s := rfl

theorem greedyLoop_succ (m : ModelState) (nodeId : NodeId)
    (coverage : List (NodeId × List NodeId)) (cap fuel : Nat)
    (s covered remaining : List NodeId) :
    greedyLoop m nodeId coverage cap (fuel + 1) s covered remaining =
      if s.length < cap ∧ remaining ≠ [] then
        match pickBest m nodeId coverage covered remaining with
        | none => s
        | some best =>
            greedyLoop m nodeId coverage cap fuel (s ++ [best.1])
              (((mGet coverage best.1).getD []).foldl sAdd covered)
              (sDel remaining best.1)
      else s := rfl

theorem greedyLoop_shift (m : ModelState) (nodeId : NodeId)
    (coverage : List (NodeId × List NodeId)) :
    ∀ (fuel cap : Nat) (s covered remaining : List NodeId), s.length ≤ cap →
      greedyLoop m nodeId coverage cap fuel s covered remaining
        = s ++ greedyLoop m nodeId coverage (cap - s.length) fuel [] covered remaining := by
  intro fuel
  induction fuel with
  | zero =>
      intro cap s covered remaining _
      rw [greedyLoop_zero, greedyLoop_zero, List.append_nil]
  | succ n ih =>
      intro cap s covered remaining hs
      rw [greedyLoop_succ, greedyLoop_succ]
      by_cases hg : s.length < cap ∧ remaining ≠ []
      · obtain ⟨hg1, hgne⟩ := hg
        have hgc : s.length < cap ∧ remaining ≠ [] := ⟨hg1, hgne⟩
        have hg2 : ([] : List NodeId).length < cap - s.length ∧ remaining ≠ [] := by
          refine ⟨?_, hgne⟩
          simp only [List.length_nil]
          omega
        rw [if_pos hgc, if_pos hg2]
        cases hpb : pickBest m nodeId coverage covered remaining with
        | none => simp
        | some best =>
            dsimp only
            have hlen1 : (s ++ [best.1]).length ≤ cap := by
              simp only [List.length_append, List.length_cons, List.length_nil]
              omega
            have hlen2 : (([] : List NodeId) ++ [best.1]).length ≤ cap - s.length := by
              simp only [List.nil_append, List.length_cons, List.length_nil]
              omega
            rw [ih cap (s ++ [best.1]) _ _ hlen1]
            rw [ih (cap - s.length) ([] ++ [best.1]) _ _ hlen2]
            simp only [List.nil_append, List.append_assoc, List.length_append,
              List.length_cons, List.length_nil, List.singleton_append]
            rw [Nat.sub_sub]
      · have hg2 : ¬ (([] : List NodeId).length < cap - s.length ∧ remaining ≠ []) := by
          intro hc
          apply hg
          refine ⟨?_, hc.2⟩
          have := hc.1
          simp only [List.length_nil] at this
          omega
        rw [if_neg hg, if_neg hg2]
        simp

theorem greedyLoop_length_le (m : ModelState) (nodeId : NodeId)
    (coverage : List (NodeId × List NodeId)) :
    ∀ (fuel cap : Nat) (s covered remaining : List NodeId), s.length ≤ cap →
      (greedyLoop m nodeId coverage cap fuel s covered remaining).length ≤ cap := by
  intro fuel
  induction fuel with
  | zero =>
      intro cap s covered remaining hs
      rw [greedyLoop_zero]
      exact hs
  | succ n ih =>
      intro cap s covered remaining hs
      rw [greedyLoop_succ]
      by_cases hg : s.length < cap ∧ remaining ≠ []
      · rw [if_pos hg]
        cases hpb : pickBest m nodeId coverage covered remaining with
        | none => exact hs
        | some best =>
            exact ih cap (s ++ [best.1]) _ _ (by simp only [List.length_append,
              List.length_cons, List.length_nil]; omega)
      · rw [if_neg hg]
        exact hs

theorem greedyLoop_length_eq (m : ModelState) (nodeId : NodeId)
    (coverage : List (NodeId × List NodeId)) :
    ∀ (fuel cap : Nat) (s covered remaining : List NodeId),
      remaining.Nodup → remaining.length ≤ fuel → s.length ≤ cap →
      cap ≤ s.length + remaining.length →
      (greedyLoop m nodeId coverage cap fuel s covered remaining).length = cap := by
  intro fuel
  induction fuel with
  | zero =>
      intro cap s covered remaining _ hlen hs hcap
      rw [greedyLoop_zero]
      omega
  | succ n ih =>
      intro cap s covered remaining hnd hlen hs hcap
      rw [greedyLoop_succ]
      by_cases hg : s.length < cap ∧ remaining ≠ []
      · rw [if_pos hg]
        obtain ⟨p2, heq, hmem, _⟩ := pickBest_spec m nodeId coverage covered remaining hg.2
        rw [heq]
        have hdel := sDel_length remaining p2 hnd hmem
        exact ih cap (s ++ [p2]) _ (sDel remaining p2) (sDel_nodup _ _ hnd)
          (by omega)
          (by simp only [List.length_append, List.length_cons, List.length_nil]; omega)
          (by simp only [List.length_append, List.length_cons, List.length_nil]; omega)
      · rw [if_neg hg]
        push_neg at hg
        by_cases hlt : s.length < cap
        · have hrem : remaining = [] := hg hlt
          subst hrem
          simp only [List.length_nil] at hcap
          omega
        · omega

/-- Absorb a selected peer's covered sinks (`SimulationModel.ts:1012`). -/
def absorb (coverage : List (NodeId × List NodeId)) (covered : List NodeId) (p : NodeId) :
    List NodeId :=
  ((mGet coverage p).getD []).foldl sAdd covered

/-- Spec §4.4 greedy maximum-coverage with load tie-break, as the spec words
it: each selected peer has maximal marginal sink-coverage gain among the
remaining candidates, and minimal load among the ties; its coverage is then
absorbed and it is removed, until the cap is reached or no candidate
remains. -/
def IsGreedySel (loadOf : NodeId → Nat) (coverage : List (NodeId × List NodeId)) :
    Nat → List NodeId → List NodeId → List NodeId → Prop
  | cap, _, remaining, [] => cap = 0 ∨ remaining = []
  | cap, covered, remaining, p :: rest =>
      0 < cap ∧ p ∈ remaining ∧
      (∀ q ∈ remaining, gainOf coverage covered q ≤ gainOf coverage covered p) ∧
      (∀ q ∈ remaining, gainOf coverage covered q = gainOf coverage covered p →
        loadOf p ≤ loadOf q) ∧
      IsGreedySel loadOf coverage (cap - 1) (absorb coverage covered p) (sDel remaining p) rest

theorem greedyLoop_isGreedy (m : ModelState) (nodeId : NodeId)
    (coverage : List (NodeId × List NodeId)) :
    ∀ (fuel cap : Nat) (covered remaining : List NodeId),
      remaining.length ≤ fuel →
      IsGreedySel (getLoad m nodeId) coverage cap covered remaining
        (greedyLoop m nodeId coverage cap fuel [] covered remaining) := by
  intro fuel
  induction fuel with
  | zero =>
      intro cap covered remaining hlen
      have hrem : remaining = [] := List.length_eq_zero.1 (Nat.le_zero.1 hlen)
      rw [greedyLoop_zero]
      exact Or.inr hrem
  | succ n ih =>
      intro cap covered remaining hlen
      rw [greedyLoop_succ]
      by_cases hg : ([] : List NodeId).length < cap ∧ remaining ≠ []
      · rw [if_pos hg]
        obtain ⟨p2, heq, hmem, hdom⟩ := pickBest_spec m nodeId coverage covered remaining hg.2
        rw [heq]
        dsimp only [List.nil_append]
        have hshift := greedyLoop_shift m nodeId coverage n cap [p2]
          (((mGet coverage p2).getD []).foldl sAdd covered) (sDel remaining p2)
          (by simp only [List.length_cons, List.length_nil]; omega)
        rw [hshift, List.singleton_append]
        show IsGreedySel (getLoad m nodeId) coverage cap covered remaining (p2 :: _)
        refine ⟨by simpa using hg.1, hmem, ?_, ?_, ?_⟩
        · intro q hq
          exact (hdom q hq).1
        · intro q hq hgain
          exact (hdom q hq).2 hgain
        · have hlt := sDel_length_lt remaining p2 hmem
          exact ih (cap - 1) (absorb coverage covered p2) (sDel remaining p2) (by omega)
      · rw [if_neg hg]
        push_neg at hg
        simp only [List.length_nil] at hg
        by_cases hc : 0 < cap
        · exact Or.inr (hg hc)
        · exact Or.inl (by omega)

theorem mKeys_mSet_nodup {α : Type} (mp : List (NodeId × α)) (k : NodeId) (v : α)
    (h : (mKeys mp).Nodup) : (mKeys (mSet mp k v)).Nodup := by
  unfold mSet
  by_cases hh : mHas mp k
  · rw [if_pos hh]
    have hkeys : mKeys (mp.map (fun p => if p.1 == k then (k, v) else p)) = mKeys mp := by
      unfold mKeys
      rw [List.map_map]
      apply List.map_congr_left
      intro p _
      by_cases hpk : p.1 = k
      · simp [Function.comp, hpk]
      · simp [Function.comp, hpk]
    rw [hkeys]
    exact h
  · rw [if_neg hh]
    unfold mKeys
    rw [List.map_append]
    have hnot : k ∉ mKeys mp := fun hmem => hh ((mHas_iff_mem_keys mp k).2 hmem)
    simp only [List.map_cons, List.map_nil]
    rw [List.nodup_append]
    refine ⟨h, List.nodup_singleton k, ?_⟩
    intro a ha hb
    simp only [List.mem_singleton] at hb
    subst hb
    exact hnot ha

theorem coverage_inner_nodup (excl : Option NodeId) (sid : NodeId) :
    ∀ (hops : List (NodeId × Nat)) (cov : List (NodeId × List NodeId)),
      (mKeys cov).Nodup →
      (mKeys (hops.foldl
        (fun cov2 hop =>
          if some hop.1 = excl then cov2
          else mSet cov2 hop.1 (sAdd ((mGet cov2 hop.1).getD []) sid))
        cov)).Nodup := by
  intro hops
  induction hops with
  | nil =>
      intro cov h
      exact h
  | cons hop rest ih =>
      intro cov h
      rw [List.foldl_cons]
      by_cases hx : some hop.1 = excl
      · rw [if_pos hx]
        exact ih cov h
      · rw [if_neg hx]
        exact ih _ (mKeys_mSet_nodup cov hop.1 _ h)

theorem coverage_keys_nodup (node : SimNode) (excl : Option NodeId) (now : Int) :
    (mKeys (neighborCoverage node excl now)).Nodup := by
  unfold neighborCoverage
  have main : ∀ (tbl : List (NodeId × RoutingTableEntry)) (cov : List (NodeId × List NodeId)),
      (mKeys cov).Nodup →
      (mKeys (tbl.foldl
        (fun cov p =>
          if now - p.2.lastUpdate < ROUTE_TIMEOUT then
            p.2.nextHops.foldl
              (fun cov2 hop =>
                if some hop.1 = excl then cov2
                else mSet cov2 hop.1 (sAdd ((mGet cov2 hop.1).getD []) p.1))
              cov
          else cov)
        cov)).Nodup := by
    intro tbl
    induction tbl with
    | nil =>
        intro cov h
        exact h
    | cons p rest ih =>
        intro cov h
        rw [List.foldl_cons]
        by_cases hage : now - p.2.lastUpdate < ROUTE_TIMEOUT
        · rw [if_pos hage]
          exact ih _ (coverage_inner_nodup excl p.1 p.2.nextHops cov h)
        · rw [if_neg hage]
          exact ih cov h
  exact main node.routingTable [] (by simp [mKeys])

theorem getMultiRouteCap_pos (k : Option MessageKind) (s : Option Severity) :
    1 ≤ getMultiRouteCap k s := by
  unfold getMultiRouteCap
  rcases k with _ | k
  · simp
  · cases k
    · simp
    · rcases s with _ | s
      · simp
      · cases s <;> simp

theorem markSentTriages_messages (m : ModelState) (nodeId : NodeId) (tid : TriageId)
    (sinkIds : List NodeId) :
    (markSentTriages m nodeId tid sinkIds).messages = m.messages := by
  unfold markSentTriages
  cases findNode m nodeId <;> rfl

theorem emitToTargets_length (fromNodeId : NodeId) (kind : MessageKind)
    (tid : Option TriageId) (sev : Option Severity) (sinkIds : List NodeId) (now : Int) :
    ∀ (targets : List NodeId) (m : ModelState),
      (emitToTargets m fromNodeId targets kind tid sev sinkIds now).messages.length
        = m.messages.length + targets.length := by
  intro targets
  induction targets with
  | nil =>
      intro m
      simp [emitToTargets]
  | cons t ts ih =>
      intro m
      rcases tid with _ | t2
      · have hgoal : emitToTargets m fromNodeId (t :: ts) kind none sev sinkIds now
            = emitToTargets
                { m with
                  messages := m.messages ++ [mkMessage m.nextId fromNodeId t now kind none sev]
                  nextId := m.nextId + 1 }
                fromNodeId ts kind none sev sinkIds now := rfl
        rw [hgoal, ih]
        simp only [List.length_append, List.length_cons, List.length_nil]
        omega
      · by_cases hcond : kind = .triage ∧ sinkIds ≠ []
        · have hgoal : emitToTargets m fromNodeId (t :: ts) kind (some t2) sev sinkIds now
              = emitToTargets
                  (markSentTriages
                    { m with
                      messages := m.messages ++ [mkMessage m.nextId fromNodeId t now kind (some t2) sev]
                      nextId := m.nextId + 1 }
                    fromNodeId t2 sinkIds)
                  fromNodeId ts kind (some t2) sev sinkIds now := by
            unfold emitToTargets
            rw [List.foldl_cons]
            congr 1
            show (if kind = .triage ∧ sinkIds ≠ [] then _ else _) = _
            rw [if_pos hcond]
          rw [hgoal, ih, markSentTriages_messages]
          simp only [List.length_append, List.length_cons, List.length_nil]
          omega
        · have hgoal : emitToTargets m fromNodeId (t :: ts) kind (some t2) sev sinkIds now
              = emitToTargets
                  { m with
                    messages := m.messages ++ [mkMessage m.nextId fromNodeId t now kind (some t2) sev]
                    nextId := m.nextId + 1 }
                  fromNodeId ts kind (some t2) sev sinkIds now := by
            unfold emitToTargets
            rw [List.foldl_cons]
            congr 1
            show (if kind = .triage ∧ sinkIds ≠ [] then _ else _) = _
            rw [if_neg hcond]
          rw [hgoal, ih]
          simp only [List.length_append, List.length_cons, List.length_nil]
          omega

theorem forwardToTargets_length (nodeId : NodeId) (message : Message)
    (tid : Option TriageId) (sinkIds : List NodeId) (now : Int) :
    ∀ (targets : List NodeId) (m : ModelState),
      (forwardToTargets m nodeId targets message tid sinkIds now).messages.length
        = m.messages.length + targets.length := by
  intro targets
  induction targets with
  | nil =>
      intro m
      simp [forwardToTargets]
  | cons t ts ih =>
      intro m
      rcases tid with _ | t2
      · have hgoal : forwardToTargets m nodeId (t :: ts) message none sinkIds now
            = forwardToTargets
                { m with
                  messages := m.messages ++
                    [mkMessage m.nextId nodeId t now message.type message.triageId message.triageSeverity]
                  nextId := m.nextId + 1 }
                nodeId ts message none sinkIds now := rfl
        rw [hgoal, ih]
        simp only [List.length_append, List.length_cons, List.length_nil]
        omega
      · by_cases hcond : sinkIds ≠ []
        · have hgoal : forwardToTargets m nodeId (t :: ts) message (some t2) sinkIds now
              = forwardToTargets
                  (markSentTriages
                    { m with
                      messages := m.messages ++
                        [mkMessage m.nextId nodeId t now message.type message.triageId message.triageSeverity]
                      nextId := m.nextId + 1 }
                    nodeId t2 sinkIds)
                  nodeId ts message (some t2) sinkIds now := by
            unfold forwardToTargets
            rw [List.foldl_cons]
            congr 1
            show (if sinkIds ≠ [] then _ else _) = _
            rw [if_pos hcond]
          rw [hgoal, ih, markSentTriages_messages]
          simp only [List.length_append, List.length_cons, List.length_nil]
          omega
        · have hgoal : forwardToTargets m nodeId (t :: ts) message (some t2) sinkIds now
              = forwardToTargets
                  { m with
                    messages := m.messages ++
                      [mkMessage m.nextId nodeId t now message.type message.triageId message.triageSeverity]
                    nextId := m.nextId + 1 }
                  nodeId ts message (some t2) sinkIds now := by
            unfold forwardToTargets
            rw [List.foldl_cons]
            congr 1
            show (if sinkIds ≠ [] then _ else _) = _
            rw [if_neg hcond]
          rw [hgoal, ih]
          simp only [List.length_append, List.length_cons, List.length_nil]
          omega

theorem selectTargets_intelligent (m : ModelState) (node : SimNode) (excl : Option NodeId)
    (kind : Option MessageKind) (sev : Option Severity) (now : Int)
    (hmode : node.routingState.mode = .intelligent) :
    (selectRoutingTargets m node excl kind sev now).length ≤ getMultiRouteCap kind sev ∧
    ((mKeys (neighborCoverage node excl now)).length ≤ getMultiRouteCap kind sev →
      selectRoutingTargets m node excl kind sev now = mKeys (neighborCoverage node excl now)) ∧
    (getMultiRouteCap kind sev < (mKeys (neighborCoverage node excl now)).length →
      (selectRoutingTargets m node excl kind sev now).length = getMultiRouteCap kind sev ∧
      IsGreedySel (getLoad m node.id) (neighborCoverage node excl now)
        (getMultiRouteCap kind sev) [] (mKeys (neighborCoverage node excl now))
        (selectRoutingTargets m node excl kind sev now)) := by
  have hcap1 := getMultiRouteCap_pos kind sev
  unfold selectRoutingTargets
  rw [if_pos hmode]
  dsimp only
  by_cases h0 : mKeys (neighborCoverage node excl now) = []
  · rw [if_pos h0]
    refine ⟨by simp, ?_, ?_⟩
    · intro _
      rw [h0]
    · intro hlt
      rw [h0] at hlt
      simp only [List.length_nil] at hlt
      omega
  · rw [if_neg h0]
    by_cases h1 : getMultiRouteCap kind sev ≥ (mKeys (neighborCoverage node excl now)).length
    · rw [if_pos h1]
      refine ⟨h1, fun _ => rfl, fun hlt => ?_⟩
      omega
    · rw [if_neg h1]
      have hnd := coverage_keys_nodup node excl now
      have hlen := greedyLoop_length_eq m node.id (neighborCoverage node excl now)
        (mKeys (neighborCoverage node excl now)).length (getMultiRouteCap kind sev)
        [] [] (mKeys (neighborCoverage node excl now)) hnd (le_refl _)
        (by simp) (by simp only [List.length_nil]; omega)
      have hne : greedyLoop m node.id (neighborCoverage node excl now)
          (getMultiRouteCap kind sev) (mKeys (neighborCoverage node excl now)).length
          [] [] (mKeys (neighborCoverage node excl now)) ≠ [] := by
        intro hcontra
        rw [hcontra] at hlen
        simp only [List.length_nil] at hlen
        omega
      rw [if_neg hne]
      refine ⟨le_of_eq hlen, fun hle => ?_, fun _ => ⟨hlen, ?_⟩⟩
      · omega
      · exact greedyLoop_isGreedy m node.id (neighborCoverage node excl now)
          (mKeys (neighborCoverage node excl now)).length (getMultiRouteCap kind sev)
          [] (mKeys (neighborCoverage node excl now)) (le_refl _)

theorem setNodeById_messages (m : ModelState) (node : SimNode) :
    (setNodeById m node).messages = m.messages := rfl

theorem notifyListeners_messages (m : ModelState) :
    (notifyListeners m).messages = m.messages := rfl

theorem arrivalForward_length (m : ModelState) (node : SimNode) (message : Message) (now : Int)
    (hmode : node.routingState.mode = .intelligent) :
    (arrivalForward m node message now).messages.length
      ≤ m.messages.length + getMultiRouteCap (some message.type) message.triageSeverity := by
  have hsel := (selectTargets_intelligent m node (some message.fromNodeId) (some message.type)
    message.triageSeverity now hmode).1
  unfold arrivalForward
  rcases hk : message.type with _ | _
  · rw [hk] at hsel
    dsimp only
    simp only [notifyListeners_messages]
    rw [forwardToTargets_length]
    omega
  · rcases ht : message.triageId with _ | tid
    · rw [hk] at hsel
      dsimp only
      simp only [notifyListeners_messages]
      rw [forwardToTargets_length]
      omega
    · rw [hk] at hsel
      dsimp only
      by_cases hsup : (decide (node.routingState.mode = RoutingMode.intelligent) &&
          match mGet node.sentTriagesToSinks tid with
          | some per => (!(sinkIdsFor node).isEmpty) && (sinkIdsFor node).all (fun s => per.contains s)
          | none => false) = true
      · rw [if_pos hsup]
        omega
      · rw [if_neg hsup]
        simp only [notifyListeners_messages]
        rw [forwardToTargets_length]
        omega

/-- C3: the multi-route cap is 3/2/1/1 for red/yellow/green/black triages and 1
for non-triage traffic; in intelligent mode the selector returns all candidates
when they are within the cap and otherwise exactly `cap` candidates chosen by
greedy maximum sink-coverage with a lower-load tie-break; and any send or
forward performed by a node in intelligent mode emits at most `cap` messages. -/
theorem c3_severity_cap_respected :
    (getMultiRouteCap (some .triage) (some .red) = 3 ∧
      getMultiRouteCap (some .triage) (some .yellow) = 2 ∧
      getMultiRouteCap (some .triage) (some .green) = 1 ∧
      getMultiRouteCap (some .triage) (some .black) = 1 ∧
      ∀ s, getMultiRouteCap (some .normal) s = 1) ∧
    (∀ (m : ModelState) (node : SimNode) (excl : Option NodeId) (kind : Option MessageKind)
        (sev : Option Severity) (now : Int),
      node.routingState.mode = .intelligent →
      (selectRoutingTargets m node excl kind sev now).length ≤ getMultiRouteCap kind sev ∧
      ((mKeys (neighborCoverage node excl now)).length ≤ getMultiRouteCap kind sev →
        selectRoutingTargets m node excl kind sev now = mKeys (neighborCoverage node excl now)) ∧
      (getMultiRouteCap kind sev < (mKeys (neighborCoverage node excl now)).length →
        (selectRoutingTargets m node excl kind sev now).length = getMultiRouteCap kind sev ∧
        IsGreedySel (getLoad m node.id) (neighborCoverage node excl now)
          (getMultiRouteCap kind sev) [] (mKeys (neighborCoverage node excl now))
          (selectRoutingTargets m node excl kind sev now))) ∧
    (∀ (m : ModelState) (fid : NodeId) (kind : MessageKind) (sevArg : Option Severity)
        (now : Int) (node : SimNode),
      findNode m fid = some node → node.routingState.mode = .intelligent →
      (sendMessage m fid kind sevArg now).messages.length
        ≤ m.messages.length + getMultiRouteCap (some kind)
            (if kind = .triage then some (sevArg.getD .red) else none)) ∧
    (∀ (m : ModelState) (message : Message) (now : Int) (node : SimNode),
      findNode m message.toNodeId = some node → node.routingState.mode = .intelligent →
      (onMessageArrival m message now).messages.length
        ≤ m.messages.length + getMultiRouteCap (some message.type) message.triageSeverity) := by
  refine ⟨⟨rfl, rfl, rfl, rfl, fun s => rfl⟩, ?_, ?_, ?_⟩
  · intro m node excl kind sev now hmode
    exact selectTargets_intelligent m node excl kind sev now hmode
  · intro m fid kind sevArg now node hfind hmode
    rcases kind with _ | _
    · have hshow : sendMessage m fid .normal sevArg now
          = notifyListeners (emitToTargets m fid
              (selectRoutingTargets m node (some fid) (some .normal) none now)
              .normal none none [] now) := by
        unfold sendMessage
        rw [hfind]
        rfl
      rw [hshow]
      simp only [notifyListeners_messages]
      rw [emitToTargets_length]
      have hsel := (selectTargets_intelligent m node (some fid) (some .normal) none now hmode).1
      have hcapeq : (if (MessageKind.normal = MessageKind.triage) then some (sevArg.getD .red)
          else none) = (none : Option Severity) := if_neg (by simp)
      rw [hcapeq]
      omega
    · by_cases hconn :
          ({ node with triageStore := sAdd node.triageStore m.nextId } : SimNode).connections = []
      · have hshow : sendMessage m fid .triage sevArg now
            = notifyListeners (setNodeById
                (setNodeById { m with nextId := m.nextId + 1 }
                  { node with triageStore := sAdd node.triageStore m.nextId })
                { { node with triageStore := sAdd node.triageStore m.nextId } with
                    triageQueue := ({ node with
                      triageStore := sAdd node.triageStore m.nextId } : SimNode).triageQueue
                      ++ [⟨m.nextId, sevArg.getD .red, now⟩] }) := by
          unfold sendMessage
          rw [hfind]
          dsimp only
          rw [if_pos hconn]
          rfl
        rw [hshow]
        simp only [notifyListeners_messages, setNodeById_messages]
        have := getMultiRouteCap_pos (some MessageKind.triage)
          (if (MessageKind.triage = MessageKind.triage) then some (sevArg.getD .red) else none)
        omega
      · have hshow : sendMessage m fid .triage sevArg now
            = notifyListeners (emitToTargets
                (setNodeById { m with nextId := m.nextId + 1 }
                  { node with triageStore := sAdd node.triageStore m.nextId })
                fid
                (selectRoutingTargets
                  (setNodeById { m with nextId := m.nextId + 1 }
                    { node with triageStore := sAdd node.triageStore m.nextId })
                  { node with triageStore := sAdd node.triageStore m.nextId }
                  (some fid) (some .triage) (some (sevArg.getD .red)) now)
                .triage (some m.nextId) (some (sevArg.getD .red))
                (sinkIdsFor { node with triageStore := sAdd node.triageStore m.nextId }) now) := by
          unfold sendMessage
          rw [hfind]
          dsimp only
          rw [if_neg hconn]
          rfl
        rw [hshow]
        simp only [notifyListeners_messages]
        rw [emitToTargets_length, setNodeById_messages]
        have hmode2 :
            ({ node with triageStore := sAdd node.triageStore m.nextId } : SimNode).routingState.mode
            = .intelligent := hmode
        have hsel := (selectTargets_intelligent
          (setNodeById { m with nextId := m.nextId + 1 }
            { node with triageStore := sAdd node.triageStore m.nextId })
          { node with triageStore := sAdd node.triageStore m.nextId }
          (some fid) (some .triage) (some (sevArg.getD .red)) now hmode2).1
        dsimp only
        simp only [if_true]
        omega
  · intro m message now node hfind hmode
    unfold onMessageArrival
    rw [hfind]
    have hnotfl : ¬ (({ node with lastMessageReceivedAt := some now } : SimNode).routingState.mode
        = .flooding ∨ ({ node with lastMessageReceivedAt := some now } : SimNode).routingState.mode
        = .inactive) := by
      show ¬ (node.routingState.mode = .flooding ∨ node.routingState.mode = .inactive)
      rw [hmode]
      simp
    rcases hk : message.type with _ | _
    · dsimp only
      have hb := arrivalForward_length (setNodeById m { node with lastMessageReceivedAt := some now })
        { node with lastMessageReceivedAt := some now } message now hmode
      rw [setNodeById_messages, hk] at hb
      exact hb
    · rcases ht : message.triageId with _ | tid
      · dsimp only
        have hb := arrivalForward_length (setNodeById m { node with lastMessageReceivedAt := some now })
          { node with lastMessageReceivedAt := some now } message now hmode
        rw [setNodeById_messages, hk] at hb
        exact hb
      · dsimp only
        rw [if_neg hnotfl]
        unfold arrivalQueueOrForward
        by_cases hconn :
            ({ { node with lastMessageReceivedAt := some now } with
                triageStore := sAdd ({ node with
                  lastMessageReceivedAt := some now } : SimNode).triageStore tid } : SimNode).connections
              = [] <;>
          [skip; skip]
        · rw [if_pos hconn]
          simp only [notifyListeners_messages, setNodeById_messages]
          have := getMultiRouteCap_pos (some MessageKind.triage) message.triageSeverity
          omega
        · rw [if_neg hconn]
          have hb := arrivalForward_length
            (setNodeById (setNodeById m { node with lastMessageReceivedAt := some now })
              { { node with lastMessageReceivedAt := some now } with
                  triageStore := sAdd ({ node with
                    lastMessageReceivedAt := some now } : SimNode).triageStore tid })
            { { node with lastMessageReceivedAt := some now } with
                triageStore := sAdd ({ node with
                  lastMessageReceivedAt := some now } : SimNode).triageStore tid }
            message now hmode
          rw [setNodeById_messages, setNodeById_messages, hk] at hb
          exact hb

/-- A three-node line (two sources and a sink) whose first node routes
intelligently, used as the C3 witness world. -/
def c3Model : ModelState :=
  addNode (addNode (addNode initialModel 0 0 .source 1000) 2 0 .source 1000) 4 0 .sink 1000

/-- C3 witness: the cap theorem applied to a concrete intelligent node. -/
theorem c3_severity_cap_respected_witness :
    (c3Model.nodes.headI).routingState.mode = .intelligent ∧
    (selectRoutingTargets c3Model (c3Model.nodes.headI) (some 0) (some .triage) (some .red)
        1000).length ≤ getMultiRouteCap (some .triage) (some .red) :=
  ⟨by decide,
    (c3_severity_cap_respected.2.1 c3Model (c3Model.nodes.headI) (some 0) (some .triage)
      (some .red) 1000 (by decide)).1⟩

/-! ### Claim C9 — messages emitted during a tick do not advance in it -/

theorem forwardToTargets_messages (nodeId : NodeId) (message : Message)
    (tid : Option TriageId) (sinkIds : List NodeId) (now : Int) :
    ∀ (targets : List NodeId) (m : ModelState),
      ∃ app, (forwardToTargets m nodeId targets message tid sinkIds now).messages
          = m.messages ++ app
        ∧ ∀ x ∈ app, x.progress = 0 := by
  intro targets
  induction targets with
  | nil =>
      intro m
      exact ⟨[], by simp [forwardToTargets], by simp⟩
  | cons t ts ih =>
      intro m
      have hdecomp : ∀ (st1 : ModelState),
          st1.messages = m.messages ++ [mkMessage m.nextId nodeId t now message.type
            message.triageId message.triageSeverity] →
          (forwardToTargets st1 nodeId ts message tid sinkIds now).messages
            = (forwardToTargets st1 nodeId ts message tid sinkIds now).messages := fun _ _ => rfl
      rcases tid with _ | t2
      · have hgoal : forwardToTargets m nodeId (t :: ts) message none sinkIds now
            = forwardToTargets
                { m with
                  messages := m.messages ++
                    [mkMessage m.nextId nodeId t now message.type message.triageId message.triageSeverity]
                  nextId := m.nextId + 1 }
                nodeId ts message none sinkIds now := rfl
        obtain ⟨app, happ, hzero⟩ := ih { m with
          messages := m.messages ++
            [mkMessage m.nextId nodeId t now message.type message.triageId message.triageSeverity]
          nextId := m.nextId + 1 }
        refine ⟨[mkMessage m.nextId nodeId t now message.type message.triageId message.triageSeverity]
          ++ app, ?_, ?_⟩
        · rw [hgoal, happ]
          simp
        · intro x hx
          rcases List.mem_append.1 hx with hx | hx
          · simp only [List.mem_singleton] at hx
            subst hx
            rfl
          · exact hzero x hx
      · by_cases hcond : sinkIds ≠ []
        · have hgoal : forwardToTargets m nodeId (t :: ts) message (some t2) sinkIds now
              = forwardToTargets
                  (markSentTriages
                    { m with
                      messages := m.messages ++
                        [mkMessage m.nextId nodeId t now message.type message.triageId message.triageSeverity]
                      nextId := m.nextId + 1 }
                    nodeId t2 sinkIds)
                  nodeId ts message (some t2) sinkIds now := by
            unfold forwardToTargets
            rw [List.foldl_cons]
            congr 1
            show (if sinkIds ≠ [] then _ else _) = _
            rw [if_pos hcond]
          obtain ⟨app, happ, hzero⟩ := ih (markSentTriages
            { m with
              messages := m.messages ++
                [mkMessage m.nextId nodeId t now message.type message.triageId message.triageSeverity]
              nextId := m.nextId + 1 }
            nodeId t2 sinkIds)
          refine ⟨[mkMessage m.nextId nodeId t now message.type message.triageId message.triageSeverity]
            ++ app, ?_, ?_⟩
          · rw [hgoal, happ, markSentTriages_messages]
            simp
          · intro x hx
            rcases List.mem_append.1 hx with hx | hx
            · simp only [List.mem_singleton] at hx
              subst hx
              rfl
            · exact hzero x hx
        · have hgoal : forwardToTargets m nodeId (t :: ts) message (some t2) sinkIds now
              = forwardToTargets
                  { m with
                    messages := m.messages ++
                      [mkMessage m.nextId nodeId t now message.type message.triageId message.triageSeverity]
                    nextId := m.nextId + 1 }
                  nodeId ts message (some t2) sinkIds now := by
            unfold forwardToTargets
            rw [List.foldl_cons]
            congr 1
            show (if sinkIds ≠ [] then _ else _) = _
            rw [if_neg hcond]
          obtain ⟨app, happ, hzero⟩ := ih { m with
            messages := m.messages ++
              [mkMessage m.nextId nodeId t now message.type message.triageId message.triageSeverity]
            nextId := m.nextId + 1 }
          refine ⟨[mkMessage m.nextId nodeId t now message.type message.triageId message.triageSeverity]
            ++ app, ?_, ?_⟩
          · rw [hgoal, happ]
            simp
          · intro x hx
            rcases List.mem_append.1 hx with hx | hx
            · simp only [List.mem_singleton] at hx
              subst hx
              rfl
            · exact hzero x hx

theorem arrivalForward_messages (m : ModelState) (node : SimNode) (message : Message) (now : Int) :
    ∃ app, (arrivalForward m node message now).messages = m.messages ++ app
      ∧ ∀ x ∈ app, x.progress = 0 := by
  unfold arrivalForward
  rcases message.type with _ | _
  · dsimp only
    obtain ⟨app, happ, hzero⟩ := forwardToTargets_messages node.id message none [] now
      (selectRoutingTargets m node (some message.fromNodeId) (some .normal) message.triageSeverity now) m
    exact ⟨app, by rw [notifyListeners_messages, happ], hzero⟩
  · rcases message.triageId with _ | tid
    · dsimp only
      obtain ⟨app, happ, hzero⟩ := forwardToTargets_messages node.id message none [] now
        (selectRoutingTargets m node (some message.fromNodeId) (some .triage) message.triageSeverity now) m
      exact ⟨app, by rw [notifyListeners_messages, happ], hzero⟩
    · dsimp only
      by_cases hsup : (decide (node.routingState.mode = RoutingMode.intelligent) &&
          match mGet node.sentTriagesToSinks tid with
          | some per => (!(sinkIdsFor node).isEmpty) && (sinkIdsFor node).all (fun s => per.contains s)
          | none => false) = true
      · rw [if_pos hsup]
        exact ⟨[], by simp, by simp⟩
      · rw [if_neg hsup]
        obtain ⟨app, happ, hzero⟩ := forwardToTargets_messages node.id message (some tid)
          (sinkIdsFor node) now
          (selectRoutingTargets m node (some message.fromNodeId) (some .triage) message.triageSeverity now) m
        exact ⟨app, by rw [notifyListeners_messages, happ], hzero⟩

theorem onMessageArrival_messages (m : ModelState) (message : Message) (now : Int) :
    ∃ app, (onMessageArrival m message now).messages = m.messages ++ app
      ∧ ∀ x ∈ app, x.progress = 0 := by
  unfold onMessageArrival
  cases hfind : findNode m message.toNodeId with
  | none => exact ⟨[], by simp, by simp⟩
  | some node =>
      rcases message.type with _ | _
      · dsimp only
        obtain ⟨app, happ, hzero⟩ := arrivalForward_messages
          (setNodeById m { node with lastMessageReceivedAt := some now })
          { node with lastMessageReceivedAt := some now } message now
        rw [setNodeById_messages] at happ
        exact ⟨app, happ, hzero⟩
      · rcases message.triageId with _ | tid
        · dsimp only
          obtain ⟨app, happ, hzero⟩ := arrivalForward_messages
            (setNodeById m { node with lastMessageReceivedAt := some now })
            { node with lastMessageReceivedAt := some now } message now
          rw [setNodeById_messages] at happ
          exact ⟨app, happ, hzero⟩
        · dsimp only
          by_cases hfl : ({ node with lastMessageReceivedAt := some now } : SimNode).routingState.mode
              = .flooding ∨ ({ node with
                lastMessageReceivedAt := some now } : SimNode).routingState.mode = .inactive
          · rw [if_pos hfl]
            by_cases hstore : ({ node with
                lastMessageReceivedAt := some now } : SimNode).triageStore.contains tid = true
            · rw [if_pos hstore]
              exact ⟨[], by simp [setNodeById_messages], by simp⟩
            · rw [if_neg hstore]
              unfold arrivalQueueOrForward
              by_cases hconn : ({ { node with lastMessageReceivedAt := some now } with
                  triageStore := sAdd ({ node with
                    lastMessageReceivedAt := some now } : SimNode).triageStore tid } : SimNode).connections = []
              · rw [if_pos hconn]
                exact ⟨[], by simp [notifyListeners_messages, setNodeById_messages], by simp⟩
              · rw [if_neg hconn]
                obtain ⟨app, happ, hzero⟩ := arrivalForward_messages
                  (setNodeById (setNodeById m { node with lastMessageReceivedAt := some now })
                    { { node with lastMessageReceivedAt := some now } with
                        triageStore := sAdd ({ node with
                          lastMessageReceivedAt := some now } : SimNode).triageStore tid })
                  { { node with lastMessageReceivedAt := some now } with
                      triageStore := sAdd ({ node with
                        lastMessageReceivedAt := some now } : SimNode).triageStore tid }
                  message now
                rw [setNodeById_messages, setNodeById_messages] at happ
                exact ⟨app, happ, hzero⟩
          · rw [if_neg hfl]
            unfold arrivalQueueOrForward
            by_cases hconn : ({ { node with lastMessageReceivedAt := some now } with
                triageStore := sAdd ({ node with
                  lastMessageReceivedAt := some now } : SimNode).triageStore tid } : SimNode).connections = []
            · rw [if_pos hconn]
              exact ⟨[], by simp [notifyListeners_messages, setNodeById_messages], by simp⟩
            · rw [if_neg hconn]
              obtain ⟨app, happ, hzero⟩ := arrivalForward_messages
                (setNodeById (setNodeById m { node with lastMessageReceivedAt := some now })
                  { { node with lastMessageReceivedAt := some now } with
                      triageStore := sAdd ({ node with
                        lastMessageReceivedAt := some now } : SimNode).triageStore tid })
                { { node with lastMessageReceivedAt := some now } with
                    triageStore := sAdd ({ node with
                      lastMessageReceivedAt := some now } : SimNode).triageStore tid }
                message now
              rw [setNodeById_messages, setNodeById_messages] at happ
              exact ⟨app, happ, hzero⟩

/-- One tick's advancement of a message (`message.progress += speed · Δt`). -/
def advMsg (dt : Int) (msg : Message) : Message :=
  { msg with progress := msg.progress + msg.speed * dt }

/-- Whether a message crosses the arrival threshold in this tick
(`oldProgress < 1 && newProgress ≥ 1`). -/
def crossB (dt : Int) (msg : Message) : Bool :=
  decide (msg.progress < 1 ∧ 1 ≤ msg.progress + msg.speed * dt)

theorem getElem_append_cons {α : Type} (A D : List α) (b : α) :
    (A ++ b :: D)[A.length]? = some b := by
  induction A with
  | nil => simp
  | cons a A ih => simpa using ih

theorem set_append_cons {α : Type} (A D : List α) (b v : α) :
    (A ++ b :: D).set A.length v = A ++ v :: D := by
  induction A with
  | nil => rfl
  | cons a A ih => simp [List.set, ih]

theorem advance_fold (dt now : Int) (orig : List Message) :
    ∀ (n i : Nat) (st : ModelState) (log app : List Message),
      i + n = orig.length →
      st.messages = (orig.take i).map (advMsg dt) ++ (orig.drop i ++ app) →
      (∀ x ∈ app, x.progress = 0) →
      ∃ app2,
        ((List.range' i n).foldl (advanceStep dt now) (st, log)).1.messages
          = orig.map (advMsg dt) ++ app2
        ∧ (∀ x ∈ app2, x.progress = 0)
        ∧ ((List.range' i n).foldl (advanceStep dt now) (st, log)).2
          = log ++ ((orig.drop i).filter (crossB dt)).map (advMsg dt) := by
  intro n
  induction n with
  | zero =>
      intro i st log app hi hmsg hzero
      have hieq : i = orig.length := by omega
      subst hieq
      refine ⟨app, ?_, hzero, ?_⟩
      · simpa [List.take_length, List.drop_length] using hmsg
      · simp [List.drop_length]
  | succ n ih =>
      intro i st log app hi hmsg hzero
      have hilt : i < orig.length := by omega
      have hdrop : orig.drop i = orig[i] :: orig.drop (i + 1) := List.drop_eq_getElem_cons hilt
      have htakelen : ((orig.take i).map (advMsg dt)).length = i := by
        simp only [List.length_map, List.length_take]
        omega
      have hshape : st.messages
          = (orig.take i).map (advMsg dt) ++ orig[i] :: (orig.drop (i + 1) ++ app) := by
        rw [hmsg, hdrop, List.cons_append]
      have hget : st.messages[i]? = some orig[i] := by
        have h2 := getElem_append_cons ((orig.take i).map (advMsg dt))
          (orig.drop (i + 1) ++ app) orig[i]
        rw [htakelen] at h2
        rw [hshape]
        exact h2
      have hset : st.messages.set i (advMsg dt orig[i])
          = (orig.take (i + 1)).map (advMsg dt) ++ (orig.drop (i + 1) ++ app) := by
        have h3 := set_append_cons ((orig.take i).map (advMsg dt))
          (orig.drop (i + 1) ++ app) orig[i] (advMsg dt orig[i])
        rw [htakelen] at h3
        have htake : orig.take (i + 1) = orig.take i ++ [orig[i]] := by
          rw [List.take_succ]
          congr 1
          rw [List.getElem?_eq_getElem hilt]
          rfl
        rw [hshape, h3, htake, List.map_append]
        simp
      have hstep : advanceStep dt now (st, log) i
          = if crossB dt orig[i] = true then
              (onMessageArrival
                { st with messages := st.messages.set i (advMsg dt orig[i]) }
                (advMsg dt orig[i]) now,
               log ++ [advMsg dt orig[i]])
            else ({ st with messages := st.messages.set i (advMsg dt orig[i]) }, log) := by
        unfold advanceStep
        rw [hget]
        dsimp only
        by_cases hc : orig[i].progress < 1 ∧ 1 ≤ orig[i].progress + orig[i].speed * dt
        · rw [if_pos hc, if_pos (by simpa [crossB] using hc)]
          rfl
        · rw [if_neg hc, if_neg (by simpa [crossB] using hc)]
          rfl
      have hrange : List.range' i (n + 1) = i :: List.range' (i + 1) n := rfl
      rw [hrange, List.foldl_cons, hstep]
      by_cases hc : crossB dt orig[i] = true
      · rw [if_pos hc]
        obtain ⟨app1, happ1, hzero1⟩ := onMessageArrival_messages
          { st with messages := st.messages.set i (advMsg dt orig[i]) } (advMsg dt orig[i]) now
        have hmsg2 : (onMessageArrival
            { st with messages := st.messages.set i (advMsg dt orig[i]) }
            (advMsg dt orig[i]) now).messages
            = (orig.take (i + 1)).map (advMsg dt) ++ (orig.drop (i + 1) ++ (app ++ app1)) := by
          rw [happ1]
          show st.messages.set i (advMsg dt orig[i]) ++ app1 = _
          rw [hset]
          simp [List.append_assoc]
        have hzero2 : ∀ x ∈ app ++ app1, x.progress = 0 := by
          intro x hx
          rcases List.mem_append.1 hx with hx | hx
          · exact hzero x hx
          · exact hzero1 x hx
        obtain ⟨app2, hA, hB, hC⟩ := ih (i + 1) _ (log ++ [advMsg dt orig[i]]) (app ++ app1)
          (by omega) hmsg2 hzero2
        refine ⟨app2, hA, hB, ?_⟩
        rw [hC, hdrop]
        rw [List.filter_cons, if_pos hc]
        simp [List.map_cons]
      · rw [if_neg hc]
        have hmsg2 : ({ st with messages := st.messages.set i (advMsg dt orig[i]) }
            : ModelState).messages
            = (orig.take (i + 1)).map (advMsg dt) ++ (orig.drop (i + 1) ++ app) := by
          show st.messages.set i (advMsg dt orig[i]) = _
          exact hset
        obtain ⟨app2, hA, hB, hC⟩ := ih (i + 1) _ log app (by omega) hmsg2 hzero
        refine ⟨app2, hA, hB, ?_⟩
        rw [hC, hdrop]
        rw [List.filter_cons, if_neg (by simpa using hc)]

/-- C9: during the message-advance phase of a tick, only the messages present
when the phase starts are advanced and delivered — the arrival log is exactly
the in-order list of original messages that cross `progress = 1` (insertion
order), and every message emitted by an arrival-triggered forward during the
phase still has `progress = 0` at the end of the phase and survives the
completed-message sweep (it is not delivered within this tick). -/
theorem c9_intra_tick_no_advance (m : ModelState) (dt now : Int) :
    (updateMessages m dt now).2 = (m.messages.filter (crossB dt)).map (advMsg dt) ∧
    ∃ appended,
      (updateMessages m dt now).1.messages
        = (m.messages.map (advMsg dt)).filter (fun msg => msg.progress < 1) ++ appended
      ∧ ∀ x ∈ appended, x.progress = 0 := by
  obtain ⟨app2, hA, hB, hC⟩ := advance_fold dt now m.messages m.messages.length 0 m [] []
    (by omega) (by simp) (by simp)
  have hrange : List.range m.messages.length = List.range' 0 m.messages.length :=
    List.range_eq_range' _
  unfold updateMessages
  dsimp only
  rw [hrange]
  constructor
  · rw [hC]
    simp
  · refine ⟨app2, ?_, hB⟩
    rw [hA, List.filter_append]
    congr 1
    apply List.filter_eq_self.2
    intro x hx
    have := hB x hx
    simp [this]

/-- The emission paths of the sync/replay machinery only ever append to the
message list; this predicate records such an append whose every new element
satisfies `P`. -/
def AppendsWith (P : Message → Prop) (m m' : ModelState) : Prop :=
  ∃ app, m'.messages = m.messages ++ app ∧ ∀ x ∈ app, P x

/-- A replayed message: a triage message with severity hard-coded to red. -/
def RedTriage (x : Message) : Prop :=
  x.type = .triage ∧ x.triageSeverity = some .red

theorem appendsWith_refl (P : Message → Prop) (m : ModelState) : AppendsWith P m m :=
  ⟨[], by simp, by simp⟩

theorem appendsWith_trans {P : Message → Prop} {m1 m2 m3 : ModelState}
    (h12 : AppendsWith P m1 m2) (h23 : AppendsWith P m2 m3) : AppendsWith P m1 m3 := by
  obtain ⟨a, ha, hpa⟩ := h12
  obtain ⟨b, hb, hpb⟩ := h23
  refine ⟨a ++ b, by rw [hb, ha, List.append_assoc], ?_⟩
  intro x hx
  rcases List.mem_append.1 hx with hx | hx
  · exact hpa x hx
  · exact hpb x hx

theorem appendsWith_of_eq {P : Message → Prop} {m m' : ModelState}
    (h : m'.messages = m.messages) : AppendsWith P m m' :=
  ⟨[], by simp [h], by simp⟩

theorem appendsWith_fold {α : Type} (P : Message → Prop) (f : ModelState → α → ModelState)
    (hstep : ∀ st a, AppendsWith P st (f st a)) :
    ∀ (l : List α) (m : ModelState), AppendsWith P m (l.foldl f m) := by
  intro l
  induction l with
  | nil => intro m; exact appendsWith_refl P m
  | cons a l ih =>
      intro m
      rw [List.foldl_cons]
      exact appendsWith_trans (hstep m a) (ih (f m a))

theorem syncSinkTriage_red (m : ModelState) (sinkId newSinkId : NodeId)
    (nextHops : List (NodeId × Nat)) (tid : TriageId) (now : Int) :
    AppendsWith RedTriage m (syncSinkTriage m sinkId newSinkId nextHops tid now) := by
  unfold syncSinkTriage
  cases findNode m newSinkId with
  | none => exact appendsWith_refl _ _
  | some newSink =>
      dsimp only
      by_cases h1 : newSink.triageStore.contains tid
      · rw [if_pos h1]
        exact appendsWith_refl _ _
      · rw [if_neg h1]
        cases findNode m sinkId with
        | none => exact appendsWith_refl _ _
        | some sink =>
            dsimp only
            by_cases h2 : (match mGet sink.sentTriagesToSinks tid with
              | some per => per.contains newSinkId
              | none => false) = true
            · rw [if_pos h2]
              exact appendsWith_refl _ _
            · rw [if_neg h2]
              refine appendsWith_trans
                (appendsWith_fold RedTriage _ ?_ nextHops m)
                (appendsWith_of_eq (setNodeById_messages _ _))
              intro st hop
              refine ⟨[mkMessage st.nextId sinkId hop.1 now .triage (some tid) (some .red)],
                rfl, ?_⟩
              intro x hx
              rw [List.mem_singleton] at hx
              subst hx
              exact ⟨rfl, rfl⟩

theorem syncOneSink_red (m : ModelState) (sinkId newSinkId : NodeId) (now : Int) :
    AppendsWith RedTriage m (syncOneSink m sinkId newSinkId now) := by
  unfold syncOneSink
  cases findNode m sinkId with
  | none => exact appendsWith_refl _ _
  | some sink =>
      dsimp only
      cases mGet sink.routingTable newSinkId with
      | none => exact appendsWith_refl _ _
      | some routeEntry =>
          dsimp only
          by_cases h1 : routeEntry.nextHops = []
          · rw [if_pos h1]
            exact appendsWith_refl _ _
          · rw [if_neg h1]
            exact appendsWith_fold RedTriage _
              (fun st tid => syncSinkTriage_red st sinkId newSinkId routeEntry.nextHops tid now)
              sink.triageStore m

theorem syncNewSink_red (m : ModelState) (newSinkId : NodeId) (now : Int) :
    AppendsWith RedTriage m (syncNewSinkFromExistingSinks m newSinkId now) := by
  unfold syncNewSinkFromExistingSinks
  cases findNode m newSinkId with
  | none => exact appendsWith_refl _ _
  | some newSink =>
      dsimp only
      by_cases h1 : newSink.type ≠ .sink
      · rw [if_pos h1]
        exact appendsWith_refl _ _
      · rw [if_neg h1]
        by_cases h2 : ((m.nodes.filter
            (fun n => decide (n.type = .sink) && (n.id != newSinkId))).map (fun n => n.id)) = []
        · rw [if_pos h2]
          exact appendsWith_refl _ _
        · rw [if_neg h2]
          refine appendsWith_trans ?_ (appendsWith_of_eq (notifyListeners_messages _))
          exact appendsWith_fold RedTriage _
            (fun st sid => syncOneSink_red st sid newSinkId now) _ m

theorem newLinkSinkPush_red (m : ModelState) (nodeId : NodeId) (peer : SimNode)
    (store : List TriageId) (now : Int) :
    AppendsWith RedTriage m (newLinkSinkPush m nodeId peer store now) := by
  unfold newLinkSinkPush
  refine appendsWith_fold RedTriage _ ?_ store m
  intro st tid
  by_cases h1 : peer.triageStore.contains tid
  · rw [if_pos h1]
    exact appendsWith_refl _ _
  · rw [if_neg h1]
    refine ⟨[mkMessage st.nextId nodeId peer.id now .triage (some tid) (some .red)], rfl, ?_⟩
    intro x hx
    rw [List.mem_singleton] at hx
    subst hx
    exact ⟨rfl, rfl⟩

theorem boundarySeedTriage_red (m : ModelState) (nodeId peerId : NodeId)
    (reachable : List NodeId) (peerStore : List TriageId) (tid : TriageId) (now : Int) :
    AppendsWith RedTriage m (boundarySeedTriage m nodeId peerId reachable peerStore tid now) := by
  unfold boundarySeedTriage
  cases findNode m nodeId with
  | none => exact appendsWith_refl _ _
  | some node =>
      dsimp only
      by_cases h1 : (!reachable.any
          (fun s => match mGet node.sentTriagesToSinks tid with
            | none => true
            | some per => !(per.contains s))) = true
      · rw [if_pos h1]
        exact appendsWith_refl _ _
      · rw [if_neg h1]
        refine appendsWith_trans ?_ (appendsWith_of_eq (setNodeById_messages _ _))
        by_cases h2 : peerStore.contains tid
        · rw [if_pos h2]
          exact appendsWith_refl _ _
        · rw [if_neg h2]
          refine ⟨[mkMessage m.nextId nodeId peerId now .triage (some tid) (some .red)], rfl, ?_⟩
          intro x hx
          rw [List.mem_singleton] at hx
          subst hx
          exact ⟨rfl, rfl⟩

theorem newLinkReplay_red (m : ModelState) (nodeId peerId : NodeId) (now : Int) :
    AppendsWith RedTriage m (newLinkReplay m nodeId peerId now) := by
  unfold newLinkReplay
  cases findNode m peerId with
  | none => exact appendsWith_refl _ _
  | some peer =>
      dsimp only
      cases findNode m nodeId with
      | none => exact appendsWith_refl _ _
      | some node =>
          dsimp only
          by_cases h1 : peer.type = .sink ∧ node.triageStore ≠ []
          · rw [if_pos h1]
            refine appendsWith_trans (newLinkSinkPush_red m nodeId peer node.triageStore now) ?_
            by_cases h2 : (newLinkSinkPush m nodeId peer node.triageStore now).messages ≠ []
            · rw [if_pos h2]
              exact appendsWith_of_eq (notifyListeners_messages _)
            · rw [if_neg h2]
              exact appendsWith_refl _ _
          · rw [if_neg h1]
            by_cases h2 : mKeys peer.routingTable ≠ [] ∧ node.triageStore ≠ []
            · rw [if_pos h2]
              refine appendsWith_trans
                (appendsWith_fold RedTriage _
                  (fun st tid => boundarySeedTriage_red st nodeId peerId
                    (mKeys peer.routingTable) peer.triageStore tid now)
                  node.triageStore m) ?_
              by_cases h3 : (node.triageStore.foldl
                  (fun st tid => boundarySeedTriage st nodeId peerId
                    (mKeys peer.routingTable) peer.triageStore tid now) m).messages ≠ []
              · rw [if_pos h3]
                exact appendsWith_of_eq (notifyListeners_messages _)
              · rw [if_neg h3]
                exact appendsWith_refl _ _
            · rw [if_neg h2]
              exact appendsWith_refl _ _

theorem sendQueuedTriage_sev (m : ModelState) (fromId : NodeId) (tid : TriageId)
    (sev : Severity) (now : Int) :
    AppendsWith (fun x => x.type = .triage ∧ x.triageId = some tid ∧ x.triageSeverity = some sev)
      m (sendQueuedTriage m fromId tid sev now) := by
  unfold sendQueuedTriage
  cases findNode m fromId with
  | none => exact appendsWith_refl _ _
  | some fromNode =>
      dsimp only
      by_cases h1 : (!fromNode.triageStore.contains tid) = true
      · rw [if_pos h1]
        exact appendsWith_refl _ _
      · rw [if_neg h1]
        refine appendsWith_trans ?_ (appendsWith_of_eq (notifyListeners_messages _))
        refine appendsWith_fold _ _ ?_ (fromNode.connections.foldl sAdd []) m
        intro st toNodeId
        refine ⟨[mkMessage st.nextId fromId toNodeId now .triage (some tid) (some sev)], rfl, ?_⟩
        intro x hx
        rw [List.mem_singleton] at hx
        subst hx
        exact ⟨rfl, rfl, rfl⟩

/-- C10: the new-sink sync pass and the new-link boundary replay only append
messages, and every message they append is a triage message whose severity is
hard-coded to red — the original severity of the replayed triage is not
consulted (the triage store holds only ids); by contrast a queue flush
(`sendQueuedTriage`) emits only triage messages carrying exactly the queued
triage id and the queued severity. -/
theorem c10_replay_severity_red (m : ModelState) (newSinkId nodeId peerId fromId : NodeId)
    (tid : TriageId) (sev : Severity) (now : Int) :
    (∃ app, (syncNewSinkFromExistingSinks m newSinkId now).messages = m.messages ++ app
      ∧ ∀ x ∈ app, x.type = .triage ∧ x.triageSeverity = some .red) ∧
    (∃ app, (newLinkReplay m nodeId peerId now).messages = m.messages ++ app
      ∧ ∀ x ∈ app, x.type = .triage ∧ x.triageSeverity = some .red) ∧
    (∃ app, (sendQueuedTriage m fromId tid sev now).messages = m.messages ++ app
      ∧ ∀ x ∈ app, x.type = .triage ∧ x.triageId = some tid ∧ x.triageSeverity = some sev) :=
  ⟨syncNewSink_red m newSinkId now, newLinkReplay_red m nodeId peerId now,
    sendQueuedTriage_sev m fromId tid sev now⟩

theorem mem_sAdd {s : List NodeId} {k x : NodeId} (h : x ∈ sAdd s k) : x ∈ s ∨ x = k := by
  unfold sAdd at h
  by_cases hc : s.contains k
  · rw [if_pos hc] at h
    exact Or.inl h
  · rw [if_neg hc] at h
    rcases List.mem_append.1 h with h | h
    · exact Or.inl h
    · exact Or.inr (List.mem_singleton.1 h)

theorem floodTargets_subset (excl : Option NodeId) (conns : List NodeId) :
    ∀ (acc : List NodeId) (x : NodeId),
      x ∈ conns.foldl
        (fun tgts peerId => if some peerId = excl then tgts else sAdd tgts peerId) acc →
      x ∈ acc ∨ x ∈ conns := by
  induction conns with
  | nil =>
      intro acc x h
      exact Or.inl h
  | cons c cs ih =>
      intro acc x h
      rw [List.foldl_cons] at h
      rcases ih _ x h with h2 | h2
      · by_cases hc : some c = excl
        · rw [if_pos hc] at h2
          exact Or.inl h2
        · rw [if_neg hc] at h2
          rcases mem_sAdd h2 with h3 | h3
          · exact Or.inl h3
          · exact Or.inr (by simp [h3])
      · exact Or.inr (List.mem_cons_of_mem _ h2)

theorem foldl_sAdd_subset (conns : List NodeId) :
    ∀ (acc : List NodeId) (x : NodeId), x ∈ conns.foldl sAdd acc → x ∈ acc ∨ x ∈ conns := by
  induction conns with
  | nil =>
      intro acc x h
      exact Or.inl h
  | cons c cs ih =>
      intro acc x h
      rw [List.foldl_cons] at h
      rcases ih _ x h with h2 | h2
      · rcases mem_sAdd h2 with h3 | h3
        · exact Or.inl h3
        · exact Or.inr (by simp [h3])
      · exact Or.inr (List.mem_cons_of_mem _ h2)

theorem selectTargets_nonintelligent_subset (m : ModelState) (node : SimNode)
    (excl : Option NodeId) (kind : Option MessageKind) (sev : Option Severity) (now : Int)
    (hmode : node.routingState.mode ≠ .intelligent) :
    ∀ x ∈ selectRoutingTargets m node excl kind sev now, x ∈ node.connections := by
  intro x hx
  unfold selectRoutingTargets at hx
  rw [if_neg hmode] at hx
  by_cases h2 : node.routingState.mode = .flooding ∨ node.routingState.mode = .inactive
  · rw [if_pos h2] at hx
    rcases floodTargets_subset excl node.connections [] x hx with h | h
    · simp at h
    · exact h
  · rw [if_neg h2] at hx
    simp at hx

theorem appendsWith_mono {P Q : Message → Prop} (h : ∀ x, P x → Q x) {m m' : ModelState}
    (hA : AppendsWith P m m') : AppendsWith Q m m' := by
  obtain ⟨app, ha, hp⟩ := hA
  exact ⟨app, ha, fun x hx => h x (hp x hx)⟩

theorem appendsWith_fold_mem {α : Type} (P : Message → Prop) (f : ModelState → α → ModelState) :
    ∀ (l : List α), (∀ st a, a ∈ l → AppendsWith P st (f st a)) →
      ∀ (m : ModelState), AppendsWith P m (l.foldl f m) := by
  intro l
  induction l with
  | nil =>
      intro _ m
      exact appendsWith_refl P m
  | cons a t ih =>
      intro hstep m
      rw [List.foldl_cons]
      exact appendsWith_trans (hstep m a (List.mem_cons_self a t))
        (ih (fun st b hb => hstep st b (List.mem_cons_of_mem a hb)) (f m a))

theorem findNode_id_eq {m : ModelState} {id : NodeId} {n : SimNode}
    (h : findNode m id = some n) : n.id = id := by
  unfold findNode at h
  have h2 := List.find?_some h
  simpa using h2

theorem emitToTargets_targets (fromId : NodeId) (kind : MessageKind) (tid : Option TriageId)
    (sev : Option Severity) (sinkIds : List NodeId) (now : Int) (targets : List NodeId)
    (m : ModelState) :
    AppendsWith (fun x => x.fromNodeId = fromId ∧ x.toNodeId ∈ targets)
      m (emitToTargets m fromId targets kind tid sev sinkIds now) := by
  unfold emitToTargets
  refine appendsWith_fold_mem _ _ targets ?_ m
  intro st toNodeId hmem
  dsimp only
  have hP : ∀ x ∈ [mkMessage st.nextId fromId toNodeId now kind tid sev],
      x.fromNodeId = fromId ∧ x.toNodeId ∈ targets := by
    intro x hx
    rw [List.mem_singleton] at hx
    subst hx
    exact ⟨rfl, hmem⟩
  cases tid with
  | none => exact ⟨_, rfl, hP⟩
  | some t =>
      dsimp only
      by_cases hc : kind = .triage ∧ sinkIds ≠ []
      · rw [if_pos hc]
        exact appendsWith_trans ⟨_, rfl, hP⟩
          (appendsWith_of_eq (markSentTriages_messages _ _ _ _))
      · rw [if_neg hc]
        exact ⟨_, rfl, hP⟩

theorem forwardToTargets_targets (nodeId : NodeId) (message : Message) (tid : Option TriageId)
    (sinkIds : List NodeId) (now : Int) (targets : List NodeId) (m : ModelState) :
    AppendsWith (fun x => x.fromNodeId = nodeId ∧ x.toNodeId ∈ targets)
      m (forwardToTargets m nodeId targets message tid sinkIds now) := by
  unfold forwardToTargets
  refine appendsWith_fold_mem _ _ targets ?_ m
  intro st toNodeId hmem
  dsimp only
  have hP : ∀ x ∈ [mkMessage st.nextId nodeId toNodeId now
        message.type message.triageId message.triageSeverity],
      x.fromNodeId = nodeId ∧ x.toNodeId ∈ targets := by
    intro x hx
    rw [List.mem_singleton] at hx
    subst hx
    exact ⟨rfl, hmem⟩
  cases tid with
  | none => exact ⟨_, rfl, hP⟩
  | some t =>
      dsimp only
      by_cases hc : sinkIds ≠ []
      · rw [if_pos hc]
        exact appendsWith_trans ⟨_, rfl, hP⟩
          (appendsWith_of_eq (markSentTriages_messages _ _ _ _))
      · rw [if_neg hc]
        exact ⟨_, rfl, hP⟩

theorem emit_notify_targets (m0 m1 : ModelState) (fromId : NodeId) (kind : MessageKind)
    (tid : Option TriageId) (sev : Option Severity) (sinkIds : List NodeId) (now : Int)
    (targets conns : List NodeId)
    (hmsg : m1.messages = m0.messages)
    (hsub : ∀ x ∈ targets, x ∈ conns) :
    AppendsWith (fun x => x.fromNodeId = fromId ∧ x.toNodeId ∈ conns)
      m0 (notifyListeners (emitToTargets m1 fromId targets kind tid sev sinkIds now)) := by
  refine appendsWith_trans (appendsWith_of_eq hmsg) (appendsWith_trans
    (appendsWith_mono ?_ (emitToTargets_targets fromId kind tid sev sinkIds now targets m1))
    (appendsWith_of_eq (notifyListeners_messages _)))
  intro x hx
  exact ⟨hx.1, hsub x.toNodeId hx.2⟩

theorem sendMessage_nonintelligent (m : ModelState) (fromId : NodeId) (fromNode : SimNode)
    (kind : MessageKind) (sev : Option Severity) (now : Int)
    (hfind : findNode m fromId = some fromNode)
    (hmode : fromNode.routingState.mode ≠ .intelligent) :
    AppendsWith (fun x => x.fromNodeId = fromId ∧ x.toNodeId ∈ fromNode.connections)
      m (sendMessage m fromId kind sev now) := by
  unfold sendMessage
  rw [hfind]
  dsimp only
  by_cases hk : kind = .triage
  · rw [if_pos hk]
    by_cases hc : fromNode.connections = []
    · rw [if_pos hc]
      exact appendsWith_of_eq rfl
    · rw [if_neg hc]
      exact emit_notify_targets m _ fromId .triage _ _ _ now _ fromNode.connections rfl
        (selectTargets_nonintelligent_subset _
          { fromNode with triageStore := sAdd fromNode.triageStore m.nextId }
          (some fromId) (some .triage) (some (sev.getD .red)) now hmode)
  · rw [if_neg hk]
    exact emit_notify_targets m m fromId kind none none [] now _ fromNode.connections rfl
      (selectTargets_nonintelligent_subset m fromNode (some fromId) (some kind) none now hmode)

theorem arrivalForward_targets (m : ModelState) (node : SimNode) (message : Message) (now : Int)
    (hmode : node.routingState.mode ≠ .intelligent) :
    AppendsWith (fun x => x.fromNodeId = node.id ∧ x.toNodeId ∈ node.connections)
      m (arrivalForward m node message now) := by
  have hsub := selectTargets_nonintelligent_subset m node (some message.fromNodeId)
    (some message.type) message.triageSeverity now hmode
  unfold arrivalForward
  dsimp only
  have hfwd : ∀ (tid : Option TriageId) (sinkIds : List NodeId),
      AppendsWith (fun x => x.fromNodeId = node.id ∧ x.toNodeId ∈ node.connections)
        m (notifyListeners (forwardToTargets m node.id
            (selectRoutingTargets m node (some message.fromNodeId) (some message.type)
              message.triageSeverity now)
            message tid sinkIds now)) := by
    intro tid sinkIds
    refine appendsWith_trans (appendsWith_mono ?_ (forwardToTargets_targets node.id message tid
      sinkIds now _ m)) (appendsWith_of_eq (notifyListeners_messages _))
    intro x hx
    exact ⟨hx.1, hsub x.toNodeId hx.2⟩
  cases hk : message.type with
  | normal =>
      rw [hk] at hfwd
      exact hfwd none []
  | triage =>
      rw [hk] at hfwd
      cases ht : message.triageId with
      | none => exact hfwd none []
      | some t =>
          dsimp only
          by_cases hs : (decide (node.routingState.mode = .intelligent) &&
              (match mGet node.sentTriagesToSinks t with
               | some per => (!(sinkIdsFor node).isEmpty) &&
                   (sinkIdsFor node).all (fun s => per.contains s)
               | none => false)) = true
          · rw [if_pos hs]
            exact appendsWith_refl _ _
          · rw [if_neg hs]
            exact hfwd (some t) (sinkIdsFor node)

theorem sendQueuedTriage_targets (m : ModelState) (fromId : NodeId) (fromNode : SimNode)
    (tid : TriageId) (sev : Severity) (now : Int)
    (hfind : findNode m fromId = some fromNode) :
    AppendsWith (fun x => x.fromNodeId = fromId ∧ x.toNodeId ∈ fromNode.connections)
      m (sendQueuedTriage m fromId tid sev now) := by
  unfold sendQueuedTriage
  rw [hfind]
  dsimp only
  by_cases h1 : (!fromNode.triageStore.contains tid) = true
  · rw [if_pos h1]
    exact appendsWith_refl _ _
  · rw [if_neg h1]
    refine appendsWith_trans ?_ (appendsWith_of_eq (notifyListeners_messages _))
    refine appendsWith_fold_mem _ _ (fromNode.connections.foldl sAdd []) ?_ m
    intro st toNodeId hmem
    have hconn : toNodeId ∈ fromNode.connections := by
      rcases foldl_sAdd_subset fromNode.connections [] toNodeId hmem with h | h
      · simp at h
      · exact h
    refine ⟨[mkMessage st.nextId fromId toNodeId now .triage (some tid) (some sev)], rfl, ?_⟩
    intro x hx
    rw [List.mem_singleton] at hx
    subst hx
    exact ⟨rfl, hconn⟩

theorem boundarySeedTriage_endpoints (m : ModelState) (nodeId peerId : NodeId)
    (reachable : List NodeId) (peerStore : List TriageId) (tid : TriageId) (now : Int) :
    AppendsWith (fun x => x.fromNodeId = nodeId ∧ x.toNodeId = peerId)
      m (boundarySeedTriage m nodeId peerId reachable peerStore tid now) := by
  unfold boundarySeedTriage
  cases findNode m nodeId with
  | none => exact appendsWith_refl _ _
  | some node =>
      dsimp only
      by_cases h1 : (!reachable.any
          (fun s => match mGet node.sentTriagesToSinks tid with
            | none => true
            | some per => !(per.contains s))) = true
      · rw [if_pos h1]
        exact appendsWith_refl _ _
      · rw [if_neg h1]
        refine appendsWith_trans ?_ (appendsWith_of_eq (setNodeById_messages _ _))
        by_cases h2 : peerStore.contains tid
        · rw [if_pos h2]
          exact appendsWith_refl _ _
        · rw [if_neg h2]
          refine ⟨[mkMessage m.nextId nodeId peerId now .triage (some tid) (some .red)], rfl, ?_⟩
          intro x hx
          rw [List.mem_singleton] at hx
          subst hx
          exact ⟨rfl, rfl⟩

theorem newLinkReplay_endpoints (m : ModelState) (nodeId peerId : NodeId) (now : Int) :
    AppendsWith (fun x => x.fromNodeId = nodeId ∧ x.toNodeId = peerId)
      m (newLinkReplay m nodeId peerId now) := by
  unfold newLinkReplay
  cases hp : findNode m peerId with
  | none => exact appendsWith_refl _ _
  | some peer =>
      have hpid : peer.id = peerId := findNode_id_eq hp
      dsimp only
      cases findNode m nodeId with
      | none => exact appendsWith_refl _ _
      | some node =>
          dsimp only
          by_cases h1 : peer.type = .sink ∧ node.triageStore ≠ []
          · rw [if_pos h1]
            have hpush : AppendsWith (fun x => x.fromNodeId = nodeId ∧ x.toNodeId = peerId)
                m (newLinkSinkPush m nodeId peer node.triageStore now) := by
              unfold newLinkSinkPush
              refine appendsWith_fold_mem _ _ node.triageStore (fun st tid _ => ?_) m
              by_cases h2 : peer.triageStore.contains tid
              · rw [if_pos h2]
                exact appendsWith_refl _ _
              · rw [if_neg h2]
                refine ⟨[mkMessage st.nextId nodeId peer.id now .triage (some tid) (some .red)],
                  rfl, ?_⟩
                intro x hx
                rw [List.mem_singleton] at hx
                subst hx
                exact ⟨rfl, hpid⟩
            refine appendsWith_trans hpush ?_
            by_cases h2 : (newLinkSinkPush m nodeId peer node.triageStore now).messages ≠ []
            · rw [if_pos h2]
              exact appendsWith_of_eq (notifyListeners_messages _)
            · rw [if_neg h2]
              exact appendsWith_refl _ _
          · rw [if_neg h1]
            by_cases h2 : mKeys peer.routingTable ≠ [] ∧ node.triageStore ≠ []
            · rw [if_pos h2]
              refine appendsWith_trans
                (appendsWith_fold_mem _ _ node.triageStore
                  (fun st tid _ => boundarySeedTriage_endpoints st nodeId peerId
                    (mKeys peer.routingTable) peer.triageStore tid now) m) ?_
              by_cases h3 : (node.triageStore.foldl
                  (fun st tid => boundarySeedTriage st nodeId peerId
                    (mKeys peer.routingTable) peer.triageStore tid now) m).messages ≠ []
              · rw [if_pos h3]
                exact appendsWith_of_eq (notifyListeners_messages _)
              · rw [if_neg h3]
                exact appendsWith_refl _ _
            · rw [if_neg h2]
              exact appendsWith_refl _ _

/-- Four-node scenario refuting C5: nodes 0,1,3 are sources at (0,0), (2,0) and
(0,2), node 2 is a sink at (4,0); a routing pass makes node 1 the next hop of
node 0 towards the sink; then node 1 moves to (100,100), which recomputes
connections but not routing tables. -/
def c5Pre : ModelState :=
  updateNodePosition
    (addNode (addNode (addNode (addNode initialModel 0 0 .source 1000) 2 0 .source 1000)
      4 0 .sink 1000) 0 2 .source 1000)
    1 100 100 1000

/-- The state after node 0, still in intelligent mode, sends a triage in the
scenario above. -/
def c5Model : ModelState := sendMessage c5Pre 0 .triage (some .red) 1000

/-- C5 counterexample: in the `c5Pre` scenario node 0's only current neighbor
is node 3 and node 0 is in intelligent mode, yet sending a triage from node 0
creates exactly one message, addressed to node 1 — a node that is not a
neighbor of node 0 at the moment the message is created (connections are
unchanged by the send). The stale routing table survives the position update
because update_node_position recomputes connections without rebuilding
routes. -/
theorem c5_counterexample :
    c5Pre.messages = [] ∧
    ((findNode c5Pre 0).map (fun n => n.connections)) = some [3] ∧
    ((findNode c5Pre 0).map (fun n => n.routingState.mode)) = some .intelligent ∧
    c5Model.messages.map (fun msg => (msg.fromNodeId, msg.toNodeId)) = [(0, 1)] ∧
    ((findNode c5Model 0).map (fun n => n.connections)) = some [3] := by decide

/-- A one-node model whose single node (id 0) has no neighbors and is therefore
in no-connections mode after the routing pass of addNode. -/
def c5WitModel : ModelState := addNode initialModel 0 0 .source 1000

/-- The single node of `c5WitModel`. -/
def c5WitNode : SimNode := c5WitModel.nodes.headI


/-! ### Primitive lemmas about the JS map helpers, used by the BFS development -/

theorem mGet_nil {α : Type} (k : NodeId) : mGet ([] : List (NodeId × α)) k = none := rfl

theorem mGet_cons {α : Type} (p : NodeId × α) (l : List (NodeId × α)) (k : NodeId) :
    mGet (p :: l) k = if p.1 = k then some p.2 else mGet l k := by
  by_cases h : p.1 = k
  · rw [if_pos h]
    unfold mGet
    rw [List.find?_cons_of_pos _ (by simpa using h)]
    rfl
  · rw [if_neg h]
    unfold mGet
    rw [List.find?_cons_of_neg _ (by simpa using h)]

theorem mHas_cons {α : Type} (p : NodeId × α) (l : List (NodeId × α)) (k : NodeId) :
    mHas (p :: l) k = (decide (p.1 = k) || mHas l k) := by
  unfold mHas
  rw [mGet_cons]
  by_cases h : p.1 = k
  · simp [h]
  · simp [h]

theorem mGet_append {α : Type} (l1 l2 : List (NodeId × α)) (k : NodeId) :
    mGet (l1 ++ l2) k = if mHas l1 k then mGet l1 k else mGet l2 k := by
  induction l1 with
  | nil => simp [mHas, mGet_nil]
  | cons p t ih =>
      rw [List.cons_append, mGet_cons, mGet_cons, mHas_cons]
      by_cases h : p.1 = k
      · simp [h]
      · simp only [h, if_false, decide_eq_true_eq, false_or, ih]
        simp [h]

theorem mHas_append {α : Type} (l1 l2 : List (NodeId × α)) (k : NodeId) :
    mHas (l1 ++ l2) k = (mHas l1 k || mHas l2 k) := by
  unfold mHas
  rw [mGet_append]
  by_cases h : mHas l1 k
  · unfold mHas at h
    simp [mHas, h]
  · unfold mHas at h
    simp [mHas, h]

theorem mGet_eq_none_of_not_has {α : Type} {l : List (NodeId × α)} {k : NodeId}
    (h : ¬ mHas l k = true) : mGet l k = none := by
  unfold mHas at h
  cases hg : mGet l k with
  | none => rfl
  | some v => rw [hg] at h; simp at h

theorem mHas_of_mGet_some {α : Type} {l : List (NodeId × α)} {k : NodeId} {v : α}
    (h : mGet l k = some v) : mHas l k = true := by
  unfold mHas
  rw [h]
  rfl

theorem mGet_mem_exists {α : Type} {l : List (NodeId × α)} {k : NodeId} {v : α}
    (h : mGet l k = some v) : ∃ p ∈ l, p.1 = k ∧ p.2 = v := by
  unfold mGet at h
  cases hf : l.find? (fun p => p.1 == k) with
  | none => rw [hf] at h; simp at h
  | some p =>
      rw [hf] at h
      refine ⟨p, List.mem_of_find?_eq_some hf, ?_, by simpa using h⟩
      have := List.find?_some hf
      simpa using this

theorem mGet_const_map {α : Type} (t : List NodeId) (v : α) (k : NodeId) :
    mGet (t.map (fun x => (x, v))) k = if k ∈ t then some v else none := by
  induction t with
  | nil => simp [mGet_nil]
  | cons x xs ih =>
      rw [List.map_cons, mGet_cons]
      by_cases h : x = k
      · simp [h]
      · have hk : (k ∈ x :: xs) ↔ (k ∈ xs) := by
          constructor
          · intro hm
            rcases List.mem_cons.1 hm with hm | hm
            · exact absurd hm.symm h
            · exact hm
          · exact List.mem_cons_of_mem x
        rw [if_neg h, ih]
        by_cases h3 : k ∈ xs
        · rw [if_pos h3, if_pos (hk.2 h3)]
        · rw [if_neg h3, if_neg (fun hm => h3 (hk.1 hm))]

theorem mGet_mSet_self {α : Type} (l : List (NodeId × α)) (k : NodeId) (v : α) :
    mGet (mSet l k v) k = some v := by
  unfold mSet
  by_cases h : mHas l k
  · rw [if_pos h]
    induction l with
    | nil => simp [mHas, mGet_nil] at h
    | cons p t ih =>
        rw [mHas_cons] at h
        rw [List.map_cons]
        by_cases hp : p.1 = k
        · rw [if_pos (by simpa using hp), mGet_cons]
          simp
        · rw [if_neg (by simpa using hp), mGet_cons, if_neg hp]
          apply ih
          simpa [hp] using h
  · rw [if_neg h, mGet_append, if_neg h, mGet_cons]
    simp

theorem mGet_mSet_ne {α : Type} (l : List (NodeId × α)) (k k' : NodeId) (v : α)
    (hne : k' ≠ k) : mGet (mSet l k v) k' = mGet l k' := by
  unfold mSet
  by_cases h : mHas l k
  · rw [if_pos h]
    clear h
    induction l with
    | nil => rfl
    | cons p t ih =>
        rw [List.map_cons]
        by_cases hp : p.1 = k
        · rw [if_pos (by simpa using hp), mGet_cons, mGet_cons, hp]
          rw [if_neg (fun hh => hne hh.symm), if_neg (fun hh => hne hh.symm)]
          exact ih
        · rw [if_neg (by simpa using hp), mGet_cons, mGet_cons]
          by_cases hpk : p.1 = k'
          · rw [if_pos hpk, if_pos hpk]
          · rw [if_neg hpk, if_neg hpk]
            exact ih
  · rw [if_neg h, mGet_append]
    by_cases h2 : mHas l k'
    · rw [if_pos h2]
    · rw [if_neg h2, mGet_cons, if_neg (fun hh => hne hh.symm), mGet_nil]
      exact (mGet_eq_none_of_not_has h2).symm

theorem mGet_mDel_self {α : Type} (l : List (NodeId × α)) (k : NodeId) :
    mGet (mDel l k) k = none := by
  unfold mDel
  induction l with
  | nil => rfl
  | cons p t ih =>
      rw [List.filter_cons]
      by_cases hp : p.1 = k
      · rw [if_neg (by simp [hp])]
        exact ih
      · rw [if_pos (by simpa using hp), mGet_cons, if_neg hp]
        exact ih

theorem mGet_mDel_ne {α : Type} (l : List (NodeId × α)) (k k' : NodeId)
    (hne : k' ≠ k) : mGet (mDel l k) k' = mGet l k' := by
  unfold mDel
  induction l with
  | nil => rfl
  | cons p t ih =>
      rw [List.filter_cons]
      by_cases hp : p.1 = k
      · rw [if_neg (by simp [hp]), mGet_cons, if_neg (by rw [hp]; exact fun hh => hne hh.symm)]
        exact ih
      · rw [if_pos (by simpa using hp), mGet_cons, mGet_cons]
        by_cases hpk : p.1 = k'
        · rw [if_pos hpk, if_pos hpk]
        · rw [if_neg hpk, if_neg hpk]
          exact ih

/-! ### BFS correctness development (C2) -/

/-- The adjacency row the BFS reads for a node id (empty when the id is
unknown, matching the `continue` of the source). -/
def adjConns (adjL : AdjList) (k : NodeId) : List NodeId := (mGet adjL k).getD []

/-- Every id occurring in some adjacency row. -/
def adjTargets (adjL : AdjList) : List NodeId := (adjL.map (fun p => p.2)).flatten

/-- A node is fully processed by the BFS: every neighbor already carries a
distance at most one larger. -/
def BfsClosed (adjL : AdjList) (dist : List (NodeId × Nat)) (k : NodeId) (d : Nat) : Prop :=
  ∀ nb ∈ adjConns adjL k, ∃ d', mGet dist nb = some d' ∧ d' ≤ d + 1

theorem bfsStep_fold_shape (d : Nat) :
    ∀ (conns : List NodeId) (dq : List (NodeId × Nat) × List NodeId),
      ∃ t : List NodeId,
        (conns.foldl (bfsStep d) dq).1 = dq.1 ++ t.map (fun k => (k, d + 1)) ∧
        (conns.foldl (bfsStep d) dq).2 = dq.2 ++ t ∧
        t.Nodup ∧
        (∀ k ∈ t, k ∈ conns ∧ ¬ mHas dq.1 k = true) ∧
        (∀ nb ∈ conns, mHas dq.1 nb = true ∨ nb ∈ t) := by
  intro conns
  induction conns with
  | nil =>
      intro dq
      exact ⟨[], by simp, by simp, List.nodup_nil, by simp, by simp⟩
  | cons nb cs ih =>
      intro dq
      rw [List.foldl_cons]
      by_cases h : mHas dq.1 nb = true
      · have hstep : bfsStep d dq nb = dq := by
          unfold bfsStep
          rw [if_pos h]
        rw [hstep]
        obtain ⟨t, h1, h2, h3, h4, h5⟩ := ih dq
        refine ⟨t, h1, h2, h3, ?_, ?_⟩
        · exact fun k hk => ⟨List.mem_cons_of_mem _ (h4 k hk).1, (h4 k hk).2⟩
        · intro p hp
          rcases List.mem_cons.1 hp with hp | hp
          · subst hp
            exact Or.inl h
          · exact h5 p hp
      · have hstep : bfsStep d dq nb = (dq.1 ++ [(nb, d + 1)], dq.2 ++ [nb]) := by
          unfold bfsStep
          rw [if_neg h]
        rw [hstep]
        obtain ⟨t, h1, h2, h3, h4, h5⟩ := ih (dq.1 ++ [(nb, d + 1)], dq.2 ++ [nb])
        have hnbt : nb ∉ t := by
          intro hmem
          have := (h4 nb hmem).2
          apply this
          rw [mHas_append]
          simp [mHas_cons]
        refine ⟨nb :: t, ?_, ?_, List.nodup_cons.2 ⟨hnbt, h3⟩, ?_, ?_⟩
        · rw [h1]
          simp
        · rw [h2]
          simp
        · intro k hk
          rcases List.mem_cons.1 hk with hk | hk
          · subst hk
            exact ⟨List.mem_cons_self _ _, h⟩
          · obtain ⟨hk1, hk2⟩ := h4 k hk
            refine ⟨List.mem_cons_of_mem _ hk1, ?_⟩
            intro hhas
            apply hk2
            rw [mHas_append, hhas]
            rfl
        · intro p hp
          rcases List.mem_cons.1 hp with hp | hp
          · subst hp
            exact Or.inr (List.mem_cons_self _ _)
          · rcases h5 p hp with hh | hh
            · rw [mHas_append] at hh
              rcases Bool.or_eq_true_iff.1 hh with hh | hh
              · exact Or.inl hh
              · rw [mHas_cons] at hh
                simp only [mHas, mGet_nil] at hh
                have hpnb : nb = p := by
                  rcases Bool.or_eq_true_iff.1 hh with hh2 | hh2
                  · exact of_decide_eq_true hh2
                  · simp [Option.isSome] at hh2
                exact Or.inr (by rw [← hpnb]; exact List.mem_cons_self _ _)
            · exact Or.inr (List.mem_cons_of_mem _ hh)

theorem bfsRound_shape (adjL : AdjList) (c : NodeId) (dist : List (NodeId × Nat)) (d : Nat)
    (hc : mGet dist c = some d) :
    ∃ t : List NodeId,
      (bfsRound adjL c dist).1 = dist ++ t.map (fun k => (k, d + 1)) ∧
      (bfsRound adjL c dist).2 = t ∧
      t.Nodup ∧
      (∀ k ∈ t, k ∈ adjConns adjL c ∧ ¬ mHas dist k = true) ∧
      (∀ nb ∈ adjConns adjL c, mHas dist nb = true ∨ nb ∈ t) := by
  unfold bfsRound
  cases ha : mGet adjL c with
  | none =>
      refine ⟨[], by simp, by simp, List.nodup_nil, by simp, ?_⟩
      intro nb hnb
      rw [adjConns, ha] at hnb
      simp at hnb
  | some conns =>
      rw [hc]
      have hshape := bfsStep_fold_shape d conns (dist, [])
      obtain ⟨t, h1, h2, h3, h4, h5⟩ := hshape
      have hconns : adjConns adjL c = conns := by rw [adjConns, ha]; rfl
      rw [hconns]
      exact ⟨t, h1, by simpa using h2, h3, h4, h5⟩

/-- The distance values of the queued ids, in queue order. -/
def QVals (dist : List (NodeId × Nat)) (queue : List NodeId) : List Nat :=
  queue.filterMap (fun k => mGet dist k)

/-- The BFS loop invariant: distance keys are distinct and known ids, queued
ids carry distances, every entry has a BFS parent, and every entry is queued
or fully processed. -/
structure BfsInv (adjL : AdjList) (start : NodeId) (queue : List NodeId)
    (dist : List (NodeId × Nat)) : Prop where
  keysNodup : (mKeys dist).Nodup
  keysAllowed : ∀ k ∈ mKeys dist, k = start ∨ k ∈ adjTargets adjL
  queueHas : ∀ k ∈ queue, mHas dist k = true
  parentProp : ∀ k d, mGet dist k = some d →
    (k = start ∧ d = 0) ∨ ∃ c dc, mGet dist c = some dc ∧ d = dc + 1 ∧ k ∈ adjConns adjL c
  pendingProp : ∀ k d, mGet dist k = some d → k ∈ queue ∨ BfsClosed adjL dist k d

/-- The monotone-queue invariant of BFS: queued distances are `h` then `h+1`,
and every assigned distance is at most `h+1`. -/
def QForm (dist : List (NodeId × Nat)) (queue : List NodeId) : Prop :=
  queue = [] ∨ ∃ h a b, QVals dist queue = List.replicate a h ++ List.replicate b (h + 1) ∧
    ∀ k v, mGet dist k = some v → v ≤ h + 1

/-- What the BFS guarantees about its result, relative to the initial distance
map: it extends it, every entry has a parent entry one closer, and every entry
is fully processed. -/
def BfsFinal (adjL : AdjList) (start : NodeId) (dist0 final : List (NodeId × Nat)) : Prop :=
  (∀ k v, mGet dist0 k = some v → mGet final k = some v) ∧
  (∀ k d, mGet final k = some d →
    (k = start ∧ d = 0) ∨ ∃ c dc, mGet final c = some dc ∧ d = dc + 1 ∧ k ∈ adjConns adjL c) ∧
  (∀ k d, mGet final k = some d → BfsClosed adjL final k d)

theorem QVals_append (dist : List (NodeId × Nat)) (q1 q2 : List NodeId) :
    QVals dist (q1 ++ q2) = QVals dist q1 ++ QVals dist q2 := by
  simp [QVals, List.filterMap_append]

theorem QVals_congr (dist1 dist2 : List (NodeId × Nat)) (q : List NodeId)
    (h : ∀ k ∈ q, mGet dist2 k = mGet dist1 k) : QVals dist2 q = QVals dist1 q := by
  induction q with
  | nil => rfl
  | cons k rest ih =>
      unfold QVals
      rw [List.filterMap_cons, List.filterMap_cons, h k (List.mem_cons_self _ _)]
      have ih2 := ih (fun x hx => h x (List.mem_cons_of_mem _ hx))
      unfold QVals at ih2
      rw [ih2]

theorem QVals_const (dist : List (NodeId × Nat)) (t : List NodeId) (v : Nat)
    (h : ∀ k ∈ t, mGet dist k = some v) : QVals dist t = List.replicate t.length v := by
  induction t with
  | nil => rfl
  | cons k rest ih =>
      unfold QVals
      rw [List.filterMap_cons, h k (List.mem_cons_self _ _)]
      have ih2 := ih (fun x hx => h x (List.mem_cons_of_mem _ hx))
      unfold QVals at ih2
      rw [ih2]
      rfl

theorem replicate_head_cases {d h a b : Nat} {rest : List Nat}
    (heq : d :: rest = List.replicate a h ++ List.replicate b (h + 1)) :
    (∃ a', a = a' + 1 ∧ d = h ∧ rest = List.replicate a' h ++ List.replicate b (h + 1)) ∨
    (∃ b', a = 0 ∧ b = b' + 1 ∧ d = h + 1 ∧ rest = List.replicate b' (h + 1)) := by
  cases a with
  | zero =>
      cases b with
      | zero => simp at heq
      | succ b' =>
          rw [List.replicate_succ] at heq
          simp only [List.replicate_zero, List.nil_append, List.cons.injEq] at heq
          exact Or.inr ⟨b', rfl, rfl, heq.1, heq.2⟩
  | succ a' =>
      rw [List.replicate_succ, List.cons_append] at heq
      simp only [List.cons.injEq] at heq
      exact Or.inl ⟨a', rfl, heq.1, heq.2⟩

theorem nodup_length_le {l1 l2 : List NodeId} (h1 : l1.Nodup) (hsub : ∀ x ∈ l1, x ∈ l2) :
    l1.length ≤ l2.length := by
  calc l1.length = l1.toFinset.card := (List.toFinset_card_of_nodup h1).symm
    _ ≤ l2.toFinset.card := Finset.card_le_card (fun x hx => by
        rw [List.mem_toFinset] at hx ⊢
        exact hsub x hx)
    _ ≤ l2.length := l2.toFinset_card_le

theorem adjConns_subset_targets (adjL : AdjList) (k : NodeId) :
    ∀ x ∈ adjConns adjL k, x ∈ adjTargets adjL := by
  intro x hx
  unfold adjConns at hx
  cases hg : mGet adjL k with
  | none => rw [hg] at hx; simp at hx
  | some conns =>
      rw [hg] at hx
      simp only [Option.getD_some] at hx
      obtain ⟨p, hp, _, hp2⟩ := mGet_mem_exists hg
      unfold adjTargets
      rw [List.mem_flatten]
      exact ⟨p.2, List.mem_map_of_mem _ hp, by rw [hp2]; exact hx⟩

theorem mKeys_append {α : Type} (l1 l2 : List (NodeId × α)) :
    mKeys (l1 ++ l2) = mKeys l1 ++ mKeys l2 := by
  simp [mKeys]

theorem mKeys_const_map (t : List NodeId) (v : Nat) :
    mKeys (t.map (fun k => (k, v))) = t := by
  unfold mKeys
  rw [List.map_map]
  exact List.map_id _

theorem bfsVisit_spec (adjL : AdjList) (start : NodeId) :
    ∀ (fuel : Nat) (queue : List NodeId) (dist : List (NodeId × Nat)),
      BfsInv adjL start queue dist →
      QForm dist queue →
      queue.length + (1 + (adjTargets adjL).length - dist.length) + 1 ≤ fuel →
      BfsFinal adjL start dist (bfsVisit adjL fuel queue dist) := by
  intro fuel
  induction fuel with
  | zero =>
      intro queue dist _ _ hf
      omega
  | succ n ih =>
      intro queue dist hInv hQ hf
      cases queue with
      | nil =>
          refine ⟨fun k v h => h, hInv.parentProp, ?_⟩
          intro k d hk
          rcases hInv.pendingProp k d hk with h | h
          · simp at h
          · exact h
      | cons c rest =>
          have hcHas := hInv.queueHas c (List.mem_cons_self _ _)
          obtain ⟨d, hd⟩ : ∃ d, mGet dist c = some d := by
            unfold mHas at hcHas
            cases hg : mGet dist c with
            | none => rw [hg] at hcHas; simp at hcHas
            | some d0 => exact ⟨d0, rfl⟩
          obtain ⟨t, ht1, ht2, ht3, ht4, ht5⟩ := bfsRound_shape adjL c dist d hd
          have hstep : bfsVisit adjL (n + 1) (c :: rest) dist
              = bfsVisit adjL n (rest ++ (bfsRound adjL c dist).2) (bfsRound adjL c dist).1 := rfl
          rw [hstep, ht1, ht2]
          set newDist := dist ++ t.map (fun k => (k, d + 1)) with hnewDist
          set newQueue := rest ++ t with hnewQueue
          -- basic transfer facts
          have hex : ∀ k v, mGet dist k = some v → mGet newDist k = some v := by
            intro k v hk
            rw [hnewDist, mGet_append, if_pos (mHas_of_mGet_some hk)]
            exact hk
          have hchar : ∀ k v, mGet newDist k = some v →
              mGet dist k = some v ∨ (¬ mHas dist k = true ∧ k ∈ t ∧ v = d + 1) := by
            intro k v hk
            rw [hnewDist, mGet_append] at hk
            by_cases h : mHas dist k = true
            · rw [if_pos h] at hk
              exact Or.inl hk
            · rw [if_neg h, mGet_const_map] at hk
              by_cases h2 : k ∈ t
              · rw [if_pos h2] at hk
                exact Or.inr ⟨h, h2, by injection hk.symm⟩
              · rw [if_neg h2] at hk
                simp at hk
          have hfresh : ∀ k ∈ t, mGet newDist k = some (d + 1) := by
            intro k hk
            rw [hnewDist, mGet_append, if_neg (ht4 k hk).2, mGet_const_map, if_pos hk]
          have hpres : ∀ k, mHas dist k = true → mGet newDist k = mGet dist k := by
            intro k hk
            rw [hnewDist, mGet_append, if_pos hk]
          have hkeys : mKeys newDist = mKeys dist ++ t := by
            rw [hnewDist, mKeys_append, mKeys_const_map]
          -- the closure of the processed node c
          have hcbound : ∀ k v, mGet dist k = some v → v ≤ d + 1 := by
            rcases hQ with hq | ⟨h, a, b, heq, hbound⟩
            · simp at hq
            · have hqv : QVals dist (c :: rest) = d :: QVals dist rest := by
                unfold QVals
                rw [List.filterMap_cons, hd]
              rw [hqv] at heq
              rcases replicate_head_cases heq with ⟨a', _, hdh, _⟩ | ⟨b', _, _, hdh, _⟩
              · intro k v hk
                have := hbound k v hk
                omega
              · intro k v hk
                have := hbound k v hk
                omega
          have hclosedc : BfsClosed adjL newDist c d := by
            intro nb hnb
            rcases ht5 nb hnb with h | h
            · obtain ⟨v, hv⟩ : ∃ v, mGet dist nb = some v := by
                unfold mHas at h
                cases hg : mGet dist nb with
                | none => rw [hg] at h; simp at h
                | some v0 => exact ⟨v0, rfl⟩
              exact ⟨v, hex nb v hv, hcbound nb v hv⟩
            · exact ⟨d + 1, hfresh nb h, le_refl _⟩
          -- the invariant for the next iteration
          have hInv2 : BfsInv adjL start newQueue newDist := by
            refine ⟨?_, ?_, ?_, ?_, ?_⟩
            · rw [hkeys]
              rw [List.nodup_append]
              refine ⟨hInv.keysNodup, ht3, ?_⟩
              intro x hx hx2
              have := (ht4 x hx2).2
              apply this
              rw [mHas_iff_mem_keys]
              exact hx
            · intro k hk
              rw [hkeys] at hk
              rcases List.mem_append.1 hk with hk | hk
              · exact hInv.keysAllowed k hk
              · exact Or.inr (adjConns_subset_targets adjL c k (ht4 k hk).1)
            · intro k hk
              rcases List.mem_append.1 hk with hk | hk
              · have h2 := hInv.queueHas k (List.mem_cons_of_mem _ hk)
                have h3 := hpres k h2
                unfold mHas at h2 ⊢
                rw [h3]
                exact h2
              · exact mHas_of_mGet_some (hfresh k hk)
            · intro k v hk
              rcases hchar k v hk with hk2 | ⟨_, hkt, hv⟩
              · rcases hInv.parentProp k v hk2 with h | ⟨c', dc, h1, h2, h3⟩
                · exact Or.inl h
                · exact Or.inr ⟨c', dc, hex c' dc h1, h2, h3⟩
              · exact Or.inr ⟨c, d, hex c d hd, hv, (ht4 k hkt).1⟩
            · intro k v hk
              rcases hchar k v hk with hk2 | ⟨_, hkt, _⟩
              · rcases hInv.pendingProp k v hk2 with hq2 | hq2
                · rcases List.mem_cons.1 hq2 with hq3 | hq3
                  · subst hq3
                    have hvd : v = d := by
                      rw [hd] at hk2
                      injection hk2.symm
                    subst hvd
                    exact Or.inr hclosedc
                  · exact Or.inl (List.mem_append.2 (Or.inl hq3))
                · refine Or.inr ?_
                  intro nb hnb
                  obtain ⟨d', hd'1, hd'2⟩ := hq2 nb hnb
                  exact ⟨d', hex nb d' hd'1, hd'2⟩
              · exact Or.inl (List.mem_append.2 (Or.inr hkt))
          -- the monotone-queue invariant for the next iteration
          have hQ2 : QForm newDist newQueue := by
            rcases hQ with hq | ⟨h, a, b, heq, hbound⟩
            · simp at hq
            · by_cases hempty : newQueue = []
              · exact Or.inl hempty
              · refine Or.inr ?_
                have hqv : QVals dist (c :: rest) = d :: QVals dist rest := by
                  unfold QVals
                  rw [List.filterMap_cons, hd]
                rw [hqv] at heq
                have hrest : QVals newDist rest = QVals dist rest :=
                  QVals_congr dist newDist rest
                    (fun x hx => hpres x (hInv.queueHas x (List.mem_cons_of_mem _ hx)))
                have htv : QVals newDist t = List.replicate t.length (d + 1) :=
                  QVals_const newDist t (d + 1) hfresh
                have hsplit : QVals newDist newQueue
                    = QVals dist rest ++ List.replicate t.length (d + 1) := by
                  rw [hnewQueue, QVals_append, hrest, htv]
                rcases replicate_head_cases heq with ⟨a', ha', hdh, hrest2⟩ |
                  ⟨b', _, hb', hdh, hrest2⟩
                · refine ⟨h, a', b + t.length, ?_, ?_⟩
                  · rw [hsplit, hrest2, hdh, List.append_assoc, ← List.replicate_add]
                  · intro k v hk
                    rcases hchar k v hk with hk2 | ⟨_, _, hv⟩
                    · exact hbound k v hk2
                    · omega
                · refine ⟨h + 1, b', t.length, ?_, ?_⟩
                  · rw [hsplit, hrest2, hdh]
                  · intro k v hk
                    rcases hchar k v hk with hk2 | ⟨_, _, hv⟩
                    · have := hbound k v hk2
                      omega
                    · omega
          -- fuel accounting
          have hlen : newDist.length ≤ 1 + (adjTargets adjL).length := by
            have h1 : newDist.length = (mKeys newDist).length := by
              unfold mKeys
              rw [List.length_map]
            rw [h1]
            have h2 : ∀ x ∈ mKeys newDist, x ∈ start :: adjTargets adjL := by
              intro x hx
              rcases hInv2.keysAllowed x hx with h | h
              · rw [h]; exact List.mem_cons_self _ _
              · exact List.mem_cons_of_mem _ h
            have h3 := nodup_length_le hInv2.keysNodup h2
            simp only [List.length_cons] at h3
            omega
          have hlen2 : newDist.length = dist.length + t.length := by
            rw [hnewDist, List.length_append, List.length_map]
          have hf2 : newQueue.length + (1 + (adjTargets adjL).length - newDist.length) + 1 ≤ n := by
            have hql : newQueue.length = rest.length + t.length := by
              rw [hnewQueue, List.length_append]
            simp only [List.length_cons] at hf
            omega
          -- apply the induction hypothesis and compose
          obtain ⟨g1, g2, g3⟩ := ih newQueue newDist hInv2 hQ2 hf2
          exact ⟨fun k v hk => g1 k v (hex k v hk), g2, g3⟩

/-- bfsDistances satisfies the BFS specification: it contains the start at
distance 0, every entry has a parent one closer, and it is closed under the
adjacency (every neighbor of an assigned node is assigned a distance at most
one larger). -/
theorem bfsDistances_spec (adjL : AdjList) (start : NodeId) :
    mGet (bfsDistances adjL start) start = some 0 ∧
    (∀ k d, mGet (bfsDistances adjL start) k = some d →
      (k = start ∧ d = 0) ∨ ∃ c dc, mGet (bfsDistances adjL start) c = some dc ∧
        d = dc + 1 ∧ k ∈ adjConns adjL c) ∧
    (∀ k d, mGet (bfsDistances adjL start) k = some d →
      BfsClosed adjL (bfsDistances adjL start) k d) := by
  have hInv : BfsInv adjL start [start] [(start, 0)] := by
    refine ⟨?_, ?_, ?_, ?_, ?_⟩
    · simp [mKeys]
    · intro k hk
      simp [mKeys] at hk
      exact Or.inl hk
    · intro k hk
      simp at hk
      subst hk
      simp [mHas, mGet_cons]
    · intro k d hk
      rw [mGet_cons] at hk
      by_cases h : start = k
      · rw [if_pos h] at hk
        exact Or.inl ⟨h.symm, by injection hk.symm⟩
      · rw [if_neg h, mGet_nil] at hk
        simp at hk
    · intro k d hk
      rw [mGet_cons] at hk
      by_cases h : start = k
      · rw [if_pos h] at hk
        exact Or.inl (by simp [h])
      · rw [if_neg h, mGet_nil] at hk
        simp at hk
  have hQ : QForm [(start, 0)] [start] := by
    refine Or.inr ⟨0, 1, 0, ?_, ?_⟩
    · unfold QVals
      rw [List.filterMap_cons]
      simp [mGet_cons]
    · intro k v hk
      rw [mGet_cons] at hk
      by_cases h : start = k
      · rw [if_pos h] at hk
        have : v = 0 := by injection hk.symm
        omega
      · rw [if_neg h, mGet_nil] at hk
        simp at hk
  have hfuel : [start].length + (1 + (adjTargets adjL).length - [(start, 0)].length) + 1
      ≤ bfsFuel adjL := by
    have hlen : (adjTargets adjL).length = (adjL.map (fun p => p.2.length)).sum := by
      unfold adjTargets
      rw [List.length_flatten, List.map_map]
      rfl
    unfold bfsFuel
    simp only [List.length_cons, List.length_nil]
    omega
  obtain ⟨g1, g2, g3⟩ := bfsVisit_spec adjL start (bfsFuel adjL) [start] [(start, 0)] hInv hQ hfuel
  refine ⟨?_, g2, g3⟩
  apply g1
  rw [mGet_cons]
  simp

theorem nextHops_fold_sound (dist : List (NodeId × Nat)) (hop : Nat) :
    ∀ (l : List NodeId) (acc : List (NodeId × Nat)) (p : NodeId) (v : Nat),
      mGet (l.foldl (nextHopStep dist hop) acc) p = some v →
      mGet acc p = some v ∨
        (p ∈ l ∧ ∃ dp, mGet dist p = some dp ∧ dp < hop ∧ v = dp + 1) := by
  intro l
  induction l with
  | nil =>
      intro acc p v h
      exact Or.inl h
  | cons nb cs ih =>
      intro acc p v h
      rw [List.foldl_cons] at h
      have hstep : ∀ (res : List (NodeId × Nat)),
          nextHopStep dist hop acc nb = res →
          mGet (cs.foldl (nextHopStep dist hop) res) p = some v →
          mGet acc p = some v ∨
            (p ∈ nb :: cs ∧ ∃ dp, mGet dist p = some dp ∧ dp < hop ∧ v = dp + 1) := by
        intro res hres h2
        rcases ih res p v h2 with h3 | ⟨h3, h4⟩
        · unfold nextHopStep at hres
          cases hnb : mGet dist nb with
          | none =>
              rw [hnb] at hres
              dsimp only at hres
              rw [← hres] at h3
              exact Or.inl h3
          | some dnb =>
              rw [hnb] at hres
              dsimp only at hres
              by_cases hlt : dnb < hop
              · rw [if_pos hlt] at hres
                rw [← hres] at h3
                by_cases hp : p = nb
                · subst hp
                  rw [mGet_mSet_self] at h3
                  refine Or.inr ⟨List.mem_cons_self _ _, dnb, hnb, hlt, ?_⟩
                  injection h3.symm
                · rw [mGet_mSet_ne _ _ _ _ hp] at h3
                  exact Or.inl h3
              · rw [if_neg hlt] at hres
                rw [← hres] at h3
                exact Or.inl h3
        · exact Or.inr ⟨List.mem_cons_of_mem _ h3, h4⟩
      exact hstep _ rfl h

theorem nextHops_fold_pres (dist : List (NodeId × Nat)) (hop : Nat) :
    ∀ (l : List NodeId) (acc : List (NodeId × Nat)) (p : NodeId) (dp : Nat),
      mGet dist p = some dp → dp < hop → mGet acc p = some (dp + 1) →
      mGet (l.foldl (nextHopStep dist hop) acc) p = some (dp + 1) := by
  intro l
  induction l with
  | nil =>
      intro acc p dp _ _ hacc
      exact hacc
  | cons nb cs ih =>
      intro acc p dp hdp hlt hacc
      rw [List.foldl_cons]
      refine ih _ p dp hdp hlt ?_
      unfold nextHopStep
      by_cases hp : p = nb
      · subst hp
        rw [hdp]
        dsimp only
        rw [if_pos hlt, mGet_mSet_self]
      · cases hnb : mGet dist nb with
        | none => exact hacc
        | some dnb =>
            dsimp only
            by_cases hlt2 : dnb < hop
            · rw [if_pos hlt2, mGet_mSet_ne _ _ _ _ hp]
              exact hacc
            · rw [if_neg hlt2]
              exact hacc

theorem nextHopsFor_sound (dist : List (NodeId × Nat)) (node : SimNode) (hop : Nat)
    (p : NodeId) (v : Nat) (h : mGet (nextHopsFor dist node hop) p = some v) :
    p ∈ node.connections ∧ ∃ dp, mGet dist p = some dp ∧ dp < hop ∧ v = dp + 1 := by
  rcases nextHops_fold_sound dist hop node.connections [] p v h with h2 | h2
  · rw [mGet_nil] at h2
    cases h2
  · exact h2

theorem nextHopsFor_complete (dist : List (NodeId × Nat)) (node : SimNode) (hop : Nat)
    (p : NodeId) (dp : Nat) (hmem : p ∈ node.connections)
    (hdp : mGet dist p = some dp) (hlt : dp < hop) :
    mGet (nextHopsFor dist node hop) p = some (dp + 1) := by
  unfold nextHopsFor
  obtain ⟨pre, post, hsplit⟩ := List.append_of_mem hmem
  rw [hsplit, List.foldl_append, List.foldl_cons]
  refine nextHops_fold_pres dist hop post _ p dp hdp hlt ?_
  unfold nextHopStep
  rw [hdp]
  dsimp only
  rw [if_pos hlt, mGet_mSet_self]

/-- Node ids are pairwise distinct. -/
def NodupIds (nds : List SimNode) : Prop := (nds.map (fun n => n.id)).Nodup

/-- The connection relation is symmetric across the node list. -/
def SymmConn (nds : List SimNode) : Prop :=
  ∀ a ∈ nds, ∀ b ∈ nds, a.id ∈ b.connections → b.id ∈ a.connections

/-- Every connection names an existing node. -/
def ClosedConn (nds : List SimNode) : Prop :=
  ∀ a ∈ nds, ∀ c ∈ a.connections, ∃ b ∈ nds, b.id = c

theorem nodupIds_inj {nds : List SimNode} (h : NodupIds nds) :
    ∀ a ∈ nds, ∀ b ∈ nds, a.id = b.id → a = b := by
  induction nds with
  | nil =>
      intro a ha
      cases ha
  | cons n t ih =>
      unfold NodupIds at h
      rw [List.map_cons, List.nodup_cons] at h
      intro a ha b hb heq
      rcases List.mem_cons.1 ha with rfl | ha2
      · rcases List.mem_cons.1 hb with rfl | hb2
        · rfl
        · exact absurd (heq ▸ List.mem_map_of_mem (fun n => n.id) hb2) h.1
      · rcases List.mem_cons.1 hb with rfl | hb2
        · exact absurd (heq ▸ List.mem_map_of_mem (fun n => n.id) ha2) h.1
        · exact ih h.2 a ha2 b hb2 heq

theorem mGet_projAdj {nds : List SimNode} (hnodup : NodupIds nds)
    {n : SimNode} (hn : n ∈ nds) : mGet (projAdj nds) n.id = some n.connections := by
  induction nds with
  | nil => cases hn
  | cons a t ih =>
      unfold NodupIds at hnodup
      rw [List.map_cons, List.nodup_cons] at hnodup
      unfold projAdj
      rw [List.map_cons, mGet_cons]
      rcases List.mem_cons.1 hn with rfl | hn2
      · rw [if_pos rfl]
      · by_cases h : a.id = n.id
        · exact absurd (h ▸ List.mem_map_of_mem (fun x => x.id) hn2) hnodup.1
        · rw [if_neg h]
          exact ih hnodup.2 hn2

theorem mGet_projAdj_inv {nds : List SimNode} {c : NodeId} {v : List NodeId}
    (h : mGet (projAdj nds) c = some v) : ∃ b ∈ nds, b.id = c ∧ v = b.connections := by
  obtain ⟨p, hp, hp1, hp2⟩ := mGet_mem_exists h
  unfold projAdj at hp
  obtain ⟨b, hb, hbeq⟩ := List.mem_map.1 hp
  refine ⟨b, hb, ?_, ?_⟩
  · rw [← hp1, ← hbeq]
  · rw [← hp2, ← hbeq]

theorem adjConns_projAdj {nds : List SimNode} (hnodup : NodupIds nds)
    {n : SimNode} (hn : n ∈ nds) : adjConns (projAdj nds) n.id = n.connections := by
  unfold adjConns
  rw [mGet_projAdj hnodup hn]
  rfl

theorem bfs_dist_zero {adjL : AdjList} {start k : NodeId} {d : Nat}
    (h : mGet (bfsDistances adjL start) k = some d) (hd : d = 0) : k = start := by
  rcases (bfsDistances_spec adjL start).2.1 k d h with h2 | ⟨c, dc, _, h2, _⟩
  · exact h2.1
  · omega

theorem bfs_lipschitz {nds : List SimNode} (hnodup : NodupIds nds) (hsymm : SymmConn nds)
    (hclosed : ClosedConn nds) (start : NodeId) {N : SimNode} (hN : N ∈ nds)
    {p : NodeId} (hp : p ∈ N.connections) {d dp : Nat}
    (hd : mGet (bfsDistances (projAdj nds) start) N.id = some d)
    (hdp : mGet (bfsDistances (projAdj nds) start) p = some dp)
    (hlt : dp < d) : dp + 1 = d := by
  obtain ⟨b, hb, hbid⟩ := hclosed N hN p hp
  have hbconn : N.id ∈ b.connections := hsymm b hb N hN (by rw [hbid]; exact hp)
  have hclosedp := (bfsDistances_spec (projAdj nds) start).2.2 p dp hdp
  have hadj : adjConns (projAdj nds) p = b.connections := by
    rw [← hbid]
    exact adjConns_projAdj hnodup hb
  obtain ⟨d', hd'1, hd'2⟩ := hclosedp N.id (by rw [hadj]; exact hbconn)
  have : d' = d := by
    rw [hd] at hd'1
    injection hd'1.symm
  omega

theorem bfs_parent_conn {nds : List SimNode} (hsymm : SymmConn nds)
    (start : NodeId) {N : SimNode} (hN : N ∈ nds) (hne : N.id ≠ start) {d : Nat}
    (hd : mGet (bfsDistances (projAdj nds) start) N.id = some d) :
    ∃ c dc, c ∈ N.connections ∧ mGet (bfsDistances (projAdj nds) start) c = some dc ∧
      d = dc + 1 := by
  rcases (bfsDistances_spec (projAdj nds) start).2.1 N.id d hd with h | ⟨c, dc, hc1, hc2, hc3⟩
  · exact absurd h.1 hne
  · have hne2 : adjConns (projAdj nds) c ≠ [] := by
      intro hempty
      rw [hempty] at hc3
      cases hc3
    obtain ⟨conns, hconns⟩ : ∃ conns, mGet (projAdj nds) c = some conns := by
      unfold adjConns at hc3 hne2
      cases hg : mGet (projAdj nds) c with
      | none => rw [hg] at hc3; cases hc3
      | some v => exact ⟨v, rfl⟩
    obtain ⟨b, hb, hbid, hbconns⟩ := mGet_projAdj_inv hconns
    have hNb : N.id ∈ b.connections := by
      rw [← hbconns]
      unfold adjConns at hc3
      rw [hconns] at hc3
      exact hc3
    have : b.id ∈ N.connections := hsymm N hN b hb hNb
    exact ⟨c, dc, by rw [← hbid]; exact this, hc1, hc2⟩

/-- The updated node keeps its identity, type and neighbor set. -/
def RelCore (n n' : SimNode) : Prop :=
  n'.id = n.id ∧ n'.type = n.type ∧ n'.connections = n.connections

/-- The updated node additionally keeps its routing and inactive entries for
the distinguished sink `S`. -/
def RelKeep (S : NodeId) (n n' : SimNode) : Prop :=
  RelCore n n' ∧ mGet n'.routingTable S = mGet n.routingTable S ∧
    mGet n'.inactiveRoutingTables S = mGet n.inactiveRoutingTables S

/-- The updated node keeps everything except its triage bookkeeping and
routing state (what the sink-sync phase may touch). -/
def RelFull (n n' : SimNode) : Prop :=
  n'.id = n.id ∧ n'.type = n.type ∧ n'.connections = n.connections ∧
    n'.routingTable = n.routingTable ∧ n'.inactiveRoutingTables = n.inactiveRoutingTables

theorem relCore_refl (n : SimNode) : RelCore n n := ⟨rfl, rfl, rfl⟩

theorem relCore_trans {a b c : SimNode} (h1 : RelCore a b) (h2 : RelCore b c) : RelCore a c :=
  ⟨h2.1.trans h1.1, h2.2.1.trans h1.2.1, h2.2.2.trans h1.2.2⟩

theorem relKeep_refl (S : NodeId) (n : SimNode) : RelKeep S n n := ⟨relCore_refl n, rfl, rfl⟩

theorem relKeep_trans {S : NodeId} {a b c : SimNode} (h1 : RelKeep S a b) (h2 : RelKeep S b c) :
    RelKeep S a c :=
  ⟨relCore_trans h1.1 h2.1, h2.2.1.trans h1.2.1, h2.2.2.trans h1.2.2⟩

theorem relFull_keep {S : NodeId} {a b : SimNode} (h : RelFull a b) : RelKeep S a b :=
  ⟨⟨h.1, h.2.1, h.2.2.1⟩, by rw [h.2.2.2.1], by rw [h.2.2.2.2]⟩

theorem forall₂_trans_rel (R : SimNode → SimNode → Prop)
    (htrans : ∀ a b c, R a b → R b c → R a c) :
    ∀ {l1 l2 l3 : List SimNode}, List.Forall₂ R l1 l2 → List.Forall₂ R l2 l3 →
      List.Forall₂ R l1 l3 := by
  intro l1 l2 l3 h12
  induction h12 generalizing l3 with
  | nil =>
      intro h23
      cases h23
      exact List.Forall₂.nil
  | cons hab h12' ih =>
      intro h23
      cases h23 with
      | cons hbc h23' => exact List.Forall₂.cons (htrans _ _ _ hab hbc) (ih h23')

theorem forall₂_map_self {R : SimNode → SimNode → Prop} (f : SimNode → SimNode)
    (h : ∀ n, R n (f n)) : ∀ (l : List SimNode), List.Forall₂ R l (l.map f) := by
  intro l
  induction l with
  | nil => exact List.Forall₂.nil
  | cons a t ih => exact List.Forall₂.cons (h a) ih

theorem forall₂_mem_rel {R : SimNode → SimNode → Prop} :
    ∀ {l1 l2 : List SimNode}, List.Forall₂ R l1 l2 → ∀ a ∈ l1, ∃ b ∈ l2, R a b := by
  intro l1 l2 h
  induction h with
  | nil =>
      intro a ha
      cases ha
  | cons hab h' ih =>
      intro a ha
      rcases List.mem_cons.1 ha with rfl | ha2
      · exact ⟨_, List.mem_cons_self _ _, hab⟩
      · obtain ⟨b, hb, hr⟩ := ih a ha2
        exact ⟨b, List.mem_cons_of_mem _ hb, hr⟩

theorem forall₂_core_projAdj :
    ∀ {l1 l2 : List SimNode}, List.Forall₂ RelCore l1 l2 → projAdj l2 = projAdj l1 := by
  intro l1 l2 h
  induction h with
  | nil => rfl
  | cons hab h' ih =>
      unfold projAdj at ih ⊢
      rw [List.map_cons, List.map_cons, ih, hab.1, hab.2.2]

theorem forall₂_core_ids :
    ∀ {l1 l2 : List SimNode}, List.Forall₂ RelCore l1 l2 →
      l2.map (fun n => n.id) = l1.map (fun n => n.id) := by
  intro l1 l2 h
  induction h with
  | nil => rfl
  | cons hab h' ih =>
      rw [List.map_cons, List.map_cons, ih, hab.1]

theorem find_of_mem_nodup {l : List SimNode} (hnodup : (l.map (fun n => n.id)).Nodup)
    {n : SimNode} (hn : n ∈ l) : l.find? (fun x => x.id == n.id) = some n := by
  induction l with
  | nil => cases hn
  | cons a t ih =>
      rw [List.map_cons, List.nodup_cons] at hnodup
      rcases List.mem_cons.1 hn with rfl | hn2
      · rw [List.find?_cons_of_pos _ (by simp)]
      · by_cases h : a.id = n.id
        · exact absurd (h ▸ List.mem_map_of_mem (fun x => x.id) hn2) hnodup.1
        · rw [List.find?_cons_of_neg _ (by simpa using h)]
          exact ih hnodup.2 hn2

theorem findNode_of_mem_nodup {m : ModelState} (hnodup : NodupIds m.nodes) {n : SimNode}
    (hn : n ∈ m.nodes) : findNode m n.id = some n :=
  find_of_mem_nodup hnodup hn

theorem nodup_split_not_mem {l pre post : List NodeId} {x : NodeId} (hnd : l.Nodup)
    (hsplit : l = pre ++ x :: post) : x ∉ pre ∧ x ∉ post := by
  subst hsplit
  rw [List.nodup_append] at hnd
  obtain ⟨_, h2, h3⟩ := hnd
  refine ⟨?_, (List.nodup_cons.1 h2).1⟩
  intro hx
  exact h3 hx (List.mem_cons_self _ _)

theorem processSinkNode_core (dist : List (NodeId × Nat)) (sinkId : NodeId) (now : Int)
    (node : SimNode) : RelCore node (processSinkNode dist sinkId now node) := by
  unfold processSinkNode
  by_cases h1 : node.id = sinkId
  · rw [if_pos h1]
    exact relCore_refl node
  · rw [if_neg h1]
    cases mGet dist node.id with
    | none =>
        cases mGet node.routingTable sinkId with
        | none => exact relCore_refl node
        | some entry => exact ⟨rfl, rfl, rfl⟩
    | some hopCount =>
        dsimp only
        by_cases h2 : (nextHopsFor dist node hopCount).length > 0
        · rw [if_pos h2]
          exact ⟨rfl, rfl, rfl⟩
        · rw [if_neg h2]
          cases mGet node.routingTable sinkId with
          | none => exact ⟨rfl, rfl, rfl⟩
          | some entry => exact ⟨rfl, rfl, rfl⟩

theorem processSinkNode_preserve (dist : List (NodeId × Nat)) (sinkId : NodeId) (now : Int)
    (node : SimNode) (S : NodeId) (hS : S ≠ sinkId) :
    RelKeep S node (processSinkNode dist sinkId now node) := by
  refine ⟨processSinkNode_core dist sinkId now node, ?_⟩
  unfold processSinkNode
  by_cases h1 : node.id = sinkId
  · rw [if_pos h1]
    exact ⟨rfl, rfl⟩
  · rw [if_neg h1]
    cases mGet dist node.id with
    | none =>
        cases mGet node.routingTable sinkId with
        | none => exact ⟨rfl, rfl⟩
        | some entry =>
            unfold demoteEntry
            dsimp only
            exact ⟨mGet_mDel_ne _ _ _ hS, mGet_mSet_ne _ _ _ _ hS⟩
    | some hopCount =>
        dsimp only
        by_cases h2 : (nextHopsFor dist node hopCount).length > 0
        · rw [if_pos h2]
          dsimp only
          refine ⟨mGet_mSet_ne _ _ _ _ hS, ?_⟩
          by_cases h3 : mHas node.inactiveRoutingTables sinkId
          · rw [if_pos h3]
            exact mGet_mDel_ne _ _ _ hS
          · rw [if_neg h3]
        · rw [if_neg h2]
          cases mGet node.routingTable sinkId with
          | none =>
              dsimp only
              exact ⟨mGet_mDel_ne _ _ _ hS, rfl⟩
          | some entry =>
              dsimp only
              exact ⟨mGet_mDel_ne _ _ _ hS, mGet_mSet_ne _ _ _ _ hS⟩

theorem processSinkNode_set (dist : List (NodeId × Nat)) (sinkId : NodeId) (now : Int)
    (node : SimNode) (d : Nat) (hid : node.id ≠ sinkId)
    (hd : mGet dist node.id = some d)
    (hne : nextHopsFor dist node d ≠ []) :
    mGet (processSinkNode dist sinkId now node).routingTable sinkId
      = some ⟨nextHopsFor dist node d, now⟩ ∧
    mGet (processSinkNode dist sinkId now node).inactiveRoutingTables sinkId = none := by
  unfold processSinkNode
  rw [if_neg hid, hd]
  dsimp only
  have hlen : (nextHopsFor dist node d).length > 0 := by
    cases hh : nextHopsFor dist node d with
    | nil => exact absurd hh hne
    | cons a t => simp [hh]
  rw [if_pos hlen]
  dsimp only
  refine ⟨mGet_mSet_self _ _ _, ?_⟩
  by_cases h3 : mHas node.inactiveRoutingTables sinkId
  · rw [if_pos h3]
    exact mGet_mDel_self _ _
  · rw [if_neg h3]
    exact mGet_eq_none_of_not_has h3

theorem nextHopsFor_congr (dist : List (NodeId × Nat)) {n n' : SimNode} (hop : Nat)
    (h : n'.connections = n.connections) :
    nextHopsFor dist n' hop = nextHopsFor dist n hop := by
  unfold nextHopsFor
  rw [h]

theorem demotePass_core (sinkIds : List NodeId) (now : Int) (node : SimNode) :
    RelCore node (demotePass sinkIds now node) := by
  unfold demotePass
  generalize (mKeys node.routingTable).filter (fun sid => !(sinkIds.contains sid)) = l
  induction l generalizing node with
  | nil => exact relCore_refl node
  | cons sid rest ih =>
      rw [List.foldl_cons]
      refine relCore_trans ?_ (ih _)
      cases mGet node.routingTable sid with
      | none => exact relCore_refl node
      | some entry => exact ⟨rfl, rfl, rfl⟩

theorem cleanupInactive_core (timeout now : Int) (node : SimNode) :
    RelCore node (cleanupInactive timeout now node) := ⟨rfl, rfl, rfl⟩

theorem classifyNode_keep (S : NodeId) (node : SimNode) (now : Int) :
    RelKeep S node (classifyNode node now) := ⟨⟨rfl, rfl, rfl⟩, rfl, rfl⟩

theorem relFull_refl (n : SimNode) : RelFull n n := ⟨rfl, rfl, rfl, rfl, rfl⟩

theorem relFull_trans {a b c : SimNode} (h1 : RelFull a b) (h2 : RelFull b c) : RelFull a c :=
  ⟨h2.1.trans h1.1, h2.2.1.trans h1.2.1, h2.2.2.1.trans h1.2.2.1,
    h2.2.2.2.1.trans h1.2.2.2.1, h2.2.2.2.2.trans h1.2.2.2.2⟩

theorem forall₂_rel_refl {R : SimNode → SimNode → Prop} (h : ∀ n, R n n) :
    ∀ (l : List SimNode), List.Forall₂ R l l := by
  intro l
  induction l with
  | nil => exact List.Forall₂.nil
  | cons a t ih => exact List.Forall₂.cons (h a) ih

theorem forall₂_map_self_mem {R : SimNode → SimNode → Prop} (f : SimNode → SimNode) :
    ∀ (l : List SimNode), (∀ n ∈ l, R n (f n)) → List.Forall₂ R l (l.map f) := by
  intro l
  induction l with
  | nil =>
      intro _
      exact List.Forall₂.nil
  | cons a t ih =>
      intro h
      exact List.Forall₂.cons (h a (List.mem_cons_self _ _))
        (ih (fun n hn => h n (List.mem_cons_of_mem _ hn)))

theorem forall₂_full_ids {l1 l2 : List SimNode} (h : List.Forall₂ RelFull l1 l2) :
    l2.map (fun n => n.id) = l1.map (fun n => n.id) :=
  forall₂_core_ids (h.imp (fun _ _ hr => ⟨hr.1, hr.2.1, hr.2.2.1⟩))

theorem nodupIds_of_forall₂_full {l1 l2 : List SimNode} (h : List.Forall₂ RelFull l1 l2)
    (hnd : NodupIds l1) : NodupIds l2 := by
  unfold NodupIds at hnd ⊢
  rw [forall₂_full_ids h]
  exact hnd

theorem setNodeById_relFull (m1 : ModelState) (base : List SimNode) (sink nr : SimNode)
    (hnodes : m1.nodes = base) (hnodup : NodupIds base) (hmem : sink ∈ base)
    (hid : nr.id = sink.id) (hrel : RelFull sink nr) :
    List.Forall₂ RelFull base (setNodeById m1 nr).nodes := by
  unfold setNodeById
  dsimp only
  rw [hnodes]
  refine forall₂_map_self_mem _ base ?_
  intro n hn
  by_cases h : n.id == nr.id
  · rw [if_pos h]
    have hneq : n = sink := nodupIds_inj hnodup n hn sink hmem (by rw [← hid]; exact eq_of_beq h)
    rw [hneq]
    exact hrel
  · rw [if_neg h]
    exact relFull_refl n

theorem foldl_nodes_const {α : Type} (f : ModelState → α → ModelState)
    (h : ∀ st a, (f st a).nodes = st.nodes) :
    ∀ (l : List α) (m : ModelState), (l.foldl f m).nodes = m.nodes := by
  intro l
  induction l with
  | nil => intro m; rfl
  | cons a t ih =>
      intro m
      rw [List.foldl_cons, ih, h]

theorem syncSinkTriage_relFull (st : ModelState) (sinkId newSinkId : NodeId)
    (nextHops : List (NodeId × Nat)) (tid : TriageId) (now : Int)
    (hnodup : NodupIds st.nodes) :
    List.Forall₂ RelFull st.nodes (syncSinkTriage st sinkId newSinkId nextHops tid now).nodes := by
  unfold syncSinkTriage
  cases findNode st newSinkId with
  | none => exact forall₂_rel_refl relFull_refl st.nodes
  | some newSink =>
      dsimp only
      by_cases h1 : newSink.triageStore.contains tid
      · rw [if_pos h1]
        exact forall₂_rel_refl relFull_refl st.nodes
      · rw [if_neg h1]
        cases hf2 : findNode st sinkId with
        | none => exact forall₂_rel_refl relFull_refl st.nodes
        | some sink =>
            dsimp only
            by_cases h2 : (match mGet sink.sentTriagesToSinks tid with
              | some per => per.contains newSinkId
              | none => false) = true
            · rw [if_pos h2]
              exact forall₂_rel_refl relFull_refl st.nodes
            · rw [if_neg h2]
              have hmem : sink ∈ st.nodes := List.mem_of_find?_eq_some hf2
              exact setNodeById_relFull _ st.nodes sink _
                (by
                  exact foldl_nodes_const (fun st2 hop =>
                    { st2 with
                      messages := st2.messages ++
                        [mkMessage st2.nextId sinkId hop.1 now .triage (some tid) (some .red)]
                      nextId := st2.nextId + 1 }) (fun _ _ => rfl) nextHops st)
                hnodup hmem rfl ⟨rfl, rfl, rfl, rfl, rfl⟩

theorem syncFold_relFull {α : Type} (f : ModelState → α → ModelState)
    (hstep : ∀ st a, NodupIds st.nodes → List.Forall₂ RelFull st.nodes (f st a).nodes) :
    ∀ (l : List α) (st : ModelState), NodupIds st.nodes →
      List.Forall₂ RelFull st.nodes (l.foldl f st).nodes := by
  intro l
  induction l with
  | nil =>
      intro st _
      exact forall₂_rel_refl relFull_refl st.nodes
  | cons a t ih =>
      intro st h
      rw [List.foldl_cons]
      have h1 := hstep st a h
      exact forall₂_trans_rel RelFull (fun _ _ _ hab hbc => relFull_trans hab hbc) h1
        (ih (f st a) (nodupIds_of_forall₂_full h1 h))

theorem syncOneSink_relFull (st : ModelState) (sinkId newSinkId : NodeId) (now : Int)
    (hnodup : NodupIds st.nodes) :
    List.Forall₂ RelFull st.nodes (syncOneSink st sinkId newSinkId now).nodes := by
  unfold syncOneSink
  cases findNode st sinkId with
  | none => exact forall₂_rel_refl relFull_refl st.nodes
  | some sink =>
      dsimp only
      cases mGet sink.routingTable newSinkId with
      | none => exact forall₂_rel_refl relFull_refl st.nodes
      | some routeEntry =>
          dsimp only
          by_cases h1 : routeEntry.nextHops = []
          · rw [if_pos h1]
            exact forall₂_rel_refl relFull_refl st.nodes
          · rw [if_neg h1]
            exact syncFold_relFull _
              (fun st2 tid hnd => syncSinkTriage_relFull st2 sinkId newSinkId
                routeEntry.nextHops tid now hnd)
              sink.triageStore st hnodup

theorem syncNewSink_relFull (st : ModelState) (newSinkId : NodeId) (now : Int)
    (hnodup : NodupIds st.nodes) :
    List.Forall₂ RelFull st.nodes (syncNewSinkFromExistingSinks st newSinkId now).nodes := by
  unfold syncNewSinkFromExistingSinks
  cases findNode st newSinkId with
  | none => exact forall₂_rel_refl relFull_refl st.nodes
  | some newSink =>
      dsimp only
      by_cases h1 : newSink.type ≠ .sink
      · rw [if_pos h1]
        exact forall₂_rel_refl relFull_refl st.nodes
      · rw [if_neg h1]
        by_cases h2 : ((st.nodes.filter
            (fun n => decide (n.type = .sink) && (n.id != newSinkId))).map (fun n => n.id)) = []
        · rw [if_pos h2]
          exact forall₂_rel_refl relFull_refl st.nodes
        · rw [if_neg h2]
          exact syncFold_relFull _
            (fun st2 sid hnd => syncOneSink_relFull st2 sid newSinkId now hnd)
            _ st hnodup

theorem syncPhase_relFull (now : Int) (sids : List NodeId) (st : ModelState)
    (hnodup : NodupIds st.nodes) :
    List.Forall₂ RelFull st.nodes
      ((sids.foldl
        (fun st2 potentialNewSinkId =>
          let someOtherHasRoute := st2.nodes.any (fun other =>
            decide (other.type = .sink) && (other.id != potentialNewSinkId) &&
              mHas other.routingTable potentialNewSinkId)
          if someOtherHasRoute then syncNewSinkFromExistingSinks st2 potentialNewSinkId now
          else st2) st).nodes) := by
  refine syncFold_relFull _ ?_ sids st hnodup
  intro st2 sid hnd
  dsimp only
  by_cases h : st2.nodes.any (fun other =>
      decide (other.type = .sink) && (other.id != sid) && mHas other.routingTable sid) = true
  · rw [if_pos h]
    exact syncNewSink_relFull st2 sid now hnd
  · rw [if_neg h]
    exact forall₂_rel_refl relFull_refl st2.nodes

theorem processSink_core (now : Int) (nds : List SimNode) (sinkId : NodeId) :
    List.Forall₂ RelCore nds (processSink now nds sinkId) := by
  unfold processSink
  exact forall₂_map_self _ (fun n => processSinkNode_core _ sinkId now n) nds

theorem processSink_fold_core (now : Int) :
    ∀ (sids : List NodeId) (nds : List SimNode),
      List.Forall₂ RelCore nds (sids.foldl (processSink now) nds) := by
  intro sids
  induction sids with
  | nil =>
      intro nds
      exact forall₂_rel_refl relCore_refl nds
  | cons sid rest ih =>
      intro nds
      rw [List.foldl_cons]
      exact forall₂_trans_rel RelCore (fun _ _ _ hab hbc => relCore_trans hab hbc) (processSink_core now nds sid)
        (ih (processSink now nds sid))

theorem processSink_keep (now : Int) (nds : List SimNode) (sinkId S : NodeId) (hS : S ≠ sinkId) :
    List.Forall₂ (RelKeep S) nds (processSink now nds sinkId) := by
  unfold processSink
  exact forall₂_map_self _ (fun n => processSinkNode_preserve _ sinkId now n S hS) nds

theorem processSink_fold_keep (now : Int) (S : NodeId) :
    ∀ (sids : List NodeId) (nds : List SimNode), S ∉ sids →
      List.Forall₂ (RelKeep S) nds (sids.foldl (processSink now) nds) := by
  intro sids
  induction sids with
  | nil =>
      intro nds _
      exact forall₂_rel_refl (relKeep_refl S) nds
  | cons sid rest ih =>
      intro nds hS
      rw [List.foldl_cons]
      have h1 : S ≠ sid := fun h => hS (h ▸ List.mem_cons_self _ _)
      have h2 : S ∉ rest := fun h => hS (List.mem_cons_of_mem _ h)
      exact forall₂_trans_rel (RelKeep S) (fun _ _ _ hab hbc => relKeep_trans hab hbc) (processSink_keep now nds sid S h1)
        (ih (processSink now nds sid) h2)

theorem updateRoutingTables_entry (m : ModelState) (now : Int)
    (hnodup : NodupIds m.nodes) (hsymm : SymmConn m.nodes)
    {sink : SimNode} (hsink : sink ∈ m.nodes) (hstype : sink.type = .sink)
    {node : SimNode} (hnode : node ∈ m.nodes) (hntype : node.type ≠ .sink)
    {d : Nat} (hd : mGet (bfsDistances (projAdj m.nodes) sink.id) node.id = some d) :
    ∃ node', findNode (updateRoutingTables m now) node.id = some node' ∧
      node'.connections = node.connections ∧
      mGet node'.routingTable sink.id
        = some ⟨nextHopsFor (bfsDistances (projAdj m.nodes) sink.id) node d, now⟩ ∧
      mGet node'.inactiveRoutingTables sink.id = none := by
  set D := bfsDistances (projAdj m.nodes) sink.id with hDdef
  set sinkIds := (m.nodes.filter (fun n => decide (n.type = .sink))).map (fun n => n.id)
    with hsinkIds
  set nodes2 := (m.nodes.map (demotePass sinkIds now)).map
    (cleanupInactive m.inactiveRoutingTimeout now) with hnodes2
  set nodes3 := sinkIds.foldl (processSink now) nodes2 with hnodes3
  set m1 := updateRoutingStates { m with nodes := nodes3 } now with hm1
  have hru : updateRoutingTables m now
      = sinkIds.foldl
          (fun st potentialNewSinkId =>
            let someOtherHasRoute := st.nodes.any (fun other =>
              decide (other.type = .sink) && (other.id != potentialNewSinkId) &&
                mHas other.routingTable potentialNewSinkId)
            if someOtherHasRoute then syncNewSinkFromExistingSinks st potentialNewSinkId now
            else st) m1 := rfl
  -- basic facts about the sink-id list
  have hmemS : sink.id ∈ sinkIds := by
    rw [hsinkIds]
    exact List.mem_map_of_mem _ (List.mem_filter.2 ⟨hsink, by simp [hstype]⟩)
  have hndS : sinkIds.Nodup := by
    rw [hsinkIds]
    exact List.Nodup.sublist (List.Sublist.map _ (List.filter_sublist m.nodes)) hnodup
  obtain ⟨pre, post, hsplit⟩ := List.append_of_mem hmemS
  obtain ⟨hpreS, hpostS⟩ := nodup_split_not_mem hndS hsplit
  have hneId : node.id ≠ sink.id := by
    intro h
    exact hntype (by rw [nodupIds_inj hnodup node hnode sink hsink h]; exact hstype)
  -- upstream preservation to the middle of the per-sink fold
  have hA : List.Forall₂ RelCore m.nodes nodes2 := by
    rw [hnodes2]
    exact forall₂_trans_rel RelCore (fun _ _ _ hab hbc => relCore_trans hab hbc)
      (forall₂_map_self _ (demotePass_core sinkIds now) m.nodes)
      (forall₂_map_self _ (cleanupInactive_core m.inactiveRoutingTimeout now) _)
  set mid := pre.foldl (processSink now) nodes2 with hmid
  have hAB : List.Forall₂ RelCore m.nodes mid :=
    forall₂_trans_rel RelCore (fun _ _ _ hab hbc => relCore_trans hab hbc) hA
      (processSink_fold_core now pre nodes2)
  have hproj : projAdj mid = projAdj m.nodes := forall₂_core_projAdj hAB
  obtain ⟨nodeMid, hnodeMid, hrelMid⟩ := forall₂_mem_rel hAB node hnode
  -- the sink's own pass
  have hfold : nodes3 = post.foldl (processSink now) (processSink now mid sink.id) := by
    rw [hnodes3, hsplit, List.foldl_append, List.foldl_cons, hmid]
  have hDmid : bfsDistances (projAdj mid) sink.id = D := by
    rw [hproj, hDdef]
  have hnhne : nextHopsFor D node d ≠ [] := by
    obtain ⟨c, dc, hc1, hc2, hc3⟩ := bfs_parent_conn hsymm sink.id hnode hneId hd
    intro hempty
    have hcomp := nextHopsFor_complete D node d c dc hc1 hc2 (by omega)
    rw [hempty, mGet_nil] at hcomp
    cases hcomp
  have hsetRes := processSinkNode_set D sink.id now nodeMid d
    (by rw [hrelMid.1]; exact hneId)
    (by rw [hrelMid.1]; exact hd)
    (by rw [nextHopsFor_congr D d hrelMid.2.2]; exact hnhne)
  set nodeA := processSinkNode D sink.id now nodeMid with hnodeA
  have hnodeA_mem : nodeA ∈ processSink now mid sink.id := by
    unfold processSink
    dsimp only
    rw [hDmid]
    exact List.mem_map_of_mem _ hnodeMid
  have hrelA : RelCore nodeMid nodeA := processSinkNode_core D sink.id now nodeMid
  -- the rest of the per-sink fold
  have hC : List.Forall₂ (RelKeep sink.id) (processSink now mid sink.id) nodes3 := by
    rw [hfold]
    exact processSink_fold_keep now sink.id post _ hpostS
  obtain ⟨nodeB, hnodeB, hrelB⟩ := forall₂_mem_rel hC nodeA hnodeA_mem
  -- routing-state reclassification
  have hm1nodes : m1.nodes = nodes3.map (fun n => classifyNode n now) := rfl
  have hD1 : List.Forall₂ (RelKeep sink.id) nodes3 m1.nodes := by
    rw [hm1nodes]
    exact forall₂_map_self _ (fun n => classifyNode_keep sink.id n now) nodes3
  obtain ⟨nodeC, hnodeC, hrelC⟩ := forall₂_mem_rel hD1 nodeB hnodeB
  -- the sink-to-sink sync phase
  have hCoreToM1 : List.Forall₂ RelCore m.nodes m1.nodes := by
    refine forall₂_trans_rel RelCore (fun _ _ _ hab hbc => relCore_trans hab hbc) hAB ?_
    refine forall₂_trans_rel RelCore (fun _ _ _ hab hbc => relCore_trans hab hbc)
      (processSink_core now mid sink.id) ?_
    refine forall₂_trans_rel RelCore (fun _ _ _ hab hbc => relCore_trans hab hbc)
      (hC.imp (fun _ _ hr => hr.1)) (hD1.imp (fun _ _ hr => hr.1))
  have hnodup1 : NodupIds m1.nodes := by
    unfold NodupIds
    rw [forall₂_core_ids hCoreToM1]
    exact hnodup
  have hE := syncPhase_relFull now sinkIds m1 hnodup1
  obtain ⟨nodeF, hnodeF, hrelF⟩ := forall₂_mem_rel hE nodeC hnodeC
  -- assemble
  have hKAF : RelKeep sink.id nodeA nodeF :=
    relKeep_trans (relKeep_trans hrelB hrelC) (relFull_keep hrelF)
  have hidF : nodeF.id = node.id := by
    rw [hKAF.1.1, hrelA.1, hrelMid.1]
  have hconnF : nodeF.connections = node.connections := by
    rw [hKAF.1.2.2, hrelA.2.2, hrelMid.2.2]
  have hnodupF : NodupIds (updateRoutingTables m now).nodes := by
    unfold NodupIds
    rw [hru]
    rw [forall₂_core_ids (forall₂_trans_rel RelCore (fun _ _ _ hab hbc => relCore_trans hab hbc)
      hCoreToM1 (hE.imp (fun _ _ hr => ⟨hr.1, hr.2.1, hr.2.2.1⟩)))]
    exact hnodup
  have hmemF : nodeF ∈ (updateRoutingTables m now).nodes := by
    rw [hru]
    exact hnodeF
  refine ⟨nodeF, ?_, hconnF, ?_, ?_⟩
  · have := findNode_of_mem_nodup hnodupF hmemF
    rw [hidF] at this
    exact this
  · rw [hKAF.2.1, hsetRes.1, nextHopsFor_congr D d hrelMid.2.2]
  · rw [hKAF.2.2, hsetRes.2]

/-- C2: after a routing pass over a well-formed node list (distinct ids,
symmetric and closed connection sets), for every sink S and every non-sink
node N that the per-sink BFS from S reaches at hop count d, the updated node
has a routing-table entry for S with last_update equal to the pass timestamp
and no inactive entry for S; the entry's next-hop map is nonempty and binds
exactly the neighbors whose BFS distance is d − 1, each to total hop count
d = (d − 1) + 1; and the node's neighbor set is unchanged by the pass. -/
theorem c2_bfs_routing_tables (m : ModelState) (now : Int)
    (hnodup : NodupIds m.nodes) (hsymm : SymmConn m.nodes) (hclosed : ClosedConn m.nodes)
    (sink : SimNode) (hsink : sink ∈ m.nodes) (hstype : sink.type = .sink)
    (node : SimNode) (hnode : node ∈ m.nodes) (hntype : node.type ≠ .sink)
    (d : Nat) (hd : mGet (bfsDistances (projAdj m.nodes) sink.id) node.id = some d) :
    ∃ node' entry, findNode (updateRoutingTables m now) node.id = some node' ∧
      node'.connections = node.connections ∧
      mGet node'.routingTable sink.id = some entry ∧
      entry.lastUpdate = now ∧
      entry.nextHops ≠ [] ∧
      mGet node'.inactiveRoutingTables sink.id = none ∧
      (∀ p hc, mGet entry.nextHops p = some hc → p ∈ node.connections ∧ hc = d ∧
        mGet (bfsDistances (projAdj m.nodes) sink.id) p = some (d - 1) ∧ 1 ≤ d) ∧
      (∀ p dp, p ∈ node.connections →
        mGet (bfsDistances (projAdj m.nodes) sink.id) p = some dp → dp + 1 = d →
        mGet entry.nextHops p = some d) := by
  obtain ⟨node', hfind, hconn, hentry, hinact⟩ :=
    updateRoutingTables_entry m now hnodup hsymm hsink hstype hnode hntype hd
  have hneId : node.id ≠ sink.id := by
    intro h
    exact hntype (by rw [nodupIds_inj hnodup node hnode sink hsink h]; exact hstype)
  have hnhne : nextHopsFor (bfsDistances (projAdj m.nodes) sink.id) node d ≠ [] := by
    obtain ⟨c, dc, hc1, hc2, hc3⟩ := bfs_parent_conn hsymm sink.id hnode hneId hd
    intro hempty
    have hcomp := nextHopsFor_complete (bfsDistances (projAdj m.nodes) sink.id) node d c dc
      hc1 hc2 (by omega)
    rw [hempty, mGet_nil] at hcomp
    cases hcomp
  refine ⟨node', ⟨nextHopsFor (bfsDistances (projAdj m.nodes) sink.id) node d, now⟩,
    hfind, hconn, hentry, rfl, hnhne, hinact, ?_, ?_⟩
  · intro p hc hp
    obtain ⟨hpconn, dp, hdp, hlt, hhc⟩ := nextHopsFor_sound _ node d p hc hp
    have hlip := bfs_lipschitz hnodup hsymm hclosed sink.id hnode hpconn hd hdp hlt
    refine ⟨hpconn, by omega, ?_, by omega⟩
    have : dp = d - 1 := by omega
    rw [← this]
    exact hdp
  · intro p dp hpconn hdp hsum
    have := nextHopsFor_complete (bfsDistances (projAdj m.nodes) sink.id) node d p dp
      hpconn hdp (by omega)
    rw [this]
    rw [hsum]

/-- A two-node scenario for the routing-pass witness: node 0 is a source at
(0,0) and node 1 a sink at (1,0); they are linked by the connection recompute
inside addNode. -/
def c2WitModel : ModelState := addNode (addNode initialModel 0 0 .source 1000) 1 0 .sink 1000

/-- The source node of `c2WitModel`. -/
def c2WitNode : SimNode := c2WitModel.nodes.headI

/-- The sink node of `c2WitModel`. -/
def c2WitSink : SimNode := (c2WitModel.nodes.drop 1).headI

theorem c2_bfs_routing_tables_witness :
    (NodupIds c2WitModel.nodes ∧ SymmConn c2WitModel.nodes ∧ ClosedConn c2WitModel.nodes ∧
      c2WitSink ∈ c2WitModel.nodes ∧ c2WitSink.type = .sink ∧
      c2WitNode ∈ c2WitModel.nodes ∧ c2WitNode.type ≠ .sink ∧
      mGet (bfsDistances (projAdj c2WitModel.nodes) c2WitSink.id) c2WitNode.id = some 1) ∧
    (∃ node' entry, findNode (updateRoutingTables c2WitModel 2000) c2WitNode.id = some node' ∧
      node'.connections = c2WitNode.connections ∧
      mGet node'.routingTable c2WitSink.id = some entry ∧
      entry.lastUpdate = 2000 ∧
      entry.nextHops ≠ [] ∧
      mGet node'.inactiveRoutingTables c2WitSink.id = none ∧
      (∀ p hc, mGet entry.nextHops p = some hc → p ∈ c2WitNode.connections ∧ hc = 1 ∧
        mGet (bfsDistances (projAdj c2WitModel.nodes) c2WitSink.id) p = some (1 - 1) ∧
        1 ≤ 1) ∧
      (∀ p dp, p ∈ c2WitNode.connections →
        mGet (bfsDistances (projAdj c2WitModel.nodes) c2WitSink.id) p = some dp →
        dp + 1 = 1 → mGet entry.nextHops p = some 1)) :=
  ⟨⟨by unfold NodupIds; decide, by unfold SymmConn; decide, by unfold ClosedConn; decide,
    by decide, by decide, by decide, by decide, by decide⟩,
   c2_bfs_routing_tables c2WitModel 2000 (by unfold NodupIds; decide)
     (by unfold SymmConn; decide) (by unfold ClosedConn; decide) c2WitSink (by decide)
     (by decide) c2WitNode (by decide) (by decide) 1 (by decide)⟩

/-! ### The routing pass leaves only neighbor-sound next hops (C5 revision) -/

/-- Every next hop stored in a (non-self-keyed) routing-table entry of the
node is one of its current neighbors. -/
def NodeHops (n : SimNode) : Prop :=
  ∀ S entry, S ≠ n.id → mGet n.routingTable S = some entry →
    ∀ p hc, mGet entry.nextHops p = some hc → p ∈ n.connections

/-- Invariant of the per-sink BFS fold: sinks already processed hold fresh
neighbor-sound entries; keys not yet processed still hold their pre-fold
entries. -/
def InvP (processed : List NodeId) (norig n : SimNode) : Prop :=
  RelCore norig n ∧
  ∀ S entry, S ≠ n.id → mGet n.routingTable S = some entry →
    ((S ∈ processed → ∀ p hc, mGet entry.nextHops p = some hc → p ∈ n.connections) ∧
     (S ∉ processed → mGet norig.routingTable S = some entry))

theorem invP_nil_refl (n : SimNode) : InvP [] n n := by
  refine ⟨relCore_refl n, ?_⟩
  intro S entry _ hentry
  refine ⟨?_, fun _ => hentry⟩
  intro hmem
  cases hmem

theorem mGet_isSome_of_mem_keys {α : Type} {l : List (NodeId × α)} {k : NodeId}
    (h : k ∈ mKeys l) : ∃ v, mGet l k = some v := by
  have h2 := (mHas_iff_mem_keys l k).2 h
  unfold mHas at h2
  cases hg : mGet l k with
  | none => rw [hg] at h2; simp at h2
  | some v => exact ⟨v, rfl⟩

theorem forall₂_mem_rel_right {R : SimNode → SimNode → Prop} :
    ∀ {l1 l2 : List SimNode}, List.Forall₂ R l1 l2 → ∀ b ∈ l2, ∃ a ∈ l1, R a b := by
  intro l1 l2 h
  induction h with
  | nil =>
      intro b hb
      cases hb
  | cons hab h' ih =>
      intro b hb
      rcases List.mem_cons.1 hb with rfl | hb2
      · exact ⟨_, List.mem_cons_self _ _, hab⟩
      · obtain ⟨a, ha, hr⟩ := ih b hb2
        exact ⟨a, List.mem_cons_of_mem _ ha, hr⟩

theorem forall₂_map_right {R R2 : SimNode → SimNode → Prop} (f : SimNode → SimNode)
    (h : ∀ a b, R a b → R2 a (f b)) :
    ∀ {l l' : List SimNode}, List.Forall₂ R l l' → List.Forall₂ R2 l (l'.map f) := by
  intro l l' hrel
  induction hrel with
  | nil => exact List.Forall₂.nil
  | cons hab h' ih => exact List.Forall₂.cons (h _ _ hab) ih

theorem nodeHops_of_relFull {n n' : SimNode} (h : RelFull n n') (hn : NodeHops n) :
    NodeHops n' := by
  intro S entry hS hentry p hc hp
  rw [h.2.2.1]
  refine hn S entry ?_ ?_ p hc hp
  · rw [← h.1]
    exact hS
  · rw [← h.2.2.2.1]
    exact hentry

theorem demoteFold_none_pres (now : Int) (S : NodeId) :
    ∀ (l : List NodeId) (nd : SimNode),
      mGet nd.routingTable S = none →
      mGet ((l.foldl (fun nd2 sid =>
        match mGet nd2.routingTable sid with
        | some entry => demoteEntry nd2 sid entry now
        | none => nd2) nd)).routingTable S = none := by
  intro l
  induction l with
  | nil =>
      intro nd h
      exact h
  | cons k rest ih =>
      intro nd h
      rw [List.foldl_cons]
      refine ih _ ?_
      cases mGet nd.routingTable k with
      | none => exact h
      | some entry =>
          show mGet (mDel nd.routingTable k) S = none
          by_cases hk : S = k
          · subst hk
            exact mGet_mDel_self _ _
          · rw [mGet_mDel_ne _ _ _ hk]
            exact h

theorem demoteFold_deletes (now : Int) (S : NodeId) :
    ∀ (l : List NodeId) (nd : SimNode), S ∈ l →
      mGet ((l.foldl (fun nd2 sid =>
        match mGet nd2.routingTable sid with
        | some entry => demoteEntry nd2 sid entry now
        | none => nd2) nd)).routingTable S = none := by
  intro l
  induction l with
  | nil =>
      intro nd h
      cases h
  | cons k rest ih =>
      intro nd hmem
      rw [List.foldl_cons]
      by_cases hk : S = k
      · subst hk
        refine demoteFold_none_pres now S rest _ ?_
        cases hg : mGet nd.routingTable S with
        | none => exact hg
        | some entry =>
            show mGet (mDel nd.routingTable S) S = none
            exact mGet_mDel_self _ _
      · refine ih _ ?_
        rcases List.mem_cons.1 hmem with h | h
        · exact absurd h hk
        · exact h

theorem demotePass_unlisted (sinkIds : List NodeId) (now : Int) (node : SimNode) (S : NodeId)
    (hS : S ∉ sinkIds) : mGet (demotePass sinkIds now node).routingTable S = none := by
  unfold demotePass
  by_cases hhas : mHas node.routingTable S = true
  · refine demoteFold_deletes now S _ node ?_
    rw [List.mem_filter]
    refine ⟨(mHas_iff_mem_keys _ _).1 hhas, by simpa using hS⟩
  · exact demoteFold_none_pres now S _ node (mGet_eq_none_of_not_has hhas)

theorem processSinkNode_at_sid (dist : List (NodeId × Nat)) (sid : NodeId) (now : Int)
    (n : SimNode) (hnid : ¬ n.id = sid) :
    mGet (processSinkNode dist sid now n).routingTable sid = none ∨
    ∃ hop, mGet dist n.id = some hop ∧
      mGet (processSinkNode dist sid now n).routingTable sid
        = some ⟨nextHopsFor dist n hop, now⟩ := by
  unfold processSinkNode
  rw [if_neg hnid]
  cases hdist : mGet dist n.id with
  | none =>
      cases hrt : mGet n.routingTable sid with
      | none => exact Or.inl hrt
      | some e0 =>
          unfold demoteEntry
          dsimp only
          exact Or.inl (mGet_mDel_self _ _)
  | some hop =>
      dsimp only
      by_cases hlen : (nextHopsFor dist n hop).length > 0
      · rw [if_pos hlen]
        dsimp only
        exact Or.inr ⟨hop, rfl, mGet_mSet_self _ _ _⟩
      · rw [if_neg hlen]
        dsimp only
        exact Or.inl (mGet_mDel_self _ _)

theorem processSinkNode_inv (dist : List (NodeId × Nat)) (sid : NodeId) (now : Int)
    (processed : List NodeId) (norig n : SimNode) (h : InvP processed norig n) :
    InvP (processed ++ [sid]) norig (processSinkNode dist sid now n) := by
  obtain ⟨hcore, hrest⟩ := h
  have hcoreStep := processSinkNode_core dist sid now n
  refine ⟨relCore_trans hcore hcoreStep, ?_⟩
  intro S entry hSne hentry
  have hid : (processSinkNode dist sid now n).id = n.id := hcoreStep.1
  have hconn : (processSinkNode dist sid now n).connections = n.connections := hcoreStep.2.2
  have hSn : S ≠ n.id := by
    rw [← hid]
    exact hSne
  by_cases hSsid : S = sid
  · subst hSsid
    have hnid : ¬ n.id = S := fun hh => hSn hh.symm
    rcases processSinkNode_at_sid dist S now n hnid with hnone | ⟨hop, _, hfresh⟩
    · rw [hnone] at hentry
      cases hentry
    constructor
    · intro _ p hc hp
      rw [hfresh] at hentry
      have hent : entry = ⟨nextHopsFor dist n hop, now⟩ := by injection hentry.symm
      rw [hent] at hp
      rw [hconn]
      exact (nextHopsFor_sound dist n hop p hc hp).1
    · intro hnot
      exact absurd (List.mem_append.2 (Or.inr (List.mem_singleton.2 rfl))) hnot
  · have hpres := (processSinkNode_preserve dist sid now n S hSsid).2.1
    rw [hpres] at hentry
    obtain ⟨hin, hout⟩ := hrest S entry hSn hentry
    constructor
    · intro hmem p hc hp
      rcases List.mem_append.1 hmem with hmem | hmem
      · rw [hconn]
        exact hin hmem p hc hp
      · exact absurd (List.mem_singleton.1 hmem) hSsid
    · intro hnot
      exact hout (fun hmem => hnot (List.mem_append.2 (Or.inl hmem)))

theorem processSink_fold_inv (now : Int) :
    ∀ (sids processed : List NodeId) (base cur : List SimNode),
      List.Forall₂ (InvP processed) base cur →
      List.Forall₂ (InvP (processed ++ sids)) base (sids.foldl (processSink now) cur) := by
  intro sids
  induction sids with
  | nil =>
      intro processed base cur h
      simpa using h
  | cons sid rest ih =>
      intro processed base cur h
      rw [List.foldl_cons]
      have h1 : List.Forall₂ (InvP (processed ++ [sid])) base (processSink now cur sid) := by
        unfold processSink
        dsimp only
        exact forall₂_map_right _ (fun a b hab => processSinkNode_inv _ sid now processed a b hab) h
      have h2 := ih (processed ++ [sid]) base _ h1
      rw [List.append_assoc] at h2
      simpa using h2

theorem updateRoutingTables_hopsInConns (m : ModelState) (now : Int)
    (hnodup : NodupIds m.nodes) :
    ∀ n ∈ (updateRoutingTables m now).nodes, NodeHops n := by
  set sinkIds := (m.nodes.filter (fun n => decide (n.type = .sink))).map (fun n => n.id)
    with hsinkIds
  set nodes2 := (m.nodes.map (demotePass sinkIds now)).map
    (cleanupInactive m.inactiveRoutingTimeout now) with hnodes2
  set nodes3 := sinkIds.foldl (processSink now) nodes2 with hnodes3
  set m1 := updateRoutingStates { m with nodes := nodes3 } now with hm1
  have hru : updateRoutingTables m now
      = sinkIds.foldl
          (fun st potentialNewSinkId =>
            let someOtherHasRoute := st.nodes.any (fun other =>
              decide (other.type = .sink) && (other.id != potentialNewSinkId) &&
                mHas other.routingTable potentialNewSinkId)
            if someOtherHasRoute then syncNewSinkFromExistingSinks st potentialNewSinkId now
            else st) m1 := rfl
  -- unlisted keys are gone after the demote pass
  have hnodes2none : ∀ norig ∈ nodes2, ∀ S, S ∉ sinkIds →
      mGet norig.routingTable S = none := by
    intro norig hmem S hS
    rw [hnodes2] at hmem
    obtain ⟨n1, hn1, hform1⟩ := List.mem_map.1 hmem
    obtain ⟨n0, _, hform0⟩ := List.mem_map.1 hn1
    rw [← hform1]
    have hcl : (cleanupInactive m.inactiveRoutingTimeout now n1).routingTable
        = n1.routingTable := rfl
    rw [hcl, ← hform0]
    exact demotePass_unlisted sinkIds now n0 S hS
  -- the per-sink fold leaves only neighbor-sound entries
  have hinvfold : List.Forall₂ (InvP sinkIds) nodes2 nodes3 := by
    have h0 : List.Forall₂ (InvP []) nodes2 nodes2 := forall₂_rel_refl invP_nil_refl nodes2
    have h1 := processSink_fold_inv now sinkIds [] nodes2 nodes2 h0
    rw [hnodes3]
    simpa using h1
  have hnodes3hops : ∀ b ∈ nodes3, NodeHops b := by
    intro b hb
    obtain ⟨norig, hnorig, hinvp⟩ := forall₂_mem_rel_right hinvfold b hb
    intro S entry hSne hentry p hc hp
    obtain ⟨hin, hout⟩ := hinvp.2 S entry hSne hentry
    by_cases hS : S ∈ sinkIds
    · exact hin hS p hc hp
    · have h2 := hout hS
      rw [hnodes2none norig hnorig S hS] at h2
      cases h2
  -- reclassification preserves the property
  have hm1nodes : m1.nodes = nodes3.map (fun n => classifyNode n now) := rfl
  have hm1hops : ∀ b ∈ m1.nodes, NodeHops b := by
    intro b hb
    rw [hm1nodes] at hb
    obtain ⟨n3, hn3, hform⟩ := List.mem_map.1 hb
    rw [← hform]
    exact nodeHops_of_relFull ⟨rfl, rfl, rfl, rfl, rfl⟩ (hnodes3hops n3 hn3)
  -- id bookkeeping for the sync phase
  have hCoreToM1 : List.Forall₂ RelCore m.nodes m1.nodes := by
    have hA : List.Forall₂ RelCore m.nodes nodes2 := by
      rw [hnodes2]
      exact forall₂_trans_rel RelCore (fun _ _ _ hab hbc => relCore_trans hab hbc)
        (forall₂_map_self _ (demotePass_core sinkIds now) m.nodes)
        (forall₂_map_self _ (cleanupInactive_core m.inactiveRoutingTimeout now) _)
    have hB : List.Forall₂ RelCore nodes2 nodes3 := processSink_fold_core now sinkIds nodes2
    have hCm : List.Forall₂ RelCore nodes3 m1.nodes := by
      rw [hm1nodes]
      exact forall₂_map_self _ (fun n => (classifyNode_keep 0 n now).1) nodes3
    exact forall₂_trans_rel RelCore (fun _ _ _ hab hbc => relCore_trans hab hbc) hA
      (forall₂_trans_rel RelCore (fun _ _ _ hab hbc => relCore_trans hab hbc) hB hCm)
  have hnodup1 : NodupIds m1.nodes := by
    unfold NodupIds
    rw [forall₂_core_ids hCoreToM1]
    exact hnodup
  -- the sync phase keeps tables and connections
  have hE := syncPhase_relFull now sinkIds m1 hnodup1
  intro n hn
  rw [hru] at hn
  obtain ⟨b1, hb1, hrelb⟩ := forall₂_mem_rel_right hE n hn
  exact nodeHops_of_relFull hrelb (hm1hops b1 hb1)

theorem updateRoutingTables_nodupIds (m : ModelState) (now : Int)
    (hnodup : NodupIds m.nodes) : NodupIds (updateRoutingTables m now).nodes := by
  set sinkIds := (m.nodes.filter (fun n => decide (n.type = .sink))).map (fun n => n.id)
    with hsinkIds
  set nodes2 := (m.nodes.map (demotePass sinkIds now)).map
    (cleanupInactive m.inactiveRoutingTimeout now) with hnodes2
  set nodes3 := sinkIds.foldl (processSink now) nodes2 with hnodes3
  set m1 := updateRoutingStates { m with nodes := nodes3 } now with hm1
  have hru : updateRoutingTables m now
      = sinkIds.foldl
          (fun st potentialNewSinkId =>
            let someOtherHasRoute := st.nodes.any (fun other =>
              decide (other.type = .sink) && (other.id != potentialNewSinkId) &&
                mHas other.routingTable potentialNewSinkId)
            if someOtherHasRoute then syncNewSinkFromExistingSinks st potentialNewSinkId now
            else st) m1 := rfl
  have hm1nodes : m1.nodes = nodes3.map (fun n => classifyNode n now) := rfl
  have hCoreToM1 : List.Forall₂ RelCore m.nodes m1.nodes := by
    have hA : List.Forall₂ RelCore m.nodes nodes2 := by
      rw [hnodes2]
      exact forall₂_trans_rel RelCore (fun _ _ _ hab hbc => relCore_trans hab hbc)
        (forall₂_map_self _ (demotePass_core sinkIds now) m.nodes)
        (forall₂_map_self _ (cleanupInactive_core m.inactiveRoutingTimeout now) _)
    have hB : List.Forall₂ RelCore nodes2 nodes3 := processSink_fold_core now sinkIds nodes2
    have hCm : List.Forall₂ RelCore nodes3 m1.nodes := by
      rw [hm1nodes]
      exact forall₂_map_self _ (fun n => (classifyNode_keep 0 n now).1) nodes3
    exact forall₂_trans_rel RelCore (fun _ _ _ hab hbc => relCore_trans hab hbc) hA
      (forall₂_trans_rel RelCore (fun _ _ _ hab hbc => relCore_trans hab hbc) hB hCm)
  have hnodup1 : NodupIds m1.nodes := by
    unfold NodupIds
    rw [forall₂_core_ids hCoreToM1]
    exact hnodup
  have hE := syncPhase_relFull now sinkIds m1 hnodup1
  unfold NodupIds
  rw [hru, forall₂_full_ids hE]
  exact hnodup1

theorem syncSinkTriage_endpoints (st : ModelState) (sinkId newSinkId : NodeId)
    (nextHops : List (NodeId × Nat)) (tid : TriageId) (now : Int) :
    AppendsWith (fun x => x.fromNodeId = sinkId ∧ x.toNodeId ∈ mKeys nextHops)
      st (syncSinkTriage st sinkId newSinkId nextHops tid now) := by
  unfold syncSinkTriage
  cases findNode st newSinkId with
  | none => exact appendsWith_refl _ _
  | some newSink =>
      dsimp only
      by_cases h1 : newSink.triageStore.contains tid
      · rw [if_pos h1]
        exact appendsWith_refl _ _
      · rw [if_neg h1]
        cases findNode st sinkId with
        | none => exact appendsWith_refl _ _
        | some sink =>
            dsimp only
            by_cases h2 : (match mGet sink.sentTriagesToSinks tid with
              | some per => per.contains newSinkId
              | none => false) = true
            · rw [if_pos h2]
              exact appendsWith_refl _ _
            · rw [if_neg h2]
              refine appendsWith_trans
                (appendsWith_fold_mem _ _ nextHops ?_ st)
                (appendsWith_of_eq (setNodeById_messages _ _))
              intro st2 hop hmem
              refine ⟨[mkMessage st2.nextId sinkId hop.1 now .triage (some tid) (some .red)],
                rfl, ?_⟩
              intro x hx
              rw [List.mem_singleton] at hx
              subst hx
              exact ⟨rfl, List.mem_map_of_mem _ hmem⟩

theorem syncOneSink_endpoints (st : ModelState) (sinkId newSinkId : NodeId) (now : Int)
    (P : Message → Prop)
    (hP : ∀ sink routeEntry, findNode st sinkId = some sink →
      mGet sink.routingTable newSinkId = some routeEntry →
      ∀ x : Message, x.fromNodeId = sinkId → x.toNodeId ∈ mKeys routeEntry.nextHops → P x) :
    AppendsWith P st (syncOneSink st sinkId newSinkId now) := by
  unfold syncOneSink
  cases hf : findNode st sinkId with
  | none => exact appendsWith_refl _ _
  | some sink =>
      dsimp only
      cases hr : mGet sink.routingTable newSinkId with
      | none => exact appendsWith_refl _ _
      | some routeEntry =>
          dsimp only
          by_cases h1 : routeEntry.nextHops = []
          · rw [if_pos h1]
            exact appendsWith_refl _ _
          · rw [if_neg h1]
            refine appendsWith_fold P _ ?_ sink.triageStore st
            intro st2 tid
            exact appendsWith_mono (fun x hx => hP sink routeEntry hf hr x hx.1 hx.2)
              (syncSinkTriage_endpoints st2 sinkId newSinkId routeEntry.nextHops tid now)

theorem syncNewSink_endpoints (m : ModelState) (newSinkId : NodeId) (now : Int)
    (hnodup : NodupIds m.nodes) (hinv : ∀ n ∈ m.nodes, NodeHops n) :
    AppendsWith (fun x => ∃ s ∈ m.nodes, x.fromNodeId = s.id ∧ x.toNodeId ∈ s.connections)
      m (syncNewSinkFromExistingSinks m newSinkId now) := by
  unfold syncNewSinkFromExistingSinks
  cases findNode m newSinkId with
  | none => exact appendsWith_refl _ _
  | some newSink =>
      dsimp only
      by_cases h1 : newSink.type ≠ .sink
      · rw [if_pos h1]
        exact appendsWith_refl _ _
      · rw [if_neg h1]
        by_cases h2 : ((m.nodes.filter
            (fun n => decide (n.type = .sink) && (n.id != newSinkId))).map (fun n => n.id)) = []
        · rw [if_pos h2]
          exact appendsWith_refl _ _
        · rw [if_neg h2]
          refine appendsWith_trans ?_ (appendsWith_of_eq (notifyListeners_messages _))
          have hne : ∀ sid ∈ (m.nodes.filter
              (fun n => decide (n.type = .sink) && (n.id != newSinkId))).map (fun n => n.id),
              sid ≠ newSinkId := by
            intro sid hsid
            obtain ⟨n, hn, hneq⟩ := List.mem_map.1 hsid
            have hflt := (List.mem_filter.1 hn).2
            rw [Bool.and_eq_true] at hflt
            have hbne : (n.id != newSinkId) = true := hflt.2
            rw [bne_iff_ne] at hbne
            rw [← hneq]
            exact hbne
          have hfold : ∀ (sids : List NodeId), (∀ sid ∈ sids, sid ≠ newSinkId) →
              ∀ (st : ModelState), List.Forall₂ RelFull m.nodes st.nodes →
              NodupIds st.nodes →
              AppendsWith
                (fun x => ∃ s ∈ m.nodes, x.fromNodeId = s.id ∧ x.toNodeId ∈ s.connections)
                st (sids.foldl (fun st2 sid => syncOneSink st2 sid newSinkId now) st) := by
            intro sids
            induction sids with
            | nil =>
                intro _ st _ _
                exact appendsWith_refl _ _
            | cons sid rest ih =>
                intro hnes st hrel hnd
                rw [List.foldl_cons]
                have hstep : AppendsWith
                    (fun x => ∃ s ∈ m.nodes, x.fromNodeId = s.id ∧ x.toNodeId ∈ s.connections)
                    st (syncOneSink st sid newSinkId now) := by
                  refine syncOneSink_endpoints st sid newSinkId now _ ?_
                  intro sink routeEntry hfind hroute x hxfrom hxto
                  have hsinkmem : sink ∈ st.nodes := List.mem_of_find?_eq_some hfind
                  obtain ⟨s0, hs0, hrel0⟩ := forall₂_mem_rel_right hrel sink hsinkmem
                  refine ⟨s0, hs0, ?_, ?_⟩
                  · rw [hxfrom, ← findNode_id_eq hfind, hrel0.1]
                  · obtain ⟨hc, hhc⟩ := mGet_isSome_of_mem_keys hxto
                    have hroute0 : mGet s0.routingTable newSinkId = some routeEntry := by
                      rw [← hrel0.2.2.2.1]
                      exact hroute
                    have hSne : newSinkId ≠ s0.id := by
                      rw [← hrel0.1, findNode_id_eq hfind]
                      exact fun hh => hnes sid (List.mem_cons_self _ _) hh.symm
                    exact hinv s0 hs0 newSinkId routeEntry hSne hroute0 x.toNodeId hc hhc
                have hrel2 := syncOneSink_relFull st sid newSinkId now hnd
                have hrelm : List.Forall₂ RelFull m.nodes
                    (syncOneSink st sid newSinkId now).nodes :=
                  forall₂_trans_rel RelFull (fun _ _ _ hab hbc => relFull_trans hab hbc)
                    hrel hrel2
                have hnd2 : NodupIds (syncOneSink st sid newSinkId now).nodes :=
                  nodupIds_of_forall₂_full hrel2 hnd
                exact appendsWith_trans hstep
                  (ih (fun s hs => hnes s (List.mem_cons_of_mem _ hs)) _ hrelm hnd2)
          exact hfold _ hne m (forall₂_rel_refl relFull_refl m.nodes) hnodup

/-- C5 (amended): the messages created by the non-intelligent paths do go to
current neighbors — a send from a node in flooding or inactive mode, an
arrival-triggered forward in those modes, and a queue flush all address only
the emitting node's current connections; the new-link boundary replay
addresses only the newly linked peer; and the new-sink replay, which at every
call site runs on a state just produced by a routing pass (where each
surviving routing entry's next hops lie inside the node's current neighbor
set), addresses only current neighbors of the emitting sink. -/
theorem c5_neighbor_targets (m : ModelState) (fromId nodeId peerId syncSinkId : NodeId)
    (fromNode node : SimNode) (kind : MessageKind) (sev : Option Severity)
    (message : Message) (tid : TriageId) (qsev : Severity) (now : Int)
    (hfind : findNode m fromId = some fromNode)
    (hmode : fromNode.routingState.mode ≠ .intelligent)
    (hmode2 : node.routingState.mode ≠ .intelligent)
    (hnodup : NodupIds m.nodes) :
    AppendsWith (fun x => x.fromNodeId = fromId ∧ x.toNodeId ∈ fromNode.connections)
      m (sendMessage m fromId kind sev now) ∧
    AppendsWith (fun x => x.fromNodeId = node.id ∧ x.toNodeId ∈ node.connections)
      m (arrivalForward m node message now) ∧
    AppendsWith (fun x => x.fromNodeId = fromId ∧ x.toNodeId ∈ fromNode.connections)
      m (sendQueuedTriage m fromId tid qsev now) ∧
    AppendsWith (fun x => x.fromNodeId = nodeId ∧ x.toNodeId = peerId)
      m (newLinkReplay m nodeId peerId now) ∧
    AppendsWith (fun x => ∃ s ∈ (updateRoutingTables m now).nodes,
        x.fromNodeId = s.id ∧ x.toNodeId ∈ s.connections)
      (updateRoutingTables m now)
      (syncNewSinkFromExistingSinks (updateRoutingTables m now) syncSinkId now) :=
  ⟨sendMessage_nonintelligent m fromId fromNode kind sev now hfind hmode,
   arrivalForward_targets m node message now hmode2,
   sendQueuedTriage_targets m fromId fromNode tid qsev now hfind,
   newLinkReplay_endpoints m nodeId peerId now,
   syncNewSink_endpoints (updateRoutingTables m now) syncSinkId now
     (updateRoutingTables_nodupIds m now hnodup)
     (updateRoutingTables_hopsInConns m now hnodup)⟩


theorem c5_neighbor_targets_witness :
    AppendsWith (fun x => x.fromNodeId = 0 ∧ x.toNodeId ∈ c5WitNode.connections)
      c5WitModel (sendMessage c5WitModel 0 .triage (some .red) 1000) ∧
    AppendsWith (fun x => x.fromNodeId = c5WitNode.id ∧ x.toNodeId ∈ c5WitNode.connections)
      c5WitModel (arrivalForward c5WitModel c5WitNode
        (mkMessage 0 0 0 1000 .normal none none) 1000) ∧
    AppendsWith (fun x => x.fromNodeId = 0 ∧ x.toNodeId ∈ c5WitNode.connections)
      c5WitModel (sendQueuedTriage c5WitModel 0 0 .red 1000) ∧
    AppendsWith (fun x => x.fromNodeId = 0 ∧ x.toNodeId = 0)
      c5WitModel (newLinkReplay c5WitModel 0 0 1000) ∧
    AppendsWith (fun x => ∃ s ∈ (updateRoutingTables c5WitModel 1000).nodes,
        x.fromNodeId = s.id ∧ x.toNodeId ∈ s.connections)
      (updateRoutingTables c5WitModel 1000)
      (syncNewSinkFromExistingSinks (updateRoutingTables c5WitModel 1000) 0 1000) :=
  c5_neighbor_targets c5WitModel 0 0 0 0 c5WitNode c5WitNode .triage (some .red)
    (mkMessage 0 0 0 1000 .normal none none) 0 .red 1000
    (by decide) (by decide) (by decide) (by unfold NodupIds; decide)

end Foors
